import Mathlib

/-!
# Page-summary extraction (`src/handlers/summary.go`)

A shallow embedding of the page-summary handler: the Go runtime failures the
code can hit (`Panic`), the pieces of the Go standard library it calls
(`strings`, `strconv`, `net/url`), the token stream of
`golang.org/x/net/html`, and the repository's own functions `resolveLink`,
`generateIcon`, `getBasicInfo`, `getRel` and `extractSummary`.

Go strings that hold text are Lean `String`s (valid UTF-8); the percent-decoded
fields of a `net/url.URL`, which may hold arbitrary bytes, are lists of bytes.
-/

/-- The run-time failures of Go that the handler code can reach. -/
inductive Panic where
  | indexOutOfRange
  | nilDereference
  deriving DecidableEq, Repr

deriving instance DecidableEq for Except

/-! ## `strings` -/

namespace Strings

/-- Go `strings.HasPrefix`. -/
def HasPrefix (s pre : String) : Bool := pre.data.isPrefixOf s.data

/-- The pieces of `s` between the occurrences of the separator `sep`. -/
def splitChars (sep : Char) : List Char → List (List Char)
  | [] => [[]]
  | c :: cs =>
    if c = sep then [] :: splitChars sep cs
    else
      match splitChars sep cs with
      | [] => [[c]]
      | p :: ps => (c :: p) :: ps

/-- Go `strings.Split(s, sep)` for a one-character separator. -/
def Split (s : String) (sep : Char) : List String :=
  (splitChars sep s.data).map String.mk

/-- Go `strings.Cut(s, sep)` for a one-character separator: the text before
the first `sep`, the text after it, and whether `sep` occurs. -/
def cut (sep : Char) : List Char → List Char × List Char × Bool
  | [] => ([], [], false)
  | c :: cs =>
    if c = sep then ([], cs, true)
    else ((c :: (cut sep cs).1), (cut sep cs).2.1, (cut sep cs).2.2)

/-- The text before and after the last `sep` (Go `strings.LastIndex`), if any. -/
def cutLast (sep : Char) (s : List Char) : Option (List Char × List Char) :=
  let r := cut sep s.reverse
  if r.2.2 then some (r.2.1.reverse, r.1.reverse) else none

/-- The text before the first occurrence of `pat` and the text from it on
(Go `strings.Index`), if `pat` occurs. -/
def splitAtSub (pat : List Char) : List Char → Option (List Char × List Char)
  | [] => if pat = [] then some ([], []) else none
  | c :: cs =>
    if pat.isPrefixOf (c :: cs) then some ([], c :: cs)
    else (splitAtSub pat cs).map fun r => (c :: r.1, r.2)

/-- Go `unicode.IsSpace`. -/
def isSpace (c : Char) : Bool :=
  let n := c.toNat
  (9 ≤ n && n ≤ 13) || n = 32 || n = 0x85 || n = 0xA0 || n = 0x1680 ||
  (0x2000 ≤ n && n ≤ 0x200A) || n = 0x2028 || n = 0x2029 || n = 0x202F ||
  n = 0x205F || n = 0x3000

/-- Go `strings.TrimSpace`: leading and trailing white space removed. -/
def TrimSpace (s : String) : String :=
  String.mk ((s.data.dropWhile isSpace).reverse.dropWhile isSpace).reverse

end Strings

/-! ## `strconv` -/

namespace Strconv

/-- An ASCII decimal digit. -/
def isDigit (c : Char) : Bool := 48 ≤ c.toNat && c.toNat ≤ 57

/-- The number a string of decimal digits denotes. -/
def digitsValue (ds : List Char) : Nat :=
  ds.foldl (fun acc c => acc * 10 + (c.toNat - 48)) 0

/-- The two errors of a `strconv` conversion (`ErrSyntax`, `ErrRange`). -/
inductive NumError where
  | ErrSyntax
  | ErrRange
  deriving DecidableEq, Repr

/-- The largest `uint64`. -/
def maxUint64 : Nat := 18446744073709551615

/-- The loop of Go `strconv.ParseUint(s, 10, 64)` over the bytes of `s`, with
`n` the value read so far. A byte that is no decimal digit is a syntax error
with the value 0. A digit that would carry the value over the `uint64` range
is a range error with the value `maxUint64`, and the loop returns there: what
stands behind that digit is not looked at. -/
def parseUintLoop : List Char → Nat → Nat × Option NumError
  | [], n => (n, none)
  | c :: cs, n =>
    if ¬ isDigit c = true then (0, some .ErrSyntax)
    else if maxUint64 / 10 + 1 ≤ n then (maxUint64, some .ErrRange)
    else if maxUint64 < n * 10 + (c.toNat - 48) then (maxUint64, some .ErrRange)
    else parseUintLoop cs (n * 10 + (c.toNat - 48))

/-- Go `strconv.ParseUint(s, 10, 64)`: the empty string is a syntax error. -/
def ParseUint (s : List Char) : Nat × Option NumError :=
  if s = [] then (0, some .ErrSyntax) else parseUintLoop s 0

/-- Go `strconv.ParseInt(s, 10, 0)` with an `int` of 64 bits: the sign is
picked off, the rest is read by `ParseUint`. A syntax error gives 0; a range
error of `ParseUint`, or a value outside the `int64` range, gives the nearest
bound of that range with a range error. -/
def ParseInt (s : List Char) : Int × Option NumError :=
  if s = [] then (0, some .ErrSyntax)
  else
    let neg : Bool := s.head? = some '-'
    let ds := if s.head? = some '+' ∨ s.head? = some '-' then s.tail else s
    match ParseUint ds with
    | (_, some .ErrSyntax) => (0, some .ErrSyntax)
    | (un, _) =>
      if neg = false ∧ 2 ^ 63 ≤ un then ((2 ^ 63 - 1 : Int), some .ErrRange)
      else if neg = true ∧ 2 ^ 63 < un then (-(2 ^ 63 : Int), some .ErrRange)
      else (if neg then -(un : Int) else (un : Int), none)

/-- Go `strconv.Atoi` on a platform whose `int` has 64 bits: the value and
whether the error is nil. The fast path that `Atoi` takes for a string of
fewer than 19 bytes returns what `ParseInt` returns for it, so the model is
`ParseInt` throughout. A syntax error gives the value 0; a value out of range
gives the nearest bound together with an error, also when a byte that is no
digit stands behind the digits that left the range. -/
def Atoi (s : String) : Int × Bool :=
  ((ParseInt s.data).1, (ParseInt s.data).2.isNone)

end Strconv

/-! ## `net/url`

`Parse`, `(*URL).ResolveReference` and `(*URL).String` of the Go standard
library, which `resolveLink` calls. The functions follow the library function
by function; an error result is `none`. The library has changed between the
Go releases in two places that the functions below go through. `parseHost`
follows the releases that check the text between square brackets to be an
IPv6 address (before that change a host such as `a[b]` was accepted).
`resolvePath` follows the loop over `strings.Cut` with the builder `dst`; the
properties proved of `resolveLink` below use of its result only that it starts
with `/` for a reference path that starts with `/`. -/

namespace NetURL

/-- The `encoding` modes of `net/url`. -/
inductive Encoding where
  | encodePath
  | encodePathSegment
  | encodeHost
  | encodeZone
  | encodeUserPassword
  | encodeQueryComponent
  | encodeFragment
  deriving DecidableEq, Repr

/-- Whether the byte `c` is one of the (ASCII) characters of `s`. -/
def oneOf (c : Nat) (s : String) : Bool := s.data.any fun d => d.toNat = c

/-- The UTF-8 bytes of a character. -/
def utf8Bytes (c : Char) : List Nat :=
  let n := c.toNat
  if n < 0x80 then [n]
  else if n < 0x800 then [0xC0 + n / 64, 0x80 + n % 64]
  else if n < 0x10000 then [0xE0 + n / 4096, 0x80 + n / 64 % 64, 0x80 + n % 64]
  else [0xF0 + n / 262144, 0x80 + n / 4096 % 64, 0x80 + n / 64 % 64, 0x80 + n % 64]

/-- Go `ishex`. -/
def ishex (c : Char) : Bool :=
  let n := c.toNat
  (48 ≤ n && n ≤ 57) || (97 ≤ n && n ≤ 102) || (65 ≤ n && n ≤ 70)

/-- Go `unhex`. -/
def unhex (c : Char) : Nat :=
  let n := c.toNat
  if 48 ≤ n ∧ n ≤ 57 then n - 48
  else if 97 ≤ n ∧ n ≤ 102 then n - 97 + 10
  else if 65 ≤ n ∧ n ≤ 70 then n - 65 + 10
  else 0

/-- The hexadecimal digit of a number below 16 (Go `upperhex`). -/
def upperhex (n : Nat) : Char := "0123456789ABCDEF".data.getD n '0'

/-- Go `shouldEscape`: whether the byte `c` is written as `%XX` in the part
of a URL that `mode` names. -/
def shouldEscape (c : Nat) (mode : Encoding) : Bool :=
  if (97 ≤ c ∧ c ≤ 122) ∨ (65 ≤ c ∧ c ≤ 90) ∨ (48 ≤ c ∧ c ≤ 57) then false
  else if (mode = .encodeHost ∨ mode = .encodeZone) ∧ oneOf c "!$&'()*+,;=:[]<>\"" then false
  else if oneOf c "-_.~" then false
  else if oneOf c "$&+,/:;=?@" then
    match mode with
    | .encodePath => c = 63
    | .encodePathSegment => oneOf c "/;,?"
    | .encodeUserPassword => oneOf c "@/?:"
    | .encodeQueryComponent => true
    | .encodeFragment => false
    | _ => true
  else if mode = .encodeFragment ∧ oneOf c "!()*" then false
  else true

/-- Go `escape`: the bytes of `s`, those that `shouldEscape` names written as
`%XX` (a space as `+` in a query component). -/
def escape (s : List Nat) (mode : Encoding) : List Char :=
  s.flatMap fun c =>
    if shouldEscape c mode then
      if c = 32 ∧ mode = .encodeQueryComponent then ['+']
      else ['%', upperhex (c / 16), upperhex (c % 16)]
    else [Char.ofNat c]

/-- Go `unescape`: the bytes that the percent-encoded text `s` denotes, or
`none` where Go returns an `EscapeError` or `InvalidHostError`. -/
def unescape (mode : Encoding) : List Char → Option (List Nat)
  | [] => some []
  | c :: rest =>
    if c = '%' then
      match rest with
      | h1 :: h2 :: rest2 =>
        if ¬ (ishex h1 ∧ ishex h2) then none
        else if mode = .encodeHost ∧ unhex h1 < 8 ∧ ¬ (h1 = '2' ∧ h2 = '5') then none
        else if mode = .encodeZone ∧ ¬ (h1 = '2' ∧ h2 = '5') ∧
            unhex h1 * 16 + unhex h2 ≠ 32 ∧
            shouldEscape (unhex h1 * 16 + unhex h2) .encodeHost then none
        else (unescape mode rest2).map fun t => (unhex h1 * 16 + unhex h2) :: t
      | _ => none
    else if c = '+' then
      (unescape mode rest).map fun t =>
        (if mode = .encodeQueryComponent then 32 else 43) :: t
    else if (mode = .encodeHost ∨ mode = .encodeZone) ∧ c.toNat < 0x80 ∧
        shouldEscape c.toNat .encodeHost then none
    else (unescape mode rest).map fun t => utf8Bytes c ++ t

/-- Go `validEncoded`. -/
def validEncoded (s : List Char) (mode : Encoding) : Bool :=
  s.all fun c =>
    oneOf c.toNat "!$&'()*+,;=:@[]%" ||
      (c.toNat < 0x80 && ! shouldEscape c.toNat mode)

/-- Go `stringContainsCTLByte`. -/
def stringContainsCTLByte (s : List Char) : Bool :=
  s.any fun c => c.toNat < 32 || c.toNat = 0x7f

/-- Go `getScheme`: the scheme and the text after its colon; an empty scheme
when the text has none; `none` for the error "missing protocol scheme". -/
def getScheme (rawURL : List Char) : Option (List Char × List Char) :=
  let rec go : List Char → List Char → Option (List Char × List Char)
    | _, [] => some ([], rawURL)
    | seen, c :: cs =>
      let n := c.toNat
      if (97 ≤ n ∧ n ≤ 122) ∨ (65 ≤ n ∧ n ≤ 90) then go (seen ++ [c]) cs
      else if (48 ≤ n ∧ n ≤ 57) ∨ c = '+' ∨ c = '-' ∨ c = '.' then
        if seen = [] then some ([], rawURL) else go (seen ++ [c]) cs
      else if c = ':' then
        if seen = [] then none else some (seen, cs)
      else some ([], rawURL)
  go [] rawURL

/-- Go `*url.Userinfo`. -/
structure Userinfo where
  username : List Nat
  password : List Nat
  passwordSet : Bool
  deriving DecidableEq, Repr

/-- Go `url.URL`. `Path`, `Host`, `Fragment` and the user information hold
decoded bytes; the other fields hold text as it stood in the input. -/
structure URL where
  Scheme : String := ""
  Opaque : String := ""
  User : Option Userinfo := none
  Host : List Nat := []
  Path : List Nat := []
  RawPath : String := ""
  OmitHost : Bool := false
  ForceQuery : Bool := false
  RawQuery : String := ""
  Fragment : List Nat := []
  RawFragment : String := ""
  deriving DecidableEq, Repr

/-- Go `validUserinfo`. -/
def validUserinfo (s : List Char) : Bool :=
  s.all fun r =>
    let n := r.toNat
    (65 ≤ n && n ≤ 90) || (97 ≤ n && n ≤ 122) || (48 ≤ n && n ≤ 57) ||
      oneOf n "-._:~!$&'()*+,;=%@"

/-- Go `validOptionalPort`. -/
def validOptionalPort (port : List Char) : Bool :=
  match port with
  | [] => true
  | c :: ds => c = ':' && ds.all fun b => 48 ≤ b.toNat && b.toNat ≤ 57

/-- A byte that is a hexadecimal digit. -/
def ishexByte (b : Nat) : Bool :=
  (48 ≤ b && b ≤ 57) || (97 ≤ b && b ≤ 102) || (65 ≤ b && b ≤ 70)

/-- Go `netip.parseIPv4Fields`, as far as its error goes: whether the bytes
are four decimal fields of at most 255 without a leading zero, with dots
between them. `prev` is the byte before, `val` the value of the field so far,
`pos` the number of fields done, `digLen` the number of digits of the field. -/
def parseIPv4Fields : List Nat → Option Nat → Nat → Nat → Nat → Bool
  | [], _, _, pos, _ => decide (pos = 3)
  | c :: cs, prev, val, pos, digLen =>
    if 48 ≤ c ∧ c ≤ 57 then
      if digLen = 1 ∧ val = 0 then false
      else if 255 < val * 10 + (c - 48) then false
      else parseIPv4Fields cs (some c) (val * 10 + (c - 48)) pos (digLen + 1)
    else if c = 46 then
      if prev = none ∨ cs = [] ∨ prev = some 46 then false
      else if pos = 3 then false
      else parseIPv4Fields cs (some c) 0 (pos + 1) 0
    else false

/-- The end of Go `netip.parseIPv6`: the text must be used up, and the
address has 16 bytes, with `::` standing for at least one field. -/
def parseIPv6End (s : List Nat) (i : Nat) (ellipsis : Bool) : Bool :=
  if s ≠ [] then false else if i < 16 then ellipsis else ! ellipsis

/-- The loop of Go `netip.parseIPv6`, as far as its error goes: fields of one
to four hexadecimal digits with colons between them, `::` at most once, and
four decimal fields in the place of the last two. `i` is the number of bytes
of the address read so far, `ellipsis` whether `::` has been read. The loop
runs at most eight times, which the first argument counts. -/
def parseIPv6Loop : Nat → List Nat → Nat → Bool → Bool
  | 0, s, i, ellipsis => parseIPv6End s i ellipsis
  | fuel + 1, s, i, ellipsis =>
    if 16 ≤ i then parseIPv6End s i ellipsis
    else if 4 < (s.takeWhile ishexByte).length then false
    else if s.takeWhile ishexByte = [] then false
    else if (s.dropWhile ishexByte).head? = some 46 then
      if ellipsis = false ∧ i ≠ 12 then false
      else if 16 < i + 4 then false
      else if parseIPv4Fields s none 0 0 0 = false then false
      else parseIPv6End [] (i + 4) ellipsis
    else
      match s.dropWhile ishexByte with
      | [] => parseIPv6End [] (i + 2) ellipsis
      | c :: rest =>
        if c ≠ 58 then false
        else
          match rest with
          | [] => false
          | d :: rest2 =>
            if d = 58 then
              if ellipsis then false
              else if rest2 = [] then parseIPv6End [] (i + 2) true
              else parseIPv6Loop fuel rest2 (i + 2) true
            else parseIPv6Loop fuel rest (i + 2) ellipsis

/-- Go `netip.parseIPv6`, as far as its error goes: the zone behind a `%`
must not be empty, and the text before it is an IPv6 address. -/
def parseIPv6 (s : List Nat) : Bool :=
  let addr := s.takeWhile fun b => b ≠ 37
  let zone := s.dropWhile fun b => b ≠ 37
  if zone = [37] then false
  else if addr.take 2 = [58, 58] then
    if addr.drop 2 = [] then true else parseIPv6Loop 8 (addr.drop 2) 0 true
  else parseIPv6Loop 8 addr 0 false

/-- Whether Go `netip.ParseAddr` returns an address for the bytes `s` that is
no IPv4 address: the first of the bytes `.`, `:` and `%` in `s` is a `:` and
the bytes are an IPv6 address. -/
def isIPv6Addr (s : List Nat) : Bool :=
  match s.find? fun b => b = 46 ∨ b = 58 ∨ b = 37 with
  | some 58 => parseIPv6 s
  | _ => false

/-- Go `parseHost`. A host with a `[` is an IP literal: the text between the
last `[` and the last `]` must be an IPv6 address, and a port may follow. -/
def parseHost (host : List Char) : Option (List Nat) :=
  match Strings.cutLast '[' host with
  | some (beforeOpen, _) =>
    match Strings.cutLast ']' host with
    | none => none
    | some (upToClose, colonPort) =>
      if ¬ validOptionalPort colonPort then none
      else
        (unescape .encodeHost colonPort).bind fun unescapedColonPort =>
        (match Strings.splitAtSub ['%', '2', '5'] (upToClose.drop (beforeOpen.length + 1)) with
          | some (hostPart, zonePart) =>
            (unescape .encodeHost hostPart).bind fun h1 =>
            (unescape .encodeZone zonePart).map fun h2 => h1 ++ h2
          | none => unescape .encodeHost (upToClose.drop (beforeOpen.length + 1))).bind
        fun unescapedHostname =>
          if ¬ isIPv6Addr unescapedHostname then none
          else some (91 :: unescapedHostname ++ 93 :: unescapedColonPort)
  | none =>
    match Strings.cutLast ':' host with
    | some (_, port) =>
      if ¬ validOptionalPort (':' :: port) then none else unescape .encodeHost host
    | none => unescape .encodeHost host

/-- Go `parseAuthority`: the user information and the host of an authority. -/
def parseAuthority (authority : List Char) : Option (Option Userinfo × List Nat) :=
  match Strings.cutLast '@' authority with
  | none => (parseHost authority).map fun host => (none, host)
  | some (userinfo, hostText) =>
    (parseHost hostText).bind fun host =>
      if ¬ validUserinfo userinfo then none
      else if ¬ userinfo.contains ':' then
        (unescape .encodeUserPassword userinfo).map fun u =>
          (some { username := u, password := [], passwordSet := false }, host)
      else
        (unescape .encodeUserPassword (Strings.cut ':' userinfo).1).bind fun u =>
        (unescape .encodeUserPassword (Strings.cut ':' userinfo).2.1).map fun p =>
          (some { username := u, password := p, passwordSet := true }, host)

/-- Go `(*URL).setPath`: `none` when the path does not decode. -/
def URL.setPath (u : URL) (p : List Char) : Option URL :=
  (unescape .encodePath p).map fun path =>
    { u with Path := path,
             RawPath := if p = escape path .encodePath then "" else String.mk p }

/-- Go `(*URL).setFragment`. -/
def URL.setFragment (u : URL) (f : List Char) : Option URL :=
  (unescape .encodeFragment f).map fun frag =>
    { u with Fragment := frag,
             RawFragment := if f = escape frag .encodeFragment then "" else String.mk f }

/-- Go `(*URL).EscapedPath`. -/
def URL.EscapedPath (u : URL) : List Char :=
  if u.RawPath ≠ "" ∧ validEncoded u.RawPath.data .encodePath ∧
      unescape .encodePath u.RawPath.data = some u.Path then u.RawPath.data
  else if u.Path = [42] then ['*']
  else escape u.Path .encodePath

/-- Go `(*URL).EscapedFragment`. -/
def URL.EscapedFragment (u : URL) : List Char :=
  if u.RawFragment ≠ "" ∧ validEncoded u.RawFragment.data .encodeFragment ∧
      unescape .encodeFragment u.RawFragment.data = some u.Fragment then u.RawFragment.data
  else escape u.Fragment .encodeFragment

/-- An ASCII upper-case letter made lower case (Go `strings.ToLower` on a scheme). -/
def toLowerASCII (c : Char) : Char :=
  if 65 ≤ c.toNat ∧ c.toNat ≤ 90 then Char.ofNat (c.toNat + 32) else c

/-- The second half of Go `parse(rawURL, false)`: `url` holds the scheme and
the query, `rest` is the text between the two. -/
def parseRest (url : URL) (rest : List Char) : Option URL :=
  if rest.head? ≠ some '/' ∧ url.Scheme ≠ "" then some { url with Opaque := String.mk rest }
  else if rest.head? ≠ some '/' ∧ (Strings.cut '/' rest).1.contains ':' then none
  else if (url.Scheme ≠ "" ∨ ¬ ['/', '/', '/'].isPrefixOf rest) ∧ ['/', '/'].isPrefixOf rest then
    let authority := (Strings.cut '/' (rest.drop 2)).1
    let afterAuthority :=
      if (Strings.cut '/' (rest.drop 2)).2.2 then '/' :: (Strings.cut '/' (rest.drop 2)).2.1
      else []
    (parseAuthority authority).bind fun uh =>
      URL.setPath { url with User := uh.1, Host := uh.2 } afterAuthority
  else if url.Scheme ≠ "" ∧ rest.head? = some '/' then
    URL.setPath { url with OmitHost := true } rest
  else URL.setPath url rest

/-- Go `parse(rawURL, false)`: a URL without its fragment. -/
def parse (rawURL : List Char) : Option URL :=
  if stringContainsCTLByte rawURL then none
  else if rawURL = ['*'] then some { Path := [42] }
  else
    match getScheme rawURL with
    | none => none
    | some (sch, afterScheme) =>
      let onlyMark : Bool := afterScheme.getLast? = some '?' ∧ afterScheme.count '?' = 1
      parseRest
        { Scheme := String.mk (sch.map toLowerASCII), ForceQuery := onlyMark,
          RawQuery := if onlyMark then "" else String.mk (Strings.cut '?' afterScheme).2.1 }
        (if onlyMark then afterScheme.dropLast else (Strings.cut '?' afterScheme).1)

/-- Go `url.Parse`: `none` where Go returns a nil URL and an error. -/
def Parse (rawURL : String) : Option URL :=
  (parse (Strings.cut '#' rawURL.data).1).bind fun url =>
    if (Strings.cut '#' rawURL.data).2.1 = [] then some url
    else url.setFragment (Strings.cut '#' rawURL.data).2.1

/-- The last index of `/` in `s`, if any (Go `strings.LastIndex`). -/
def lastSlash (s : List Char) : Option Nat :=
  (Strings.cutLast '/' s).map fun r => r.1.length

/-- The loop of Go `resolvePath` over the elements of the path: `dst` is the
text written so far, `first` whether no element has been written yet. -/
def resolveElems : List (List Char) → List Char → Bool → List Char
  | [], dst, _ => dst
  | elem :: elems, dst, first =>
    if elem = ['.'] then resolveElems elems dst false
    else if elem = ['.', '.'] then
      match lastSlash dst.tail with
      | none => resolveElems elems ['/'] true
      | some index => resolveElems elems ('/' :: dst.tail.take index) first
    else resolveElems elems ((if first then dst else dst ++ ['/']) ++ elem) false

/-- The second half of Go `resolvePath`: the dot segments of the non-empty
path `full` removed, with one leading `/`. -/
def removeDots (full : List Char) : List Char :=
  let elems := Strings.splitChars '/' full
  let dst := resolveElems elems ['/'] true
  let dst := if elems.getLast? = some ['.'] ∨ elems.getLast? = some ['.', '.']
    then dst ++ ['/'] else dst
  if 1 < dst.length ∧ dst.get? 1 = some '/' then dst.tail else dst

/-- The first half of Go `resolvePath`: the reference path `ref` put behind
the directory of `base`, unless it is empty or starts with `/`. -/
def joinPath (base ref : List Char) : List Char :=
  if ref = [] then base
  else if ref.head? ≠ some '/' then
    (match lastSlash base with
      | none => []
      | some i => base.take (i + 1)) ++ ref
  else ref

/-- Go `resolvePath`: the reference path `ref` resolved against `base`, dot
segments removed. -/
def resolvePath (base ref : List Char) : List Char :=
  if joinPath base ref = [] then [] else removeDots (joinPath base ref)

/-- Go `(*Userinfo).String` for a non-nil receiver. -/
def Userinfo.String (u : Userinfo) : List Char :=
  escape u.username .encodeUserPassword ++
    (if u.passwordSet then ':' :: escape u.password .encodeUserPassword else [])

/-- Go `(*URL).ResolveReference`. The receiver and the argument are
pointers: `none` is a nil pointer, and reading a field through it panics. -/
def ResolveReference (u ref : Option URL) : Except Panic URL :=
  match ref with
  | none => .error .nilDereference
  | some ref =>
    if ref.Scheme ≠ "" then
      .ok ((ref.setPath (resolvePath ref.EscapedPath [])).getD ref)
    else
      match u with
      | none => .error .nilDereference
      | some u =>
        let url := { ref with Scheme := u.Scheme }
        if ref.Host ≠ [] ∨ ref.User ≠ none then
          .ok ((url.setPath (resolvePath ref.EscapedPath [])).getD url)
        else if ref.Opaque ≠ "" then
          .ok { url with User := none, Host := [], Path := [] }
        else
          let url :=
            if ref.Path = [] ∧ ¬ ref.ForceQuery ∧ ref.RawQuery = "" then
              if ref.Fragment = [] then
                { url with RawQuery := u.RawQuery, Fragment := u.Fragment,
                           RawFragment := u.RawFragment }
              else { url with RawQuery := u.RawQuery }
            else url
          if ref.Path = [] ∧ u.Opaque ≠ "" then
            .ok { url with Opaque := u.Opaque, User := none, Host := [], Path := [] }
          else
            let url := { url with Host := u.Host, User := u.User }
            .ok ((url.setPath (resolvePath u.EscapedPath ref.EscapedPath)).getD url)

/-- The authority of a URL as `(*URL).String` writes it: the user
information with its `@`, then the escaped host. -/
def URL.authorityText (u : URL) : List Char :=
  (match u.User with
    | some ui => ui.String ++ ['@']
    | none => []) ++
  (if u.Host ≠ [] then escape u.Host .encodeHost else [])

/-- Go `(*URL).String` for a non-nil receiver. -/
def URL.String (u : URL) : String :=
  let scheme := if u.Scheme ≠ "" then u.Scheme.data ++ [':'] else []
  let body :=
    if u.Opaque ≠ "" then scheme ++ u.Opaque.data
    else
      let authority :=
        if u.Scheme ≠ "" ∨ u.Host ≠ [] ∨ u.User ≠ none then
          if u.OmitHost ∧ u.Host = [] ∧ u.User = none then []
          else
            (if u.Host ≠ [] ∨ u.Path ≠ [] ∨ u.User ≠ none then ['/', '/'] else []) ++
              u.authorityText
        else []
      let path := u.EscapedPath
      let buf := scheme ++ authority
      let buf := if path ≠ [] ∧ path.head? ≠ some '/' ∧ u.Host ≠ [] then buf ++ ['/'] else buf
      let buf :=
        if buf = [] ∧ (Strings.cut '/' path).1.contains ':' then buf ++ ['.', '/'] else buf
      buf ++ path
  let query := if u.ForceQuery ∨ u.RawQuery ≠ "" then '?' :: u.RawQuery.data else []
  let fragment := if u.Fragment ≠ [] then '#' :: u.EscapedFragment else []
  String.mk (body ++ query ++ fragment)

end NetURL

/-! ## `golang.org/x/net/html`: the token stream -/

namespace Html

/-- The types of token that `Tokenizer.Next` returns before the stream ends.
Go's `ErrorToken` is the end of the token list of a `Tokenizer`. -/
inductive TokenType where
  | TextToken
  | StartTagToken
  | EndTagToken
  | SelfClosingTagToken
  | CommentToken
  | DoctypeToken
  deriving DecidableEq, Repr

/-- Go `html.Attribute`. -/
structure Attribute where
  Namespace : String := ""
  Key : String
  Val : String
  deriving DecidableEq, Repr

/-- Go `html.Token`. -/
structure Token where
  Type_ : TokenType
  Data : String := ""
  Attr : List Attribute := []
  deriving DecidableEq, Repr

/-- What `Tokenizer.Err` reports once the tokens are exhausted: `io.EOF`, or
another error of the underlying reader. -/
inductive StreamError where
  | EOF
  | other
  deriving DecidableEq, Repr

/-- A tokenizer over an input: the tokens that successive calls of `Next`
yield, and the error that `Next` reports from then on (every later call
returns `ErrorToken` again). -/
structure Tokenizer where
  tokens : List Token
  err : StreamError := .EOF
  deriving DecidableEq, Repr

end Html

/-! ## `handlers`: the summary code -/

namespace Handlers

open Html

/-- The struct `PreviewImage`. -/
structure PreviewImage where
  URL : String := ""
  SecureURL : String := ""
  Type_ : String := ""
  Width : Int := 0
  Height : Int := 0
  Alt : String := ""
  deriving DecidableEq, Repr

/-- The struct `PageSummary`. A nil slice or pointer is `none`. -/
structure PageSummary where
  Type_ : String := ""
  URL : String := ""
  Title : String := ""
  SiteName : String := ""
  Description : String := ""
  Author : String := ""
  Keywords : Option (List String) := none
  Icon : Option PreviewImage := none
  Images : Option (List PreviewImage) := none
  deriving DecidableEq, Repr

/-- The message of the error that `extractSummary` returns. -/
def parseErrorMessage : String := "Error encountered in processing the web page"

/-- The function `resolveLink`. Both results of `url.Parse` are used without
a look at the error, so a URL that does not parse is a nil pointer in
`ResolveReference`. -/
def resolveLink (path pageURL : String) : Except Panic String :=
  if ¬ Strings.HasPrefix path "/" then .ok path
  else
    match NetURL.ResolveReference (NetURL.Parse pageURL) (NetURL.Parse path) with
    | .ok url => .ok url.String
    | .error p => .error p

/-- The function `getBasicInfo`: the values of the attributes `property`,
`name` and `content`, each the last of its key. -/
def getBasicInfo (t : Token) : String × String × String :=
  t.Attr.foldl
    (fun r a =>
      (if a.Key = "property" then a.Val else r.1,
       if a.Key = "name" then a.Val else r.2.1,
       if a.Key = "content" then a.Val else r.2.2))
    ("", "", "")

/-- The function `getRel`: the value of the first attribute `rel`. -/
def getRel (t : Token) : String :=
  match t.Attr.find? fun a => a.Key = "rel" with
  | some a => a.Val
  | none => ""

/-- The element `i` of a slice; out of range it panics. -/
def index {α : Type} (xs : List α) (i : Nat) : Except Panic α :=
  match xs.get? i with
  | some x => .ok x
  | none => .error .indexOutOfRange

/-- The `sizes` branch of `generateIcon` for a value other than `any`. -/
def iconSizes (val : String) (result : PreviewImage) : Except Panic PreviewImage :=
  let heiWid := Strings.Split val 'x'
  match index heiWid 0 with
  | .error p => .error p
  | .ok s0 =>
    let result := if (Strconv.Atoi s0).2 then { result with Height := (Strconv.Atoi s0).1 } else result
    match index heiWid 1 with
    | .error p => .error p
    | .ok s1 =>
      .ok (if (Strconv.Atoi s1).2 then { result with Width := (Strconv.Atoi s1).1 } else result)

/-- The body of the loop of `generateIcon` for one attribute. -/
def iconAttr (pageURL : String) (result : PreviewImage) (a : Attribute) :
    Except Panic PreviewImage :=
  match (if a.Key = "href" then
      match resolveLink a.Val pageURL with
      | .ok u => .ok { result with URL := u }
      | .error p => .error p
    else .ok result : Except Panic PreviewImage) with
  | .error p => .error p
  | .ok result =>
    let result := if a.Key = "type" then { result with Type_ := a.Val } else result
    if a.Key = "sizes" ∧ a.Val ≠ "any" then iconSizes a.Val result else .ok result

/-- The loop of `generateIcon` over the attributes. -/
def iconLoop (pageURL : String) : List Attribute → PreviewImage → Except Panic PreviewImage
  | [], result => .ok result
  | a :: attrs, result =>
    match iconAttr pageURL result a with
    | .error p => .error p
    | .ok result => iconLoop pageURL attrs result

/-- The function `generateIcon`. -/
def generateIcon (t : Token) (pageURL : String) : Except Panic PreviewImage :=
  iconLoop pageURL t.Attr {}

/-- An assignment to a field of `imgs[len(imgs)-1]`: it panics on an empty
slice. -/
def setLast (imgs : List PreviewImage) (f : PreviewImage → PreviewImage) :
    Except Panic (List PreviewImage) :=
  match imgs.getLast? with
  | none => .error .indexOutOfRange
  | some img => .ok (imgs.dropLast ++ [f img])

/-- The rules of `extractSummary` for the image list (`og:image` and the
image-detail properties). -/
def imageRules (pageURL property content : String) (imgs : List PreviewImage) :
    Except Panic (List PreviewImage) :=
  match (if property = "og:image" then
      match resolveLink content pageURL with
      | .ok u => .ok (imgs ++ [{ URL := u }])
      | .error p => .error p
    else .ok imgs : Except Panic (List PreviewImage)) with
  | .error p => .error p
  | .ok imgs =>
  match (if property = "og:image:secure_url" then
      setLast imgs fun i => { i with SecureURL := content } else .ok imgs) with
  | .error p => .error p
  | .ok imgs =>
  match (if property = "og:image:type" then
      setLast imgs fun i => { i with Type_ := content } else .ok imgs) with
  | .error p => .error p
  | .ok imgs =>
  match (if property = "og:image:width" then
      setLast imgs fun i => { i with Width := (Strconv.Atoi content).1 } else .ok imgs) with
  | .error p => .error p
  | .ok imgs =>
  match (if property = "og:image:height" then
      setLast imgs fun i => { i with Height := (Strconv.Atoi content).1 } else .ok imgs) with
  | .error p => .error p
  | .ok imgs =>
  if property = "og:image:alt" then setLast imgs fun i => { i with Alt := content }
  else .ok imgs

/-- The rules of `extractSummary` for the scalar fields and the keywords,
in the order of the source. -/
def scalarRules (property name content : String) (result : PageSummary) : PageSummary :=
  let result := if property = "og:title" then { result with Title := content } else result
  let result := if property = "og:type" then { result with Type_ := content } else result
  let result := if property = "og:url" then { result with URL := content } else result
  let result := if property = "og:site_name" then { result with SiteName := content } else result
  let result :=
    if name = "description" ∧ result.Description = "" then
      { result with Description := content } else result
  let result :=
    if property = "og:description" then { result with Description := content } else result
  let result := if name = "author" then { result with Author := content } else result
  if name = "keywords" then
    { result with Keywords := some ((Strings.Split content ',').map Strings.TrimSpace) }
  else result

/-- What `extractSummary` does with a start or self-closing tag after the
look-ahead for the title text. -/
def tagRules (pageURL : String) (token : Token) (result : PageSummary)
    (imgs : List PreviewImage) : Except Panic (PageSummary × List PreviewImage) :=
  let info := getBasicInfo token
  let result := scalarRules info.1 info.2.1 info.2.2 result
  match (if token.Data = "link" ∧ getRel token = "icon" then
      match generateIcon token pageURL with
      | .ok icon => .ok { result with Icon := some icon }
      | .error p => .error p
    else .ok result : Except Panic PageSummary) with
  | .error p => .error p
  | .ok result =>
    match imageRules pageURL info.1 info.2.2 imgs with
    | .error p => .error p
    | .ok imgs => .ok (result, imgs)

/-- The end of `extractSummary`: the images are attached when there are any. -/
def finish (result : PageSummary) (imgs : List PreviewImage) :
    Option PageSummary × Option String :=
  (some (if 0 < imgs.length then { result with Images := some imgs } else result), none)

/-- What `extractSummary` returns when `Next` yields `ErrorToken`. -/
def atError (err : StreamError) (result : PageSummary) (imgs : List PreviewImage) :
    Option PageSummary × Option String :=
  match err with
  | .EOF => finish result imgs
  | .other => (none, some parseErrorMessage)

/-- The loop of `extractSummary` over the tokens that `Next` yields, with the
summary and the image list built so far. -/
def scan (pageURL : String) (err : StreamError) :
    List Token → PageSummary → List PreviewImage →
      Except Panic (Option PageSummary × Option String)
  | [], result, imgs => .ok (atError err result imgs)
  | token :: rest, result, imgs =>
    if token.Type_ = .EndTagToken ∧ token.Data = "head" then .ok (finish result imgs)
    else if token.Type_ = .StartTagToken ∨ token.Type_ = .SelfClosingTagToken then
      if token.Data = "title" ∧ result.Title = "" then
        match rest with
        | [] =>
          match tagRules pageURL token result imgs with
          | .error p => .error p
          | .ok s => .ok (atError err s.1 s.2)
        | next :: rest2 =>
          match tagRules pageURL token
              (if next.Type_ = .TextToken then { result with Title := next.Data } else result)
              imgs with
          | .error p => .error p
          | .ok s => scan pageURL err rest2 s.1 s.2
      else
        match tagRules pageURL token result imgs with
        | .error p => .error p
        | .ok s => scan pageURL err rest s.1 s.2
    else scan pageURL err rest result imgs

/-- The function `extractSummary`: the summary pointer and the error it
returns, or the panic it ends in. -/
def extractSummary (pageURL : String) (htmlStream : Tokenizer) :
    Except Panic (Option PageSummary × Option String) :=
  scan pageURL htmlStream.err htmlStream.tokens {} []

end Handlers

/-! ## Notions used to state the properties of `extractSummary` -/

namespace Handlers

open Html

/-- A start tag or a self-closing tag: the tokens whose attributes
`extractSummary` reads. -/
def isTag (t : Token) : Bool :=
  t.Type_ = .StartTagToken ∨ t.Type_ = .SelfClosingTagToken

/-- The end tag `head`. -/
def isEndHead (t : Token) : Bool :=
  t.Type_ = .EndTagToken ∧ t.Data = "head"

/-- A start or self-closing tag named `title`. -/
def isTitleTag (t : Token) : Bool :=
  isTag t ∧ t.Data = "title"

/-- The attribute `property` of a tag, as `getBasicInfo` reads it. -/
def property (t : Token) : String := (getBasicInfo t).1

/-- The attribute `name` of a tag, as `getBasicInfo` reads it. -/
def name (t : Token) : String := (getBasicInfo t).2.1

/-- The attribute `content` of a tag, as `getBasicInfo` reads it. -/
def content (t : Token) : String := (getBasicInfo t).2.2

/-- A tag whose property is `p`. -/
def carries (p : String) (t : Token) : Bool :=
  isTag t && decide (property t = p)

/-- An image-detail property. -/
def isDetail (p : String) : Bool :=
  p = "og:image:secure_url" ∨ p = "og:image:type" ∨ p = "og:image:width" ∨
    p = "og:image:height" ∨ p = "og:image:alt"

/-- A tag whose property is `og:image` or an image-detail property. -/
def carriesImage (t : Token) : Bool :=
  isTag t && (decide (property t = "og:image") || isDetail (property t))

/-- No token that `P` names and no `</head>` stands directly behind a `title`
tag: the token that `extractSummary` reads ahead for the title text, and drops
unless it is text, is then never one of those. -/
def LookaheadSafe (P : Token → Bool) : List Token → Bool
  | [] => true
  | t :: rest =>
    (match rest with
      | [] => true
      | n :: _ => ! (isTitleTag t && (P n || isEndHead n))) && LookaheadSafe P rest

/-- The tokens of the head: those before the first end tag `head`. -/
def headTokens (toks : List Token) : List Token :=
  toks.takeWhile fun t => ! isEndHead t

/-- The start and self-closing tags of the head. -/
def headTags (toks : List Token) : List Token :=
  (headTokens toks).filter isTag

/-- The content of the last of `tags` whose property is `p`, if there is one. -/
def lastContent (p : String) (tags : List Token) : Option String :=
  ((tags.filter fun t => property t = p).getLast?).map content

/-- The title rule of `extractSummary` as a function of the token that
follows the tag (`none` at the end of the stream). -/
def titleRule (token : Token) (next : Option Token) (result : PageSummary) : PageSummary :=
  if token.Data = "title" ∧ result.Title = "" then
    match next with
    | some n => if n.Type_ = .TextToken then { result with Title := n.Data } else result
    | none => result
  else result

/-- The tags up to the next `og:image` property. -/
def leadingTags (tags : List Token) : List Token :=
  tags.takeWhile fun t => property t ≠ "og:image"

/-- For each `og:image` tag, in order: its content, and the tags that stand
behind it and before the next `og:image` tag. -/
def imageSegments : List Token → List (String × List Token)
  | [] => []
  | t :: rest =>
    if property t = "og:image" then (content t, leadingTags rest) :: imageSegments rest
    else imageSegments rest

/-- The record `img` with each of its detail fields replaced by the last
value that the tags `seg` give for it; a field that no tag names is kept. -/
def withDetails (img : PreviewImage) (seg : List Token) : PreviewImage :=
  { URL := img.URL,
    SecureURL := (lastContent "og:image:secure_url" seg).getD img.SecureURL,
    Type_ := (lastContent "og:image:type" seg).getD img.Type_,
    Width := ((lastContent "og:image:width" seg).map fun c => (Strconv.Atoi c).1).getD img.Width,
    Height :=
      ((lastContent "og:image:height" seg).map fun c => (Strconv.Atoi c).1).getD img.Height,
    Alt := (lastContent "og:image:alt" seg).getD img.Alt }

/-- The image record of an `og:image` property with the resolved URL `u`,
followed by the tags `seg`: the details are taken from `seg`, the others are
unset. -/
def imageRecord (u : String) (seg : List Token) : PreviewImage :=
  withDetails { URL := u } seg

/-- The record `img` is the one of the `og:image` tag with content `cs.1`
that is followed by the tags `cs.2`. -/
def IsImageOf (pageURL : String) (img : PreviewImage) (cs : String × List Token) : Prop :=
  resolveLink cs.1 pageURL = .ok img.URL ∧ img = imageRecord img.URL cs.2

/-- What the image-detail rules do to the last record for one tag with
property `p` and content `c`. -/
def updDetail (p c : String) (img : PreviewImage) : PreviewImage :=
  { URL := img.URL,
    SecureURL := if p = "og:image:secure_url" then c else img.SecureURL,
    Type_ := if p = "og:image:type" then c else img.Type_,
    Width := if p = "og:image:width" then (Strconv.Atoi c).1 else img.Width,
    Height := if p = "og:image:height" then (Strconv.Atoi c).1 else img.Height,
    Alt := if p = "og:image:alt" then c else img.Alt }

/-- The image rules applied to the tags in turn. -/
def foldImages (pageURL : String) : List Token → List PreviewImage →
    Except Panic (List PreviewImage)
  | [], imgs => .ok imgs
  | t :: tags, imgs =>
    match imageRules pageURL (property t) (content t) imgs with
    | .error p => .error p
    | .ok imgs => foldImages pageURL tags imgs

/-! ### Tokens for the examples -/

/-- A start tag without attributes. -/
def startTag (name : String) : Token := { Type_ := .StartTagToken, Data := name }

/-- An end tag. -/
def endTag (name : String) : Token := { Type_ := .EndTagToken, Data := name }

/-- A text token. -/
def textToken (data : String) : Token := { Type_ := .TextToken, Data := data }

/-- The tag `<meta property=p content=c>`. -/
def metaProperty (p c : String) : Token :=
  { Type_ := .StartTagToken, Data := "meta",
    Attr := [{ Key := "property", Val := p }, { Key := "content", Val := c }] }

/-- The tag `<meta name=n content=c>`. -/
def metaName (n c : String) : Token :=
  { Type_ := .StartTagToken, Data := "meta",
    Attr := [{ Key := "name", Val := n }, { Key := "content", Val := c }] }

/-- The tag `<link rel="icon" sizes=sizes href=href>`. -/
def linkIcon (sizes href : String) : Token :=
  { Type_ := .StartTagToken, Data := "link",
    Attr := [{ Key := "rel", Val := "icon" }, { Key := "sizes", Val := sizes },
             { Key := "href", Val := href }] }

end Handlers

/-! ## The HTTP side: `fetchHTML` and `SummaryHandler` -/

namespace NetHTTP

/-- A header (`http.Header`) as the list of its lines in the order in which
they were added; the keys are in canonical form. -/
structure Header where
  lines : List (String × String) := []
  deriving DecidableEq, Repr

/-- The method `Header.Get`: the first value of the key, or the empty string. -/
def Header.Get (h : Header) (key : String) : String :=
  match h.lines.find? fun kv => kv.1 = key with
  | some kv => kv.2
  | none => ""

/-- The method `Header.Add`. -/
def Header.Add (h : Header) (key value : String) : Header :=
  { lines := h.lines ++ [(key, value)] }

/-- The method `Header.Set`: the key keeps the new value only. -/
def Header.Set (h : Header) (key value : String) : Header :=
  { lines := (h.lines.filter fun kv => kv.1 ≠ key) ++ [(key, value)] }

/-- The parameters of a query string (`url.Values`), decoded, in order. -/
structure Values where
  pairs : List (String × String) := []
  deriving DecidableEq, Repr

/-- The method `Values.Get`: the first value of the key, or the empty string. -/
def Values.Get (v : Values) (key : String) : String :=
  match v.pairs.find? fun kv => kv.1 = key with
  | some kv => kv.2
  | none => ""

/-- What the handlers read of the request: `r.URL.Query()` and `r.Header`. -/
structure Request where
  Query : Values := {}
  Header : Header := {}
  deriving DecidableEq, Repr

/-- What the code reads of the response that `http.Get` hands over. The body
is given as the token stream that `html.NewTokenizer` yields from it. -/
structure Response where
  StatusCode : Int
  Header : Header := {}
  Body : Html.Tokenizer := { tokens := [] }
  deriving DecidableEq, Repr

/-- The constants `http.StatusOK`, `http.StatusBadRequest` and
`http.StatusInternalServerError`. -/
def StatusOK : Int := 200

def StatusBadRequest : Int := 400

def StatusInternalServerError : Int := 500

end NetHTTP

namespace JSON

/-- A JSON string, number or null. -/
inductive Scalar where
  | null
  | str (s : String)
  | num (n : Int)
  deriving DecidableEq, Repr

/-- A JSON object whose values are scalars. -/
abbrev Record := List (String × Scalar)

/-- The JSON values that stand in the document of a page summary: scalars,
lists of strings, objects of scalars and lists of such objects. -/
inductive Value where
  | null
  | str (s : String)
  | num (n : Int)
  | strs (xs : List String)
  | obj (fields : Record)
  | objs (xs : List Record)
  deriving DecidableEq, Repr

/-- A JSON document: `null` or an object. -/
inductive Document where
  | null
  | obj (fields : List (String × Value))
  deriving DecidableEq, Repr

/-- A string field with the option `omitempty`. -/
def stringField (key v : String) : Record :=
  if v = "" then [] else [(key, .str v)]

/-- An `int` field with the option `omitempty`. -/
def intField (key : String) (v : Int) : Record :=
  if v = 0 then [] else [(key, .num v)]

end JSON

namespace NetHTTP

/-- A piece written to the body of the response. -/
inductive Chunk where
  | text (s : String)
  | json (doc : JSON.Document)
  deriving DecidableEq, Repr

/-- The state of an `http.ResponseWriter`: the header map, the status code
once it is written, the body written so far, and the header as it was sent:
the library sends the header map as it stands when the status code is
written, and what is put into the map later does not reach the client. -/
structure ResponseWriter where
  header : Header := {}
  status : Option Int := none
  body : List Chunk := []
  sent : Option Header := none
  deriving DecidableEq, Repr

/-- The method `WriteHeader`: the first status code counts, and the header
map goes out with it. -/
def ResponseWriter.WriteHeader (w : ResponseWriter) (code : Int) : ResponseWriter :=
  match w.status with
  | some _ => w
  | none => { w with status := some code, sent := some w.header }

/-- The method `Write`: it writes the status 200 when none was written. -/
def ResponseWriter.Write (w : ResponseWriter) (c : Chunk) : ResponseWriter :=
  let w := w.WriteHeader StatusOK
  { w with body := w.body ++ [c] }

/-- The function `http.Error`: plain-text content type, the status code, and
the message with a line end as body. (The headers that later versions of the
library delete here, such as `Content-Length`, are never set by the handler.) -/
def Error (w : ResponseWriter) (error : String) (code : Int) : ResponseWriter :=
  let h := Header.Set w.header "Content-Type" "text/plain; charset=utf-8"
  let w := { w with header := Header.Set h "X-Content-Type-Options" "nosniff" }
  let w := w.WriteHeader code
  w.Write (.text (error ++ "\n"))

end NetHTTP

namespace Handlers

open Html NetHTTP

/-- The constants `headerCORS` and `corsAnyOrig`. -/
def headerCORS : String := "Access-Control-Allow-Origin"

def corsAnyOrig : String := "*"

/-- The function `fetchHTML`, with `http.Get` as the parameter `get`: the
body stream and the error it returns. -/
def fetchHTML (get : String → Except String Response) (pageURL : String) :
    Option Tokenizer × Option String :=
  match get pageURL with
  | .error err => (none, some err)
  | .ok resp =>
    if resp.StatusCode ≠ StatusOK then (none, some "Provided url was not found")
    else if ¬ Strings.HasPrefix (resp.Header.Get "Content-Type") "text/html" then
      (none, some "Provided url is not a web page")
    else (some resp.Body, none)

/-- The JSON object of a `PreviewImage`, by its struct tags. -/
def marshalImage (i : PreviewImage) : JSON.Record :=
  JSON.stringField "url" i.URL ++ JSON.stringField "secureURL" i.SecureURL ++
    JSON.stringField "type" i.Type_ ++ JSON.intField "width" i.Width ++
    JSON.intField "height" i.Height ++ JSON.stringField "alt" i.Alt

/-- A string field of `PageSummary` with the option `omitempty`. -/
def summaryString (key v : String) : List (String × JSON.Value) :=
  if v = "" then [] else [(key, .str v)]

/-- The JSON object of a `PageSummary`, by its struct tags: a slice of length
zero and a nil pointer are left out. -/
def marshalSummary (s : PageSummary) : List (String × JSON.Value) :=
  summaryString "type" s.Type_ ++ summaryString "url" s.URL ++
    summaryString "title" s.Title ++ summaryString "siteName" s.SiteName ++
    summaryString "description" s.Description ++ summaryString "author" s.Author ++
    (match s.Keywords with
      | some (k :: ks) => [("keywords", .strs (k :: ks))]
      | _ => []) ++
    (match s.Icon with
      | some i => [("icon", .obj (marshalImage i))]
      | none => []) ++
    (match s.Images with
      | some (i :: imgs) => [("images", .objs ((i :: imgs).map marshalImage))]
      | _ => [])

/-- The call `json.Marshal(sumData)`: the document and the error. A nil
pointer gives `null`; these types never give an error. -/
def jsonMarshal (sumData : Option PageSummary) : JSON.Document × Option String :=
  match sumData with
  | none => (.null, none)
  | some s => (.obj (marshalSummary s), none)

/-- How a call of `SummaryHandler` ends: what was written to the response,
whether the stream that `fetchHTML` returned (if it returned one) is closed
when the handler is left, and the panic in which it ended, if any. -/
structure Outcome where
  w : ResponseWriter
  stream : Option Bool := none
  panic : Option Panic := none
  deriving DecidableEq, Repr

/-- The function `SummaryHandler`, with `http.Get` as the parameter `get`.
The deferred `stream.Close()` is registered only behind the error check of
`extractSummary`, so it runs on the paths behind that point. A nil stream
with a nil error, which `fetchHTML` never returns, would be read through a nil
pointer. -/
def SummaryHandler (get : String → Except String Response) (w : ResponseWriter)
    (r : Request) : Outcome :=
  let w := { w with header := w.header.Add headerCORS corsAnyOrig }
  let url := r.Query.Get "url"
  if url = "" then { w := Error w "Url not supplied" StatusBadRequest }
  else
    match fetchHTML get url with
    | (_, some err) => { w := Error w err StatusBadRequest }
    | (none, none) => { w := w, panic := some .nilDereference }
    | (some stream, none) =>
      match extractSummary url stream with
      | .error p => { w := w, stream := some false, panic := some p }
      | .ok (_, some err) =>
        { w := Error w err StatusInternalServerError, stream := some false }
      | .ok (sumData, none) =>
        match jsonMarshal sumData with
        | (_, some err) =>
          { w := Error w err StatusInternalServerError, stream := some true }
        | (finSum, none) =>
          { w := ({ w with header := w.header.Add "Content-Type" "application/json" }).Write
              (.json finSum),
            stream := some true }

/-- A call that `SummaryHandler` makes: on the response writer
(`w.Header().Add`, `http.Error`, `w.Write`), on the request
(`r.URL.Query().Get`), or one of `fetchHTML`, `extractSummary` and
`json.Marshal`. -/
inductive Call where
  | headerAdd (key value : String)
  | queryGet (key : String)
  | fetchHTML (url : String)
  | extractSummary (url : String)
  | jsonMarshal
  | httpError (error : String) (code : Int)
  | write (c : Chunk)
  deriving DecidableEq, Repr

/-- The calls of `SummaryHandler` in the order of its statements, up to the
return or the panic. -/
def SummaryHandler.calls (get : String → Except String Response) (r : Request) : List Call :=
  .headerAdd headerCORS corsAnyOrig ::
  .queryGet "url" ::
  (if r.Query.Get "url" = "" then [.httpError "Url not supplied" StatusBadRequest]
  else
    .fetchHTML (r.Query.Get "url") ::
    match fetchHTML get (r.Query.Get "url") with
    | (_, some err) => [.httpError err StatusBadRequest]
    | (none, none) => [.extractSummary (r.Query.Get "url")]
    | (some stream, none) =>
      .extractSummary (r.Query.Get "url") ::
      match extractSummary (r.Query.Get "url") stream with
      | .error _ => []
      | .ok (_, some err) => [.httpError err StatusInternalServerError]
      | .ok (sumData, none) =>
        .jsonMarshal ::
        match jsonMarshal sumData with
        | (_, some err) => [.httpError err StatusInternalServerError]
        | (finSum, none) =>
          [.headerAdd "Content-Type" "application/json", .write (.json finSum)])

/-- What a call does to the response writer. -/
def Call.apply (w : ResponseWriter) : Call → ResponseWriter
  | .headerAdd key value => { w with header := w.header.Add key value }
  | .httpError error code => Error w error code
  | .write c => w.Write c
  | _ => w

/-- The response writer after the calls, one after the other. -/
def replay (calls : List Call) (w : ResponseWriter) : ResponseWriter :=
  calls.foldl Call.apply w

end Handlers

/-! ## Notions used to state the properties of the scalar fields -/

namespace Handlers

open Html

/-- The value `val t` of the last of `tags` that `sel` selects, if there is
one. -/
def lastValue {α : Type} (sel : Token → Bool) (val : Token → α) (tags : List Token) :
    Option α :=
  ((tags.filter sel).getLast?).map val

/-- The content of the last of `tags` whose name is `n`, if there is one. -/
def lastNamed (n : String) (tags : List Token) : Option String :=
  lastValue (fun t => name t = n) content tags

/-- A tag whose name is `n`. -/
def named (n : String) (t : Token) : Bool :=
  isTag t && decide (name t = n)

/-- A tag with the property `og:type`, `og:url` or `og:site_name`, or with the
name `author`. -/
def carriesScalar (t : Token) : Bool :=
  carries "og:type" t || carries "og:url" t || carries "og:site_name" t || named "author" t

/-- The keywords that `extractSummary` takes from the content `c`. -/
def keywordsOf (c : String) : List String :=
  (Strings.Split c ',').map Strings.TrimSpace

/-- A tag on which no rule of `extractSummary` acts: its property and name
are none of those that the rules look for, and it is no `rel="icon"` link. -/
def inert (t : Token) : Bool :=
  decide (property t ≠ "og:title") && decide (property t ≠ "og:type") &&
  decide (property t ≠ "og:url") && decide (property t ≠ "og:site_name") &&
  decide (property t ≠ "og:description") && decide (property t ≠ "og:image") &&
  ! isDetail (property t) &&
  decide (name t ≠ "description") && decide (name t ≠ "author") &&
  decide (name t ≠ "keywords") &&
  ! (decide (t.Data = "link") && decide (getRel t = "icon"))

/-- A start tag with the attributes `attrs`. -/
def tagWith (data : String) (attrs : List (String × String)) : Token :=
  { Type_ := .StartTagToken, Data := data,
    Attr := attrs.map fun kv => { Key := kv.1, Val := kv.2 } }

/-- The response `200` with content type `text/html` and the tokens `toks`
in the body, the stream ending as `err` says. -/
def htmlPage (toks : List Token) (err : StreamError) : NetHTTP.Response :=
  { StatusCode := 200, Header := { lines := [("Content-Type", "text/html; charset=utf-8")] },
    Body := { tokens := toks, err := err } }

/-- A response with the status code and the content type given and an empty
body. -/
def responseOf (code : Int) (contentType : String) : NetHTTP.Response :=
  { StatusCode := code, Header := { lines := [("Content-Type", contentType)] } }

/-- A request with the query parameter `url`. -/
def requestFor (url : String) : NetHTTP.Request :=
  { Query := { pairs := [("url", url)] } }

end Handlers

/-! ## Notions used to state the properties of the JSON document and of the
image records -/

namespace JSON

/-- The keys of an object, in order. -/
def keys {α : Type} (fields : List (String × α)) : List String :=
  fields.map Prod.fst

/-- A scalar that is not null, not zero and not the empty string. -/
def Scalar.isSet : Scalar → Bool
  | .null => false
  | .str s => decide (s ≠ "")
  | .num n => decide (n ≠ 0)

/-- A value that is not null, zero, the empty string or the empty list. What
is inside a list or an object is not looked at. -/
def Value.isSet : Value → Bool
  | .null => false
  | .str s => decide (s ≠ "")
  | .num n => decide (n ≠ 0)
  | .strs xs => decide (xs ≠ [])
  | .obj _ => true
  | .objs xs => decide (xs ≠ [])

end JSON

namespace Handlers

open Html

/-- For the tag `t`: when its property is `og:image` its content is not
empty, and when it is a `rel="icon"` link it has an `href` attribute and the
value of the last one is not empty. -/
def hasImageURLs (t : Token) : Bool :=
  (! decide (property t = "og:image") || decide (content t ≠ "")) &&
  (! (decide (t.Data = "link") && decide (getRel t = "icon")) ||
    match (t.Attr.filter fun a => decide (a.Key = "href")).getLast? with
    | some a => decide (a.Val ≠ "")
    | none => false)

end Handlers

/-! ## The session identifier of a request: `GetSessionID` -/

namespace Strings

/-- Go `strings.TrimPrefix`. -/
def TrimPrefix (s pre : String) : String :=
  if HasPrefix s pre then String.mk (s.data.drop pre.data.length) else s

end Strings

namespace NetHTTP

/-- The index expression `v[key]` on `url.Values`: the values of the key, in
order. -/
def Values.index (v : Values) (key : String) : List String :=
  (v.pairs.filter fun kv => kv.1 = key).map Prod.snd

end NetHTTP

namespace Sessions

open NetHTTP

/-- The constants `headerAuthorization`, `paramAuthorization` and
`schemeBearer`. -/
def headerAuthorization : String := "Authorization"

def paramAuthorization : String := "auth"

def schemeBearer : String := "Bearer "

/-- The errors `ErrNoSessionID` and `ErrInvalidScheme`, as their messages. -/
def ErrNoSessionID : String := "no session ID found in " ++ headerAuthorization ++ " header"

def ErrInvalidScheme : String := "authorization scheme not supported"

/-- The function `GetSessionID`. The type `SessionID`, the constant
`InvalidSessionID` and the function `ValidateID` are declared in a file that
is not among the sources: they are parameters here. -/
def GetSessionID {SessionID : Type} (InvalidSessionID : SessionID)
    (ValidateID : String → String → SessionID × Option String)
    (r : Request) (signingKey : String) : SessionID × Option String :=
  let seshID := r.Header.Get headerAuthorization
  match (if seshID = "" then
      match r.Query.index paramAuthorization with
      | [] => none
      | q :: _ => some q
    else some seshID : Option String) with
  | none => (InvalidSessionID, some ErrNoSessionID)
  | some seshID =>
    if ¬ Strings.HasPrefix seshID schemeBearer then (InvalidSessionID, some ErrInvalidScheme)
    else ValidateID (Strings.TrimPrefix seshID schemeBearer) signingKey

end Sessions

/-! ## The user store: `GetByID`, `GetByEmail`, `GetByUserName` -/

namespace Users

/-- Modelled from the spec: the struct `User`, whose declaration is not among
the source files. Its seven fields are those that the queries of the store
scan into, in the order in which the tests list them. -/
structure User where
  ID : Int := 0
  Email : String := ""
  PassHash : List Nat := []
  UserName : String := ""
  FirstName : String := ""
  LastName : String := ""
  PhotoURL : String := ""
  deriving DecidableEq, Repr

/-- The loop `for rows.Next()` of the three getters: each row is scanned into
the fields of `user`; a row that does not scan ends the call with the error.
`scan` is `rows.Scan` with the seven fields as destinations. -/
def scanRows {Row : Type} (scan : Row → Except String User) :
    List Row → User → Option User × Option String
  | [], user => (some user, none)
  | row :: rows, _ =>
    match scan row with
    | .error err => (none, some err)
    | .ok user => scanRows scan rows user

/-- The method `GetByID`. `query` is `ss.DB.Query`: an error, or the rows of
the result. -/
def GetByID {Row : Type} (query : String → Int → Except String (List Row))
    (scan : Row → Except String User) (id : Int) : Option User × Option String :=
  match query
      "select id,email,pass_hash,username,first_name,last_name,photo_url from users where id=?"
      id with
  | .error err1 => (none, some err1)
  | .ok rows => scanRows scan rows {}

/-- The method `GetByEmail`. -/
def GetByEmail {Row : Type} (query : String → String → Except String (List Row))
    (scan : Row → Except String User) (email : String) : Option User × Option String :=
  match query
      "select id,email,pass_hash,username,first_name,last_name,photo_url from users where email=?"
      email with
  | .error err1 => (none, some err1)
  | .ok rows => scanRows scan rows {}

/-- The method `GetByUserName`. -/
def GetByUserName {Row : Type} (query : String → String → Except String (List Row))
    (scan : Row → Except String User) (username : String) : Option User × Option String :=
  match query
      "select id,email,pass_hash,username,first_name,last_name,photo_url from users where username=?"
      username with
  | .error err1 => (none, some err1)
  | .ok rows => scanRows scan rows {}

/-- A table of users as a database holds it, with the query of the getters
answered as a database does: the rows whose column has the value asked for,
and no error. -/
def selectWhere {α : Type} [DecidableEq α] (table : List User) (column : User → α)
    (_ : String) (value : α) : Except String (List User) :=
  .ok (table.filter fun u => column u = value)

end Users

/-! ## Notions used to state the properties of the description, the icon and
the tokens that are no tags -/

namespace Handlers

open Html

/-- The content of the first of `tags` whose name is `description` and whose
content is not empty, if there is one. -/
def firstDescription (tags : List Token) : Option String :=
  (tags.find? fun t => decide (name t = "description") && decide (content t ≠ "")).map content

/-- A tag with the name `description` or the property `og:description`. -/
def carriesDescription (t : Token) : Bool :=
  named "description" t || carries "og:description" t

/-- The tag is named `link` and its first `rel` is `icon`. -/
def iconLink (t : Token) : Bool :=
  decide (t.Data = "link") && decide (getRel t = "icon")

/-- A start or self-closing tag that is an icon link. -/
def carriesIcon (t : Token) : Bool :=
  isTag t && iconLink t

/-- The icon that `generateIcon` gives for the tag, if it gives one. -/
def iconOf (pageURL : String) (t : Token) : Option PreviewImage :=
  match generateIcon t pageURL with
  | .ok icon => some icon
  | .error _ => none

/-- The stream without the tokens that are neither tags nor `</head>`; a
token that stands directly behind a `title` tag is kept whatever it is.
`afterTitle` says whether the token before the list is a `title` tag. -/
def dropOthers (afterTitle : Bool) : List Token → List Token
  | [] => []
  | t :: rest =>
    if afterTitle || isTag t || isEndHead t then t :: dropOthers (isTitleTag t) rest
    else dropOthers false rest

/-- What the tokenizer of `golang.org/x/net/html` yields behind a `title`
tag. It reads the content of `title` as raw text up to `</title>`, also behind
a self-closing `<title/>`, so the token behind a `title` start or
self-closing tag is a text token or the end tag `title`, unless the stream
ends there. Every token stream that `html.NewTokenizer` hands to
`extractSummary` is of this kind. -/
def Tokenized : List Token → Bool
  | [] => true
  | t :: rest =>
    (match rest with
      | [] => true
      | n :: _ =>
        ! isTitleTag t ||
          (decide (n.Type_ = .TextToken) ||
            (decide (n.Type_ = .EndTagToken) && decide (n.Data = "title")))) &&
    Tokenized rest

/-- A request with the header `Authorization` and the query parameters given. -/
def requestWith (authorization : String) (query : List (String × String)) : NetHTTP.Request :=
  { Query := { pairs := query },
    Header := { lines := if authorization = "" then [] else [("Authorization", authorization)] } }

end Handlers

/-! # Theorems -/

/-! ## Lemmas on `strings` and `net/url` -/

namespace Strings
theorem cut_fst_head (sep : Char) (s : List Char) (c : Char)
    (h : (cut sep s).1.head? = some c) : s.head? = some c := by
  cases s with
  | nil => simp [cut] at h
  | cons d ds =>
    by_cases hd : d = sep
    · simp [cut, hd] at h
    · simpa [cut, hd] using h
end Strings

namespace NetURL

theorem getScheme_slash (tl : List Char) : getScheme ('/' :: tl) = some ([], '/' :: tl) := by
  simp [getScheme, getScheme.go]

theorem unescape_ne_nil (mode : Encoding) (s : List Char) (t : List Nat)
    (h : unescape mode s = some t) (hs : s ≠ []) : t ≠ [] := by
  cases s with
  | nil => exact absurd rfl hs
  | cons c rest =>
    unfold unescape at h
    repeat' split at h
    all_goals (try simp at h)
    all_goals (try (obtain ⟨a, _, rfl⟩ := h))
    all_goals (try simp [utf8Bytes])
    all_goals (try (split_ifs <;> simp))

theorem setPath_fields (u v : URL) (p : List Char) (h : u.setPath p = some v) :
    v.Scheme = u.Scheme ∧ v.Opaque = u.Opaque ∧ v.User = u.User ∧ v.Host = u.Host ∧
    v.OmitHost = u.OmitHost ∧ (p ≠ [] → v.Path ≠ []) := by
  simp [URL.setPath] at h
  obtain ⟨a, ha, rfl⟩ := h
  refine ⟨rfl, rfl, rfl, rfl, rfl, fun hp => ?_⟩
  exact unescape_ne_nil _ _ _ ha hp

theorem setFragment_fields (u v : URL) (p : List Char) (h : u.setFragment p = some v) :
    v.Scheme = u.Scheme ∧ v.Opaque = u.Opaque ∧ v.User = u.User ∧ v.Host = u.Host ∧
    v.OmitHost = u.OmitHost ∧ v.Path = u.Path := by
  simp [URL.setFragment] at h
  obtain ⟨a, ha, rfl⟩ := h
  exact ⟨rfl, rfl, rfl, rfl, rfl, rfl⟩

theorem dropLast_head (l : List Char) (c : Char) (h : l.dropLast.head? = some c) :
    l.head? = some c := by
  cases l with
  | nil => simp at h
  | cons a t =>
    cases t with
    | nil => simp at h
    | cons b t2 => simpa [List.dropLast] using h

theorem rest_abs_path (tl : List Char) (b : Bool) (h2 : tl.head? ≠ some '/')
    (hb : b = true → ('/' :: tl).getLast? = some '?') :
    ∃ r2, (if b then ('/' :: tl).dropLast else (Strings.cut '?' ('/' :: tl)).1) = '/' :: r2 ∧
      r2.head? ≠ some '/' := by
  cases b with
  | true =>
    have := hb rfl
    cases tl with
    | nil => simp at this
    | cons a t =>
      refine ⟨(a :: t).dropLast, by simp [List.dropLast], fun hh => h2 (dropLast_head _ _ hh)⟩
  | false =>
    refine ⟨(Strings.cut '?' tl).1, ?_, fun hh => h2 (Strings.cut_fst_head _ _ _ hh)⟩
    simp [Strings.cut]

theorem parseRest_abs_path (url : URL) (r2 : List Char) (hs : url.Scheme = "")
    (h2 : r2.head? ≠ some '/') : parseRest url ('/' :: r2) = url.setPath ('/' :: r2) := by
  cases r2 with
  | nil => simp [parseRest, hs, List.isPrefixOf]
  | cons a t =>
    have : ¬ '/' = a := by
      intro h; apply h2; simp [← h]
    simp [parseRest, hs, List.isPrefixOf, this]

theorem parse_abs_path (tl : List Char) (ref : URL) (h : parse ('/' :: tl) = some ref)
    (h2 : tl.head? ≠ some '/') :
    ref.Scheme = "" ∧ ref.Opaque = "" ∧ ref.User = none ∧ ref.Host = [] ∧
      ref.OmitHost = false ∧ ref.Path ≠ [] := by
  have hstar : ('/' :: tl) ≠ ['*'] := by simp
  unfold parse at h
  by_cases hctl : stringContainsCTLByte ('/' :: tl) = true
  · simp [hctl] at h
  · rw [if_neg hctl, if_neg hstar] at h
    simp only [getScheme_slash, List.map_nil] at h
    obtain ⟨r2, hr, hr2⟩ := rest_abs_path tl
      (decide (('/' :: tl).getLast? = some '?' ∧ List.count '?' ('/' :: tl) = 1)) h2
      (by intro hb; simp at hb; simpa using hb.1)
    rw [hr, parseRest_abs_path _ _ rfl hr2] at h
    obtain ⟨h1, h2, h3, h4, h5, h6⟩ := setPath_fields _ _ _ h
    exact ⟨h1, h2, h3, h4, h5, h6 (by simp)⟩

theorem Parse_abs_path (p : String) (ref : URL) (h : Parse p = some ref)
    (h1 : Strings.HasPrefix p "/" = true) (h2 : Strings.HasPrefix p "//" = false) :
    ref.Scheme = "" ∧ ref.Opaque = "" ∧ ref.User = none ∧ ref.Host = [] ∧
      ref.OmitHost = false ∧ ref.Path ≠ [] := by
  obtain ⟨cs⟩ := p
  cases cs with
  | nil => simp [Strings.HasPrefix, List.isPrefixOf] at h1
  | cons c tl =>
    have hc : '/' = c := by simpa [Strings.HasPrefix, List.isPrefixOf] using h1
    subst hc
    have htl : tl.head? ≠ some '/' := by
      cases tl with
      | nil => simp
      | cons a t =>
        have : ¬ '/' = a := by simpa [Strings.HasPrefix, List.isPrefixOf] using h2
        intro hh; apply this; simpa using hh.symm
    have hcut : (Strings.cut '#' ('/' :: tl)).1 = '/' :: (Strings.cut '#' tl).1 := by
      simp [Strings.cut]
    have htl2 : (Strings.cut '#' tl).1.head? ≠ some '/' :=
      fun hh => htl (Strings.cut_fst_head _ _ _ hh)
    simp only [Parse, hcut] at h
    cases hp : parse ('/' :: (Strings.cut '#' tl).1) with
    | none => simp [hp] at h
    | some u =>
      have hu := parse_abs_path _ _ hp htl2
      simp only [hp, Option.some_bind] at h
      split_ifs at h
      · cases h; exact hu
      · obtain ⟨g1, g2, g3, g4, g5, g6⟩ := setFragment_fields _ _ _ h
        obtain ⟨k1, k2, k3, k4, k5, k6⟩ := hu
        exact ⟨g1.trans k1, g2.trans k2, g3.trans k3, g4.trans k4, g5.trans k5, by rw [g6]; exact k6⟩

theorem escape_ne_nil (s : List Nat) (mode : Encoding) (h : s ≠ []) : escape s mode ≠ [] := by
  cases s with
  | nil => exact absurd rfl h
  | cons a t =>
    simp only [escape, List.flatMap_cons]
    split_ifs <;> simp

theorem EscapedPath_ne_nil (u : URL) (h : u.Path ≠ []) : u.EscapedPath ≠ [] := by
  unfold URL.EscapedPath
  split_ifs with h1 h2
  · intro hd
    apply h1.1
    cases hr : u.RawPath
    simp_all
  · simp
  · exact escape_ne_nil _ _ h

theorem resolveElems_ne_nil (elems : List (List Char)) (dst : List Char) (first : Bool)
    (h : dst ≠ []) : resolveElems elems dst first ≠ [] := by
  induction elems generalizing dst first with
  | nil => simpa [resolveElems] using h
  | cons e es ih =>
    unfold resolveElems
    split_ifs
    · exact ih _ _ h
    · split
      · exact ih _ _ (by simp)
      · exact ih _ _ (by simp)
    · exact ih _ _ (by simp [h])
    · exact ih _ _ (by simp)

theorem removeDots_ne_nil (full : List Char) : removeDots full ≠ [] := by
  have hd := resolveElems_ne_nil (Strings.splitChars '/' full) ['/'] true (by simp)
  have key : ∀ l : List Char, l ≠ [] →
      (if 1 < l.length ∧ l.get? 1 = some '/' then l.tail else l) ≠ [] := by
    intro l hl
    split_ifs with h1
    · cases l with
      | nil => exact absurd rfl hl
      | cons a t =>
        cases t with
        | nil => simp at h1
        | cons b t2 => simp
    · exact hl
  unfold removeDots
  by_cases hc : (Strings.splitChars '/' full).getLast? = some ['.'] ∨
      (Strings.splitChars '/' full).getLast? = some ['.', '.']
  · simp only [if_pos hc]; exact key _ (by simp)
  · simp only [if_neg hc]; exact key _ hd

theorem resolvePath_ne_nil (base ref : List Char) (h : ref ≠ []) : resolvePath base ref ≠ [] := by
  unfold resolvePath
  have hfull : joinPath base ref ≠ [] := by
    unfold joinPath
    rw [if_neg h]
    split_ifs <;> simp [h]
  rw [if_neg hfull]
  exact removeDots_ne_nil _

theorem parseRest_scheme (url v : URL) (rest : List Char) (h : parseRest url rest = some v) :
    v.Scheme = url.Scheme := by
  unfold parseRest at h
  by_cases c1 : rest.head? ≠ some '/' ∧ url.Scheme ≠ ""
  · rw [if_pos c1] at h; cases h; rfl
  rw [if_neg c1] at h
  by_cases c2 : rest.head? ≠ some '/' ∧ (Strings.cut '/' rest).1.contains ':'
  · rw [if_pos c2] at h; cases h
  rw [if_neg c2] at h
  by_cases c3 : (url.Scheme ≠ "" ∨ ¬ ['/', '/', '/'].isPrefixOf rest) ∧ ['/', '/'].isPrefixOf rest
  · rw [if_pos c3] at h
    simp only [Option.bind_eq_some] at h
    obtain ⟨uh, _, h⟩ := h
    exact (setPath_fields _ _ _ h).1
  rw [if_neg c3] at h
  by_cases c4 : url.Scheme ≠ "" ∧ rest.head? = some '/'
  · rw [if_pos c4] at h
    exact (setPath_fields _ _ _ h).1
  · rw [if_neg c4] at h
    exact (setPath_fields _ _ _ h).1

theorem Parse_slash_scheme (p : String) (ref : URL) (h : Parse p = some ref)
    (h1 : Strings.HasPrefix p "/" = true) : ref.Scheme = "" := by
  obtain ⟨cs⟩ := p
  cases cs with
  | nil => simp [Strings.HasPrefix, List.isPrefixOf] at h1
  | cons c tl =>
    have hc : '/' = c := by simpa [Strings.HasPrefix, List.isPrefixOf] using h1
    subst hc
    have hcut : (Strings.cut '#' ('/' :: tl)).1 = '/' :: (Strings.cut '#' tl).1 := by
      simp [Strings.cut]
    simp only [Parse, hcut] at h
    cases hp : parse ('/' :: (Strings.cut '#' tl).1) with
    | none => simp [hp] at h
    | some u =>
      have hu : u.Scheme = "" := by
        have hstar : ('/' :: (Strings.cut '#' tl).1) ≠ ['*'] := by simp
        unfold parse at hp
        by_cases hctl : stringContainsCTLByte ('/' :: (Strings.cut '#' tl).1) = true
        · simp [hctl] at hp
        · rw [if_neg hctl, if_neg hstar] at hp
          simp only [getScheme_slash, List.map_nil] at hp
          exact parseRest_scheme _ _ _ hp
      simp only [hp, Option.some_bind] at h
      split_ifs at h
      · cases h; exact hu
      · exact (setFragment_fields _ _ _ h).1.trans hu

theorem ResolveReference_abs_path (base ref : URL) (h1 : ref.Scheme = "")
    (h2 : ref.Opaque = "") (h3 : ref.User = none) (h4 : ref.Host = [])
    (h5 : ref.OmitHost = false) (h6 : ref.Path ≠ []) :
    ∃ url, ResolveReference (some base) (some ref) = .ok url ∧ url.Scheme = base.Scheme ∧
      url.User = base.User ∧ url.Host = base.Host ∧ url.Opaque = "" ∧
      url.OmitHost = false ∧ url.Path ≠ [] := by
  have hne := resolvePath_ne_nil base.EscapedPath ref.EscapedPath (EscapedPath_ne_nil ref h6)
  simp only [ResolveReference, h1, h3, h4, h6, ne_eq, not_true_eq_false, or_self,
    false_and, if_false]
  rw [if_neg (by simp [h2])]
  refine ⟨_, rfl, ?_⟩
  generalize hs : URL.setPath _ (resolvePath base.EscapedPath ref.EscapedPath) = o
  cases o with
  | none => simp [h2, h5, h6]
  | some v =>
    obtain ⟨g1, g2, g3, g4, g5, g6⟩ := setPath_fields _ _ _ hs
    simp only [Option.getD_some]
    exact ⟨g1, g3, g4, by rw [g2]; exact h2, by rw [g5]; exact h5, g6 hne⟩

theorem String_authority (url : URL) (h1 : url.Scheme ≠ "") (h2 : url.Opaque = "")
    (h5 : url.OmitHost = false) (h6 : url.Path ≠ []) :
    ∃ rest, url.String.data =
      url.Scheme.data ++ (':' :: '/' :: '/' :: (url.authorityText ++ rest)) := by
  have key : ∀ (b : List Char) (c1 c2 : Prop) [Decidable c1] [Decidable c2] (x y z w : List Char),
      b <+: (if c2 then (if c1 then b ++ x else b) ++ y else (if c1 then b ++ x else b))
        ++ z ++ w := by
    intro b c1 c2 _ _ x y z w
    split_ifs <;> (simp only [List.append_assoc]; exact List.prefix_append _ _)
  simp only [URL.String, h1, h2, h5, h6, ne_eq, not_false_eq_true, if_true, true_or, or_true,
    not_true_eq_false, if_false, Bool.false_eq_true, false_and]
  obtain ⟨rest, hr⟩ := key (url.Scheme.data ++ [':'] ++ (['/', '/'] ++ url.authorityText))
    (¬url.EscapedPath = [] ∧ ¬url.EscapedPath.head? = some '/' ∧ ¬url.Host = [])
    ((if ¬url.EscapedPath = [] ∧ ¬url.EscapedPath.head? = some '/' ∧ ¬url.Host = [] then
        url.Scheme.data ++ [':'] ++ (['/', '/'] ++ url.authorityText) ++ ['/']
      else url.Scheme.data ++ [':'] ++ (['/', '/'] ++ url.authorityText)) = [] ∧
      (Strings.cut '/' url.EscapedPath).1.contains ':' = true)
    ['/'] ['.', '/'] url.EscapedPath
    ((if url.ForceQuery = true ∨ ¬url.RawQuery = "" then '?' :: url.RawQuery.data else []) ++
      (if ¬url.Fragment = [] then '#' :: url.EscapedFragment else []))
  refine ⟨rest, ?_⟩
  simp only [List.append_assoc] at hr ⊢
  simpa using hr.symm

/-- A path text that starts with `/` decodes to bytes that start with `/`. -/
theorem unescape_slash_head (rest : List Char) (t : List Nat)
    (h : unescape .encodePath ('/' :: rest) = some t) : t.head? = some 47 := by
  unfold unescape at h
  simp only [show ('/' : Char) ≠ '%' by decide, show ('/' : Char) ≠ '+' by decide, if_false,
    reduceCtorEq, false_or, false_and, Option.map_eq_some'] at h
  obtain ⟨a, _, rfl⟩ := h
  rfl

/-- After `setPath` with a text that starts with `/`, the path starts with
`/`, and so does the raw path when it is kept. -/
theorem setPath_head (u v : URL) (p : List Char) (h : u.setPath p = some v)
    (hp : p.head? = some '/') :
    v.Path.head? = some 47 ∧ (v.RawPath = "" ∨ v.RawPath.data.head? = some '/') := by
  cases p with
  | nil => simp at hp
  | cons c rest =>
    simp only [List.head?_cons, Option.some.injEq] at hp
    subst hp
    simp only [URL.setPath, Option.map_eq_some'] at h
    obtain ⟨a, ha, rfl⟩ := h
    refine ⟨unescape_slash_head rest a ha, ?_⟩
    simp only []
    split_ifs
    · exact Or.inl rfl
    · exact Or.inr rfl

theorem setFragment_path (u v : URL) (p : List Char) (h : u.setFragment p = some v) :
    v.Path = u.Path ∧ v.RawPath = u.RawPath := by
  simp [URL.setFragment] at h
  obtain ⟨a, ha, rfl⟩ := h
  exact ⟨rfl, rfl⟩

theorem parse_abs_path_head (tl : List Char) (ref : URL) (h : parse ('/' :: tl) = some ref)
    (h2 : tl.head? ≠ some '/') :
    ref.Path.head? = some 47 ∧ (ref.RawPath = "" ∨ ref.RawPath.data.head? = some '/') := by
  have hstar : ('/' :: tl) ≠ ['*'] := by simp
  unfold parse at h
  by_cases hctl : stringContainsCTLByte ('/' :: tl) = true
  · simp [hctl] at h
  · rw [if_neg hctl, if_neg hstar] at h
    simp only [getScheme_slash, List.map_nil] at h
    obtain ⟨r2, hr, hr2⟩ := rest_abs_path tl
      (decide (('/' :: tl).getLast? = some '?' ∧ List.count '?' ('/' :: tl) = 1)) h2
      (by intro hb; simp at hb; simpa using hb.1)
    rw [hr, parseRest_abs_path _ _ rfl hr2] at h
    exact setPath_head _ _ _ h rfl

/-- The path of a parsed reference that starts with one `/` starts with `/`. -/
theorem Parse_abs_path_head (p : String) (ref : URL) (h : Parse p = some ref)
    (h1 : Strings.HasPrefix p "/" = true) (h2 : Strings.HasPrefix p "//" = false) :
    ref.Path.head? = some 47 ∧ (ref.RawPath = "" ∨ ref.RawPath.data.head? = some '/') := by
  obtain ⟨cs⟩ := p
  cases cs with
  | nil => simp [Strings.HasPrefix, List.isPrefixOf] at h1
  | cons c tl =>
    have hc : '/' = c := by simpa [Strings.HasPrefix, List.isPrefixOf] using h1
    subst hc
    have htl : tl.head? ≠ some '/' := by
      cases tl with
      | nil => simp
      | cons a t =>
        have : ¬ '/' = a := by simpa [Strings.HasPrefix, List.isPrefixOf] using h2
        intro hh; apply this; simpa using hh.symm
    have hcut : (Strings.cut '#' ('/' :: tl)).1 = '/' :: (Strings.cut '#' tl).1 := by
      simp [Strings.cut]
    have htl2 : (Strings.cut '#' tl).1.head? ≠ some '/' :=
      fun hh => htl (Strings.cut_fst_head _ _ _ hh)
    simp only [Parse, hcut] at h
    cases hp : parse ('/' :: (Strings.cut '#' tl).1) with
    | none => simp [hp] at h
    | some u =>
      have hu := parse_abs_path_head _ _ hp htl2
      simp only [hp, Option.some_bind] at h
      split_ifs at h
      · cases h; exact hu
      · obtain ⟨g1, g2⟩ := setFragment_path _ _ _ h
        rw [g1, g2]
        exact hu

/-- The escaped path of a URL whose path starts with `/` starts with `/`. -/
theorem EscapedPath_head (u : URL) (h1 : u.Path.head? = some 47)
    (h2 : u.RawPath = "" ∨ u.RawPath.data.head? = some '/') :
    u.EscapedPath.head? = some '/' := by
  unfold URL.EscapedPath
  split_ifs with c1 c2
  · rcases h2 with h2 | h2
    · exact absurd h2 c1.1
    · exact h2
  · rw [c2] at h1
    simp at h1
  · cases hp : u.Path with
    | nil => rw [hp] at h1; simp at h1
    | cons a t =>
      rw [hp] at h1
      simp only [List.head?_cons, Option.some.injEq] at h1
      subst h1
      simp only [escape, List.flatMap_cons]
      rw [if_neg (by decide)]
      rfl

theorem resolveElems_head (elems : List (List Char)) (dst : List Char) (first : Bool)
    (h : dst.head? = some '/') : (resolveElems elems dst first).head? = some '/' := by
  induction elems generalizing dst first with
  | nil => simpa [resolveElems] using h
  | cons e es ih =>
    have hne : dst ≠ [] := by
      intro hd
      rw [hd] at h
      simp at h
    have happ : ∀ x : List Char, (dst ++ x).head? = some '/' := by
      intro x
      cases dst with
      | nil => exact absurd rfl hne
      | cons a t => simpa using h
    unfold resolveElems
    split_ifs
    · exact ih _ _ h
    · split
      · exact ih _ _ rfl
      · exact ih _ _ rfl
    · exact ih _ _ (happ _)
    · rw [List.append_assoc]
      exact ih _ _ (happ _)

/-- The path that `resolvePath` returns for a path that is not empty starts
with `/`. -/
theorem removeDots_head (full : List Char) : (removeDots full).head? = some '/' := by
  have hd := resolveElems_head (Strings.splitChars '/' full) ['/'] true rfl
  have key : ∀ l : List Char, l.head? = some '/' →
      (if 1 < l.length ∧ l.get? 1 = some '/' then l.tail else l).head? = some '/' := by
    intro l hl
    split_ifs with h1
    · cases l with
      | nil => simp at hl
      | cons a t =>
        cases t with
        | nil => simp at h1
        | cons b t2 => simpa using h1.2
    · exact hl
  unfold removeDots
  by_cases hc : (Strings.splitChars '/' full).getLast? = some ['.'] ∨
      (Strings.splitChars '/' full).getLast? = some ['.', '.']
  · simp only [if_pos hc]
    apply key
    cases hr : resolveElems (Strings.splitChars '/' full) ['/'] true with
    | nil => rw [hr] at hd; simp at hd
    | cons a t => rw [hr] at hd; simpa using hd
  · simp only [if_neg hc]; exact key _ hd

theorem resolvePath_head (base ref : List Char) (h : ref ≠ []) :
    (resolvePath base ref).head? = some '/' := by
  unfold resolvePath
  have hfull : joinPath base ref ≠ [] := by
    unfold joinPath
    rw [if_neg h]
    split_ifs <;> simp [h]
  rw [if_neg hfull]
  exact removeDots_head _

/-- The URL to which a reference with an absolute path is resolved has a
path that starts with `/`. -/
theorem ResolveReference_abs_path_head (base ref url : URL) (h1 : ref.Scheme = "")
    (h2 : ref.Opaque = "") (h3 : ref.User = none) (h4 : ref.Host = [])
    (h6 : ref.Path ≠ []) (h7 : ref.Path.head? = some 47)
    (h8 : ref.RawPath = "" ∨ ref.RawPath.data.head? = some '/')
    (h : ResolveReference (some base) (some ref) = .ok url) :
    url.EscapedPath.head? = some '/' := by
  have hne := resolvePath_head base.EscapedPath ref.EscapedPath (EscapedPath_ne_nil ref h6)
  simp only [ResolveReference, h1, h3, h4, h6, ne_eq, not_true_eq_false, or_self,
    false_and, if_false] at h
  rw [if_neg (by simp [h2])] at h
  simp only [Except.ok.injEq] at h
  rw [← h]
  generalize hs : URL.setPath _ (resolvePath base.EscapedPath ref.EscapedPath) = o
  cases o with
  | none => exact EscapedPath_head _ h7 h8
  | some v =>
    obtain ⟨g1, g2⟩ := setPath_head _ _ _ hs hne
    exact EscapedPath_head _ g1 g2

/-- The text of a URL with a scheme and a path that starts with `/`: the
scheme, `://`, the authority, and the path. -/
theorem String_authority_path (url : URL) (h1 : url.Scheme ≠ "") (h2 : url.Opaque = "")
    (h5 : url.OmitHost = false) (h6 : url.EscapedPath.head? = some '/') :
    ∃ rest, url.String.data =
      url.Scheme.data ++ (':' :: '/' :: '/' :: (url.authorityText ++ '/' :: rest)) := by
  have hp : url.Path ≠ [] := by
    intro hp
    unfold URL.EscapedPath at h6
    rw [hp] at h6
    split_ifs at h6 with c1 c2
    · exact unescape_ne_nil _ _ _ c1.2.2 (fun hd => c1.1 (String.ext hd)) rfl
    · simp at c2
    · simp [escape] at h6
  cases he : url.EscapedPath with
  | nil => rw [he] at h6; simp at h6
  | cons a t =>
    rw [he] at h6
    simp only [List.head?_cons, Option.some.injEq] at h6
    subst h6
    refine ⟨t ++ ((if url.ForceQuery = true ∨ ¬url.RawQuery = "" then '?' :: url.RawQuery.data
      else []) ++ (if ¬url.Fragment = [] then '#' :: url.EscapedFragment else [])), ?_⟩
    simp [URL.String, h1, h2, h5, hp, he]

end NetURL

/-! ## `resolveLink` -/

namespace Handlers

open Html

/-- C9: a candidate path that does not start with `/` (the empty string and
absolute URLs included) is returned unchanged, whatever the page URL is. -/
theorem resolveLink_no_leading_slash (p pageURL : String)
    (h : Strings.HasPrefix p "/" = false) : resolveLink p pageURL = .ok p := by
  simp [resolveLink, h]

/-- Witness of C9: `icon.png` against `https://example.com/a/b`. -/
theorem resolveLink_no_leading_slash_witness :
    Strings.HasPrefix "icon.png" "/" = false ∧
      resolveLink "icon.png" "https://example.com/a/b" = .ok "icon.png" :=
  ⟨by decide, resolveLink_no_leading_slash "icon.png" "https://example.com/a/b" (by decide)⟩

/-- A candidate that starts with `/` makes `resolveLink` panic as soon as one
of the two URLs does not parse. -/
theorem resolveLink_unparsable (p pageURL : String) (hp : Strings.HasPrefix p "/" = true)
    (h : NetURL.Parse pageURL = none ∨ NetURL.Parse p = none) :
    resolveLink p pageURL = .error .nilDereference := by
  simp only [resolveLink, hp, not_true_eq_false, if_false]
  cases hr : NetURL.Parse p with
  | none => simp [NetURL.ResolveReference]
  | some ref =>
    rcases h with h | h
    · rw [h]
      simp [NetURL.ResolveReference, NetURL.Parse_slash_scheme p ref hr hp]
    · rw [hr] at h; cases h

/-- C10 (failing input): the candidate `/%zz` does not parse as a URL
reference, and `resolveLink` panics on the nil pointer instead of returning
the candidate. -/
theorem resolveLink_malformed_candidate :
    NetURL.Parse "/%zz" = none ∧
      resolveLink "/%zz" "https://example.com/a/b" = .error .nilDereference := by
  decide

/-- A host with square brackets that do not hold an IPv6 address does not
parse, so `resolveLink` reads through a nil pointer for such a page URL; an
IPv6 literal does parse. -/
theorem resolveLink_bracket_host :
    NetURL.Parse "http://a[b]/" = none ∧
    resolveLink "/x" "http://a[b]/" = .error .nilDereference ∧
    resolveLink "/x" "http://[::1]:8080/a" = .ok "http://[::1]:8080/x" := by
  decide

/-- C8 (counterexample): the candidate `//evil.com/x` starts with `/`, the page
URL is well formed with authority `example.com`, and the result has the
authority `evil.com`. -/
theorem resolveLink_network_path :
    Strings.HasPrefix "//evil.com/x" "/" = true ∧
      (NetURL.Parse "https://example.com/a/b").map (fun u => (u.Scheme, String.mk u.authorityText))
        = some ("https", "example.com") ∧
      resolveLink "//evil.com/x" "https://example.com/a/b" = .ok "https://evil.com/x" := by
  decide

/-- C8 (amended): for a page URL that parses, with scheme `s` and authority
`a`, and a candidate that starts with one `/` (not with `//`) and parses as a
URL reference, `resolveLink` returns the text of a URL whose scheme, user
information and host are those of the page URL and which has no opaque part;
when `s` is not empty the text that `resolveLink` returns is `s://a` followed
by a path that starts with `/`, so the authority that the text shows is `a`
and nothing else. -/
theorem resolveLink_abs_path (p pageURL : String) (base ref : NetURL.URL)
    (hbase : NetURL.Parse pageURL = some base) (href : NetURL.Parse p = some ref)
    (h1 : Strings.HasPrefix p "/" = true) (h2 : Strings.HasPrefix p "//" = false) :
    ∃ url : NetURL.URL, resolveLink p pageURL = .ok url.String ∧
      url.Scheme = base.Scheme ∧ url.User = base.User ∧ url.Host = base.Host ∧
      url.Opaque = "" ∧
      (base.Scheme ≠ "" → ∃ rest, resolveLink p pageURL =
        .ok (String.mk (base.Scheme.data ++
          (':' :: '/' :: '/' :: (base.authorityText ++ '/' :: rest))))) := by
  obtain ⟨k1, k2, k3, k4, k5, k6⟩ := NetURL.Parse_abs_path p ref href h1 h2
  obtain ⟨k7, k8⟩ := NetURL.Parse_abs_path_head p ref href h1 h2
  obtain ⟨url, hu, g1, g2, g3, g4, g5, g6⟩ :=
    NetURL.ResolveReference_abs_path base ref k1 k2 k3 k4 k5 k6
  have g7 := NetURL.ResolveReference_abs_path_head base ref url k1 k2 k3 k4 k6 k7 k8 hu
  have hr : resolveLink p pageURL = .ok url.String := by
    simp [resolveLink, h1, hbase, href, hu]
  refine ⟨url, hr, g1, g2, g3, g4, fun hs => ?_⟩
  obtain ⟨rest, hrest⟩ := NetURL.String_authority_path url (by rw [g1]; exact hs) g4 g5 g7
  refine ⟨rest, ?_⟩
  rw [hr]
  congr 1
  apply String.ext
  rw [hrest, g1]
  simp [NetURL.URL.authorityText, g2, g3]

/-- Witness of C8 (amended): `/icon.png` against `https://example.com/a/b`. -/
theorem resolveLink_abs_path_witness :
    resolveLink "/icon.png" "https://example.com/a/b" = .ok "https://example.com/icon.png" ∧
    ∃ url : NetURL.URL, resolveLink "/icon.png" "https://example.com/a/b" = .ok url.String ∧
      url.Scheme = "https" ∧ url.User = none ∧
      url.Host = [101, 120, 97, 109, 112, 108, 101, 46, 99, 111, 109] ∧
      url.Opaque = "" ∧
      (("https" : String) ≠ "" → ∃ rest, resolveLink "/icon.png" "https://example.com/a/b" =
        .ok (String.mk ("https".data ++
          (':' :: '/' :: '/' :: ("example.com".data ++ '/' :: rest))))) :=
  ⟨by decide,
    resolveLink_abs_path "/icon.png" "https://example.com/a/b"
      { Scheme := "https", Host := [101, 120, 97, 109, 112, 108, 101, 46, 99, 111, 109],
        Path := [47, 97, 47, 98] }
      { Path := [47, 105, 99, 111, 110, 46, 112, 110, 103] }
      (by decide) (by decide) (by decide) (by decide)⟩

end Handlers

/-! ## `generateIcon` -/

namespace Strings
theorem splitChars_not_mem (sep : Char) (s : List Char) (h : sep ∉ s) :
    splitChars sep s = [s] := by
  induction s with
  | nil => rfl
  | cons c cs ih =>
    have hc : c ≠ sep := fun e => h (by simp [e])
    have hcs : sep ∉ cs := fun e => h (by simp [e])
    simp [splitChars, hc, ih hcs]

theorem splitChars_append (sep : Char) (a b : List Char) (h : sep ∉ a) :
    splitChars sep (a ++ sep :: b) = a :: splitChars sep b := by
  induction a with
  | nil => simp [splitChars]
  | cons c cs ih =>
    have hc : c ≠ sep := fun e => h (by simp [e])
    have hcs : sep ∉ cs := fun e => h (by simp [e])
    simp [splitChars, hc, ih hcs]
end Strings

namespace Strconv
/-- The value read so far never shrinks. -/
theorem foldl_digits_le (ds : List Char) (n : Nat) :
    n ≤ ds.foldl (fun acc c => acc * 10 + (c.toNat - 48)) n := by
  induction ds generalizing n with
  | nil => exact le_refl _
  | cons c cs ih =>
    simp only [List.foldl_cons]
    exact le_trans (by omega) (ih _)

/-- On decimal digits whose value stays in the `uint64` range the loop of
`ParseUint` returns that value. -/
theorem parseUintLoop_digits (ds : List Char) (n : Nat) (h1 : ds.all isDigit = true)
    (h2 : ds.foldl (fun acc c => acc * 10 + (c.toNat - 48)) n ≤ maxUint64) :
    parseUintLoop ds n = (ds.foldl (fun acc c => acc * 10 + (c.toNat - 48)) n, none) := by
  induction ds generalizing n with
  | nil => rfl
  | cons c cs ih =>
    have hc : isDigit c = true := by simp at h1; exact h1.1
    have hcs : cs.all isDigit = true := by simp at h1 ⊢; exact h1.2
    simp only [List.foldl_cons] at h2 ⊢
    have hle := foldl_digits_le cs (n * 10 + (c.toNat - 48))
    have h3 : n * 10 + (c.toNat - 48) ≤ maxUint64 := le_trans hle h2
    have h4 : ¬ maxUint64 / 10 + 1 ≤ n := by
      simp only [maxUint64] at h3 ⊢
      omega
    rw [parseUintLoop, if_neg (by simp [hc]), if_neg h4, if_neg (by omega)]
    exact ih _ hcs h2

/-- A byte that is no digit, behind digits whose value stays in the `uint64`
range, is a syntax error. -/
theorem parseUintLoop_syntax (ds : List Char) (c : Char) (rest : List Char) (n : Nat)
    (h1 : ds.all isDigit = true) (hc : isDigit c = false)
    (h2 : ds.foldl (fun acc c => acc * 10 + (c.toNat - 48)) n ≤ maxUint64) :
    parseUintLoop (ds ++ c :: rest) n = (0, some .ErrSyntax) := by
  induction ds generalizing n with
  | nil => simp [parseUintLoop, hc]
  | cons d cs ih =>
    have hd : isDigit d = true := by simp at h1; exact h1.1
    have hcs : cs.all isDigit = true := by simp at h1 ⊢; exact h1.2
    simp only [List.foldl_cons] at h2
    have hle := foldl_digits_le cs (n * 10 + (d.toNat - 48))
    have h3 : n * 10 + (d.toNat - 48) ≤ maxUint64 := le_trans hle h2
    have h4 : ¬ maxUint64 / 10 + 1 ≤ n := by
      simp only [maxUint64] at h3 ⊢
      omega
    rw [List.cons_append, parseUintLoop, if_neg (by simp [hd]), if_neg h4, if_neg (by omega)]
    exact ih _ hcs h2

theorem Atoi_digits (ds : List Char) (h0 : ds ≠ []) (h1 : ds.all isDigit = true)
    (h2 : digitsValue ds < 2 ^ 63) : Atoi (String.mk ds) = ((digitsValue ds : Int), true) := by
  cases ds with
  | nil => exact absurd rfl h0
  | cons c cs =>
    have hc : isDigit c = true := by simp at h1; exact h1.1
    have hm : c ≠ '-' := by rintro rfl; simp [isDigit] at hc
    have hp : c ≠ '+' := by rintro rfl; simp [isDigit] at hc
    have h3 : digitsValue (c :: cs) < 9223372036854775808 := by simpa using h2
    have h4 : parseUintLoop (c :: cs) 0 = (digitsValue (c :: cs), none) :=
      parseUintLoop_digits (c :: cs) 0 h1 (by
        show digitsValue (c :: cs) ≤ maxUint64
        simp only [maxUint64]
        omega)
    have h5 : ParseInt (c :: cs) = ((digitsValue (c :: cs) : Int), none) := by
      simp only [ParseInt, ParseUint, List.head?_cons, Option.some.injEq, hm, hp, or_self,
        if_false, decide_False, h4]
      simp [h3]
    simp only [Atoi, h5]
    rfl

/-- The range error comes before the syntax error: digits that leave the
range give the bound, whatever stands behind them. -/
theorem Atoi_range_before_syntax :
    Atoi "99999999999999999999px" = (9223372036854775807, false) ∧
    Atoi "-99999999999999999999px" = (-9223372036854775808, false) ∧
    Atoi "12px" = (0, false) ∧ Atoi "" = (0, false) ∧ Atoi "+" = (0, false) ∧
    Atoi "-0" = (0, true) ∧ Atoi "9223372036854775807" = (9223372036854775807, true) ∧
    Atoi "9223372036854775808" = (9223372036854775807, false) ∧
    Atoi "-9223372036854775808" = (-9223372036854775808, true) := by
  decide
end Strconv

namespace Handlers

open Html

theorem iconSizes_numerals (a b : List Char) (result : PreviewImage)
    (ha0 : a ≠ []) (ha1 : a.all Strconv.isDigit = true) (ha2 : Strconv.digitsValue a < 2 ^ 63)
    (hb0 : b ≠ []) (hb1 : b.all Strconv.isDigit = true) (hb2 : Strconv.digitsValue b < 2 ^ 63) :
    iconSizes (String.mk (a ++ 'x' :: b)) result =
      .ok { result with Height := Strconv.digitsValue a, Width := Strconv.digitsValue b } := by
  have hxa : 'x' ∉ a := by
    intro h
    have := List.all_eq_true.mp ha1 _ h
    simp [Strconv.isDigit] at this
  have hxb : 'x' ∉ b := by
    intro h
    have := List.all_eq_true.mp hb1 _ h
    simp [Strconv.isDigit] at this
  simp [iconSizes, Strings.Split, Strings.splitChars_append _ _ _ hxa,
    Strings.splitChars_not_mem _ _ hxb, index, Strconv.Atoi_digits _ ha0 ha1 ha2,
    Strconv.Atoi_digits _ hb0 hb1 hb2]

theorem iconAttr_dims (pageURL : String) (result : PreviewImage) (x : Attribute)
    (hhref : x.Key = "href" → (resolveLink x.Val pageURL).isOk = true) :
    ∃ r1 : PreviewImage, r1.Height = result.Height ∧ r1.Width = result.Width ∧
      iconAttr pageURL result x =
        if x.Key = "sizes" ∧ x.Val ≠ "any" then iconSizes x.Val r1 else .ok r1 := by
  unfold iconAttr
  by_cases hk : x.Key = "href"
  · have := hhref hk
    cases hr : resolveLink x.Val pageURL with
    | error p => rw [hr] at this; simp [Except.isOk, Except.toBool] at this
    | ok u =>
      refine ⟨(if x.Key = "type" then { result with URL := u, Type_ := x.Val }
        else { result with URL := u }), ?_, ?_, ?_⟩
      · split_ifs <;> rfl
      · split_ifs <;> rfl
      · simp only [if_pos hk]
  · refine ⟨(if x.Key = "type" then { result with Type_ := x.Val } else result), ?_, ?_, ?_⟩
    · split_ifs <;> rfl
    · split_ifs <;> rfl
    · simp only [if_neg hk]

theorem iconLoop_sizes (pageURL : String) (a b : List Char)
    (ha0 : a ≠ []) (ha1 : a.all Strconv.isDigit = true) (ha2 : Strconv.digitsValue a < 2 ^ 63)
    (hb0 : b ≠ []) (hb1 : b.all Strconv.isDigit = true) (hb2 : Strconv.digitsValue b < 2 ^ 63)
    (attrs : List Attribute) (result : PreviewImage)
    (hsz : ∀ x ∈ attrs, x.Key = "sizes" → x.Val = String.mk (a ++ 'x' :: b))
    (hhref : ∀ x ∈ attrs, x.Key = "href" → (resolveLink x.Val pageURL).isOk = true) :
    ∃ icon, iconLoop pageURL attrs result = .ok icon ∧
      ((∃ x ∈ attrs, x.Key = "sizes") →
        icon.Height = Strconv.digitsValue a ∧ icon.Width = Strconv.digitsValue b) ∧
      ((¬ ∃ x ∈ attrs, x.Key = "sizes") →
        icon.Height = result.Height ∧ icon.Width = result.Width) := by
  induction attrs generalizing result with
  | nil => exact ⟨result, rfl, by simp, by simp⟩
  | cons x rest ih =>
    obtain ⟨r1, e1, e2, hstep⟩ := iconAttr_dims pageURL result x (hhref x (by simp))
    have hsz2 : ∀ y ∈ rest, y.Key = "sizes" → y.Val = String.mk (a ++ 'x' :: b) :=
      fun y hy => hsz y (by simp [hy])
    have hhref2 : ∀ y ∈ rest, y.Key = "href" → (resolveLink y.Val pageURL).isOk = true :=
      fun y hy => hhref y (by simp [hy])
    by_cases hk : x.Key = "sizes"
    · have hv := hsz x (by simp) hk
      have hany : x.Val ≠ "any" := by
        rw [hv]
        cases a with
        | nil => exact absurd rfl ha0
        | cons c cs =>
          intro h
          have hc : c = 'a' := by
            have := congrArg String.data h
            simp at this
            exact this.1
          subst hc
          simp [Strconv.isDigit] at ha1
      rw [if_pos ⟨hk, hany⟩, hv, iconSizes_numerals a b r1 ha0 ha1 ha2 hb0 hb1 hb2] at hstep
      obtain ⟨icon, hi, h1, h2⟩ := ih
        { r1 with Height := Strconv.digitsValue a, Width := Strconv.digitsValue b } hsz2 hhref2
      refine ⟨icon, by simp [iconLoop, hstep, hi], fun _ => ?_, fun hn => ?_⟩
      · by_cases hex : ∃ y ∈ rest, y.Key = "sizes"
        · exact h1 hex
        · exact h2 hex
      · exact absurd ⟨x, by simp, hk⟩ hn
    · rw [if_neg (fun h => hk h.1)] at hstep
      obtain ⟨icon, hi, h1, h2⟩ := ih r1 hsz2 hhref2
      refine ⟨icon, by simp [iconLoop, hstep, hi], fun hex => ?_, fun hn => ?_⟩
      · apply h1
        obtain ⟨y, hy, hyk⟩ := hex
        simp at hy
        rcases hy with rfl | hy
        · exact absurd hyk hk
        · exact ⟨y, hy, hyk⟩
      · have := h2 (fun ⟨y, hy, hyk⟩ => hn ⟨y, by simp [hy], hyk⟩)
        rw [e1, e2] at this
        exact this

theorem iconLoop_any (pageURL : String) (attrs : List Attribute) (result : PreviewImage)
    (hsz : ∀ x ∈ attrs, x.Key = "sizes" → x.Val = "any")
    (hhref : ∀ x ∈ attrs, x.Key = "href" → (resolveLink x.Val pageURL).isOk = true) :
    ∃ icon, iconLoop pageURL attrs result = .ok icon ∧
      icon.Height = result.Height ∧ icon.Width = result.Width := by
  induction attrs generalizing result with
  | nil => exact ⟨result, rfl, rfl, rfl⟩
  | cons x rest ih =>
    obtain ⟨r1, e1, e2, hstep⟩ := iconAttr_dims pageURL result x (hhref x (by simp))
    rw [if_neg (fun h => h.2 (hsz x (by simp) h.1))] at hstep
    obtain ⟨icon, hi, h1, h2⟩ := ih r1 (fun y hy => hsz y (by simp [hy]))
      (fun y hy => hhref y (by simp [hy]))
    exact ⟨icon, by simp [iconLoop, hstep, hi], h1.trans e1, h2.trans e2⟩

/-- C6 (failing input): for `sizes="16x32"`, that is width 16 and height 32,
`generateIcon` returns width 32 and height 16: it stores `heiWid[0]` as the
height and `heiWid[1]` as the width. -/
theorem generateIcon_sizes_swapped :
    generateIcon
        { Type_ := .StartTagToken, Data := "link",
          Attr := [{ Key := "rel", Val := "icon" }, { Key := "sizes", Val := "16x32" },
                   { Key := "href", Val := "/i.png" }] }
        "https://ex.com/a/b" =
      .ok { URL := "https://ex.com/i.png", Width := 32, Height := 16 } := by
  decide

/-- What `generateIcon` computes from `sizes`: on a tag whose `href` values
resolve, a `sizes` attribute `AxB` with decimal numerals `A` and `B` in the
range of `int` gives a record with height `A` and width `B`, and the value
`any` leaves width and height unset. -/
theorem generateIcon_sizes (t : Token) (pageURL : String)
    (hhref : ∀ x ∈ t.Attr, x.Key = "href" → (resolveLink x.Val pageURL).isOk = true) :
    (∀ a b : List Char,
      a ≠ [] → a.all Strconv.isDigit = true → Strconv.digitsValue a < 2 ^ 63 →
      b ≠ [] → b.all Strconv.isDigit = true → Strconv.digitsValue b < 2 ^ 63 →
      (∃ x ∈ t.Attr, x.Key = "sizes") →
      (∀ x ∈ t.Attr, x.Key = "sizes" → x.Val = String.mk (a ++ 'x' :: b)) →
      ∃ icon, generateIcon t pageURL = .ok icon ∧
        icon.Height = Strconv.digitsValue a ∧ icon.Width = Strconv.digitsValue b) ∧
    ((∀ x ∈ t.Attr, x.Key = "sizes" → x.Val = "any") →
      ∃ icon, generateIcon t pageURL = .ok icon ∧ icon.Height = 0 ∧ icon.Width = 0) := by
  constructor
  · intro a b ha0 ha1 ha2 hb0 hb1 hb2 hex hsz
    obtain ⟨icon, hi, h1, _⟩ :=
      iconLoop_sizes pageURL a b ha0 ha1 ha2 hb0 hb1 hb2 t.Attr {} hsz hhref
    exact ⟨icon, hi, h1 hex⟩
  · intro hsz
    exact iconLoop_any pageURL t.Attr {} hsz hhref

/-- The example of the specification, `sizes="32x32" href="/i.png"` on the
page `https://ex.com/a/b`, and `sizes="any"`. -/
theorem generateIcon_sizes_example :
    generateIcon
        { Type_ := .StartTagToken, Data := "link",
          Attr := [{ Key := "rel", Val := "icon" }, { Key := "sizes", Val := "32x32" },
                   { Key := "href", Val := "/i.png" }] }
        "https://ex.com/a/b" =
      .ok { URL := "https://ex.com/i.png", Width := 32, Height := 32 } ∧
    (∃ icon, generateIcon
        { Type_ := .StartTagToken, Data := "link",
          Attr := [{ Key := "rel", Val := "icon" }, { Key := "sizes", Val := "32x32" },
                   { Key := "href", Val := "/i.png" }] }
        "https://ex.com/a/b" = .ok icon ∧
      icon.Height = Strconv.digitsValue ['3', '2'] ∧
      icon.Width = Strconv.digitsValue ['3', '2']) ∧
    (∃ icon, generateIcon
        { Type_ := .StartTagToken, Data := "link",
          Attr := [{ Key := "rel", Val := "icon" }, { Key := "sizes", Val := "any" },
                   { Key := "href", Val := "/i.png" }] }
        "https://ex.com/a/b" = .ok icon ∧ icon.Height = 0 ∧ icon.Width = 0) :=
  ⟨by decide,
    (generateIcon_sizes
      { Type_ := .StartTagToken, Data := "link",
        Attr := [{ Key := "rel", Val := "icon" }, { Key := "sizes", Val := "32x32" },
                 { Key := "href", Val := "/i.png" }] }
      "https://ex.com/a/b" (by decide)).1 ['3', '2'] ['3', '2']
      (by decide) (by decide) (by decide) (by decide) (by decide) (by decide)
      (by decide) (by decide),
    (generateIcon_sizes
      { Type_ := .StartTagToken, Data := "link",
        Attr := [{ Key := "rel", Val := "icon" }, { Key := "sizes", Val := "any" },
                 { Key := "href", Val := "/i.png" }] }
      "https://ex.com/a/b" (by decide)).2 (by decide)⟩

/-- C7 (failing input): a `sizes` value without an `x`, here `32`, makes
`generateIcon` index `heiWid[1]` out of range; so does the empty value. -/
theorem generateIcon_sizes_without_x :
    generateIcon
        { Type_ := .StartTagToken, Data := "link",
          Attr := [{ Key := "rel", Val := "icon" }, { Key := "sizes", Val := "32" },
                   { Key := "href", Val := "/i.png" }] }
        "https://ex.com/a/b" = .error .indexOutOfRange ∧
    generateIcon
        { Type_ := .StartTagToken, Data := "link",
          Attr := [{ Key := "rel", Val := "icon" }, { Key := "sizes", Val := "" }] }
        "https://ex.com/a/b" = .error .indexOutOfRange := by
  decide

end Handlers

/-! ## The loop of `extractSummary` -/

namespace Handlers

open Html

theorem scan_endHead (pageURL : String) (err : StreamError) (t : Token) (rest : List Token)
    (r : PageSummary) (i : List PreviewImage) (h : isEndHead t = true) :
    scan pageURL err (t :: rest) r i = .ok (finish r i) := by
  have h2 : t.Type_ = .EndTagToken ∧ t.Data = "head" := by simpa [isEndHead] using h
  rw [scan.eq_def]; simp [h2]

theorem scan_other (pageURL : String) (err : StreamError) (t : Token) (rest : List Token)
    (r : PageSummary) (i : List PreviewImage) (h1 : isEndHead t = false) (h2 : isTag t = false) :
    scan pageURL err (t :: rest) r i = scan pageURL err rest r i := by
  have h1' : ¬ (t.Type_ = .EndTagToken ∧ t.Data = "head") := by simpa [isEndHead] using h1
  have h2' : ¬ (t.Type_ = .StartTagToken ∨ t.Type_ = .SelfClosingTagToken) := by
    simpa [isTag] using h2
  rw [scan.eq_def]; simp only [if_neg h1', if_neg h2']

theorem isTag_not_endHead (t : Token) (h : isTag t = true) : isEndHead t = false := by
  simp [isTag] at h
  simp [isEndHead]
  intro h3
  rcases h with h | h <;> rw [h] at h3 <;> cases h3

/-- The step of the loop on a tag: the rules are applied to the summary that
the title rule gives, and the scan goes on behind the token read ahead. -/
theorem scan_tag (pageURL : String) (err : StreamError) (t : Token) (rest : List Token)
    (r : PageSummary) (i : List PreviewImage) (ht : isTag t = true) :
    scan pageURL err (t :: rest) r i =
      match tagRules pageURL t (titleRule t rest.head? r) i with
      | .error p => .error p
      | .ok s =>
        scan pageURL err (if t.Data = "title" ∧ r.Title = "" then rest.tail else rest)
          s.1 s.2 := by
  have h1 : ¬ (t.Type_ = .EndTagToken ∧ t.Data = "head") := by
    simpa [isEndHead] using isTag_not_endHead t ht
  have h2 : t.Type_ = .StartTagToken ∨ t.Type_ = .SelfClosingTagToken := by
    simpa [isTag] using ht
  by_cases h3 : t.Data = "title" ∧ r.Title = ""
  · cases rest with
    | nil =>
      rw [scan.eq_def]; simp only [if_neg h1, if_pos h2, if_pos h3]
      simp [titleRule, h3, scan]
    | cons n rest2 =>
      rw [scan.eq_def]; simp only [if_neg h1, if_pos h2, if_pos h3]
      simp only [titleRule, h3, List.head?_cons, and_self, if_true, List.tail_cons]
  · rw [scan.eq_def]; simp only [if_neg h1, if_pos h2, if_neg h3]
    simp [titleRule, h3]

theorem LookaheadSafe_tail (P : Token → Bool) (t : Token) (rest : List Token)
    (h : LookaheadSafe P (t :: rest) = true) : LookaheadSafe P rest = true := by
  simp [LookaheadSafe] at h
  exact h.2

/-- Behind a tag, the scan goes on with the rest of the stream, or with the
rest less one token that is neither named by `P` nor a `</head>`. -/
theorem lookahead_cases (P : Token → Bool) (t : Token) (rest : List Token) (c : Prop)
    [Decidable c] (ht : isTag t = true) (hc : c → t.Data = "title")
    (hs : LookaheadSafe P (t :: rest) = true) :
    LookaheadSafe P (if c then rest.tail else rest) = true ∧
      ((if c then rest.tail else rest) = rest ∨
        ∃ n, rest = n :: (if c then rest.tail else rest) ∧ P n = false ∧ isEndHead n = false) := by
  have hs2 := LookaheadSafe_tail P t rest hs
  by_cases h : c
  · rw [if_pos h]
    cases rest with
    | nil => exact ⟨hs2, Or.inl rfl⟩
    | cons n rest2 =>
      have hn : P n = false ∧ isEndHead n = false := by
        simp [LookaheadSafe, isTitleTag, ht, hc h] at hs
        exact hs.1
      exact ⟨LookaheadSafe_tail P n rest2 hs2, Or.inr ⟨n, rfl, hn.1, hn.2⟩⟩
  · rw [if_neg h]
    exact ⟨hs2, Or.inl rfl⟩

theorem tail_length_le (c : Prop) [Decidable c] (rest : List Token) :
    (if c then rest.tail else rest).length ≤ rest.length := by
  split_ifs
  · simp
  · exact le_refl _

theorem Tokenized_cons_cons (t n : Token) (rest : List Token) :
    Tokenized (t :: n :: rest) =
      ((! isTitleTag t ||
          (decide (n.Type_ = .TextToken) ||
            (decide (n.Type_ = .EndTagToken) && decide (n.Data = "title")))) &&
        Tokenized (n :: rest)) := rfl

theorem Tokenized_tail (t : Token) (rest : List Token) (h : Tokenized (t :: rest) = true) :
    Tokenized rest = true := by
  cases rest with
  | nil => rfl
  | cons n rest2 =>
    rw [Tokenized_cons_cons, Bool.and_eq_true] at h
    exact h.2

/-- The token behind a `title` tag of a tokenized stream is no tag and no end
tag `head`. -/
theorem Tokenized_next (t n : Token) (rest : List Token) (h : Tokenized (t :: n :: rest) = true)
    (ht : isTitleTag t = true) : isTag n = false ∧ isEndHead n = false := by
  rw [Tokenized_cons_cons, Bool.and_eq_true] at h
  have h1 := h.1
  simp only [ht, Bool.not_true, Bool.false_or, Bool.or_eq_true, Bool.and_eq_true,
    decide_eq_true_eq] at h1
  rcases h1 with h1 | h1
  · constructor
    · simp [isTag, h1]
    · simp [isEndHead, h1]
  · constructor
    · simp [isTag, h1.1]
    · simp only [isEndHead, h1.1, h1.2, true_and]
      decide

/-- The token behind a `title` tag of a tokenized stream is no tag and no
`</head>`, so the look-ahead of `extractSummary` drops none of these. -/
theorem Tokenized_safe (P : Token → Bool) (hP : ∀ t, P t = true → isTag t = true) :
    ∀ toks : List Token, Tokenized toks = true → LookaheadSafe P toks = true := by
  intro toks
  induction toks with
  | nil => intro _; rfl
  | cons t rest ih =>
    intro ht
    have h2 := ih (Tokenized_tail t rest ht)
    cases rest with
    | nil => simp [LookaheadSafe]
    | cons n rest2 =>
      have h1 : (! (isTitleTag t && (P n || isEndHead n))) = true := by
        by_cases htt : isTitleTag t = true
        · obtain ⟨hn, he⟩ := Tokenized_next t n rest2 ht htt
          have hp : P n = false := by
            cases hq : P n with
            | false => rfl
            | true => rw [hP n hq] at hn; cases hn
          simp [hp, he]
        · simp only [Bool.not_eq_true] at htt
          simp [htt]
      simp only [LookaheadSafe, Bool.and_eq_true]
      exact ⟨h1, by simpa [LookaheadSafe] using h2⟩

/-- In a tokenized stream no `title` tag stands directly before a tag or an
end tag `head`. -/
theorem Tokenized_last (pre : List Token) (h : Token) (hh : isTag h = true ∨ isEndHead h = true) :
    Tokenized (pre ++ [h]) = true → ∀ t, pre.getLast? = some t → isTitleTag t = false := by
  induction pre with
  | nil => intro _ t ht; cases ht
  | cons a rest ih =>
    intro htok t ht
    cases rest with
    | nil =>
      simp only [List.getLast?_singleton, Option.some.injEq] at ht
      subst ht
      cases htt : isTitleTag a with
      | false => rfl
      | true =>
        obtain ⟨hn, he⟩ := Tokenized_next a h [] htok htt
        rcases hh with hh | hh
        · rw [hh] at hn; cases hn
        · rw [hh] at he; cases he
    | cons b rest2 =>
      exact ih (Tokenized_tail a _ htok) t (by simpa [List.getLast?_cons_cons] using ht)

theorem scan_head_only (pageURL : String) (e : StreamError) (h : Token)
    (hh : isEndHead h = true) (post pre : List Token) (r : PageSummary)
    (i : List PreviewImage) (hlast : ∀ t, pre.getLast? = some t → isTitleTag t = false) :
    scan pageURL e (pre ++ h :: post) r i = scan pageURL .EOF pre r i := by
  induction pre, r, i using scan.induct pageURL .EOF with
  | case1 r i => simp [scan_endHead _ _ _ _ _ _ hh, scan, atError]
  | case2 t rest r i h1 =>
    have : isEndHead t = true := by simpa [isEndHead] using h1
    simp [scan_endHead _ _ _ _ _ _ this]
  | case3 t r i h1 h2 h3 p hp =>
    have := hlast t (by simp)
    simp [isTitleTag, isTag, h2, h3.1] at this
  | case4 t r i h1 h2 h3 s hs =>
    have := hlast t (by simp)
    simp [isTitleTag, isTag, h2, h3.1] at this
  | case5 t r i h1 h2 h3 n rest2 p hp =>
    simp only [List.cons_append]
    rw [scan.eq_3, scan.eq_3]
    simp only [if_neg h1, if_pos h2, if_pos h3, hp]
  | case6 t r i h1 h2 h3 n rest2 s hs ih =>
    simp only [List.cons_append]
    rw [scan.eq_3, scan.eq_3]
    simp only [if_neg h1, if_pos h2, if_pos h3, hs]
    apply ih
    intro t2 ht2
    apply hlast t2
    cases rest2 with
    | nil => simp at ht2
    | cons a b => simpa using ht2
  | case7 t rest r i h1 h2 h3 p hp =>
    simp only [List.cons_append]
    rw [scan.eq_def, scan.eq_def pageURL .EOF]
    simp only [if_neg h1, if_pos h2, if_neg h3, hp]
  | case8 t rest r i h1 h2 h3 s hs ih =>
    simp only [List.cons_append]
    rw [scan.eq_def, scan.eq_def pageURL .EOF]
    simp only [if_neg h1, if_pos h2, if_neg h3, hs]
    apply ih
    intro t2 ht2
    apply hlast t2
    cases rest with
    | nil => simp at ht2
    | cons a b => simpa using ht2
  | case9 t rest r i h1 h2 ih =>
    simp only [List.cons_append]
    rw [scan.eq_def, scan.eq_def pageURL .EOF]
    simp only [if_neg h1, if_neg h2]
    apply ih
    intro t2 ht2
    apply hlast t2
    cases rest with
    | nil => simp at ht2
    | cons a b => simpa using ht2

theorem scalarRules_Title (p n c : String) (r : PageSummary) :
    (scalarRules p n c r).Title = if p = "og:title" then c else r.Title := by
  simp only [scalarRules, apply_ite PageSummary.Title, ite_self]

theorem scalarRules_Description (p n c : String) (r : PageSummary) :
    (scalarRules p n c r).Description =
      if p = "og:description" then c
      else if n = "description" ∧ r.Description = "" then c else r.Description := by
  simp only [scalarRules, apply_ite PageSummary.Description, ite_self]

theorem scalarRules_Images (p n c : String) (r : PageSummary) :
    (scalarRules p n c r).Images = r.Images := by
  simp only [scalarRules, apply_ite PageSummary.Images, ite_self]

theorem tagRules_ok (pageURL : String) (t : Token) (r : PageSummary) (i : List PreviewImage)
    (s : PageSummary × List PreviewImage) (h : tagRules pageURL t r i = .ok s) :
    s.1.Title = (scalarRules (property t) (name t) (content t) r).Title ∧
    s.1.Description = (scalarRules (property t) (name t) (content t) r).Description ∧
    s.1.Images = r.Images ∧
    imageRules pageURL (property t) (content t) i = .ok s.2 := by
  unfold tagRules at h
  simp only [] at h
  split at h
  · cases h
  · rename_i r2 hr2
    split at h
    · cases h
    · rename_i i2 hi2
      cases h
      rw [← scalarRules_Images (property t) (name t) (content t) r]
      refine ⟨?_, ?_, ?_, hi2⟩
      all_goals
        split_ifs at hr2 with hc
        · split at hr2
          · cases hr2; rfl
          · cases hr2
        · cases hr2; rfl

theorem headTags_endHead (t : Token) (rest : List Token) (h : isEndHead t = true) :
    headTags (t :: rest) = [] := by
  simp [headTags, headTokens, h]

theorem headTags_tag (t : Token) (rest : List Token) (h : isTag t = true) :
    headTags (t :: rest) = t :: headTags rest := by
  simp [headTags, headTokens, isTag_not_endHead t h, h]

theorem headTags_other (t : Token) (rest : List Token) (h1 : isEndHead t = false)
    (h2 : isTag t = false) : headTags (t :: rest) = headTags rest := by
  simp [headTags, headTokens, h1, h2]

theorem lastContent_cons (p : String) (t : Token) (tags : List Token) :
    lastContent p (t :: tags) =
      match lastContent p tags with
      | some c => some c
      | none => if property t = p then some (content t) else none := by
  unfold lastContent
  by_cases h : property t = p
  · simp only [List.filter_cons, h, decide_True, if_true]
    cases hf : List.filter (fun t => decide (property t = p)) tags with
    | nil => simp
    | cons a l =>
      simp only [List.getLast?_cons_cons]
      rw [List.getLast?_eq_getLast _ (List.cons_ne_nil a l)]
      rfl
  · simp only [List.filter_cons, h, decide_False, if_false]
    cases hf : List.filter (fun t => decide (property t = p)) tags with
    | nil => simp
    | cons a l =>
      rw [List.getLast?_eq_getLast _ (List.cons_ne_nil a l)]
      rfl

theorem finish_fields (r s : PageSummary) (i : List PreviewImage)
    (h : finish r i = (some s, none)) :
    s.Title = r.Title ∧ s.Description = r.Description ∧
      s.Images = if 0 < i.length then some i else r.Images := by
  unfold finish at h
  simp only [Prod.mk.injEq, Option.some.injEq, and_true] at h
  subst h
  split_ifs <;> exact ⟨rfl, rfl, rfl⟩

theorem atError_fields (err : StreamError) (r s : PageSummary) (i : List PreviewImage)
    (h : atError err r i = (some s, none)) :
    s.Title = r.Title ∧ s.Description = r.Description ∧
      s.Images = if 0 < i.length then some i else r.Images := by
  cases err with
  | EOF => exact finish_fields r s i h
  | other => simp [atError] at h

theorem titleRule_of_ne (t : Token) (n : Option Token) (r : PageSummary) (h : r.Title ≠ "") :
    titleRule t n r = r := by
  simp [titleRule, h]

theorem titleRule_Description (t : Token) (n : Option Token) (r : PageSummary) :
    (titleRule t n r).Description = r.Description := by
  unfold titleRule
  split_ifs
  · cases n with
    | none => rfl
    | some x => simp only []; split_ifs <;> rfl
  · rfl

theorem lastContent_skip (p : String) (n : Token) (rest : List Token)
    (h1 : carries p n = false) (h2 : isEndHead n = false) :
    lastContent p (headTags (n :: rest)) = lastContent p (headTags rest) := by
  by_cases ht : isTag n = true
  · have hp : property n ≠ p := by simpa [carries, ht] using h1
    rw [headTags_tag _ _ ht, lastContent_cons]
    cases lastContent p (headTags rest) with
    | some c => rfl
    | none => simp [hp]
  · simp only [Bool.not_eq_true] at ht
    rw [headTags_other _ _ h2 ht]

theorem scan_title_keep (pageURL : String) (err : StreamError) (toks : List Token)
    (r s : PageSummary) (i : List PreviewImage)
    (hr : r.Title ≠ "") (hno : lastContent "og:title" (headTags toks) = none)
    (hret : scan pageURL err toks r i = .ok (some s, none)) : s.Title = r.Title := by
  induction toks generalizing r i with
  | nil =>
    simp only [scan, Except.ok.injEq] at hret
    exact (atError_fields _ _ _ _ hret).1
  | cons t rest ih =>
    by_cases he : isEndHead t = true
    · rw [scan_endHead _ _ _ _ _ _ he] at hret
      simp only [Except.ok.injEq] at hret
      exact (finish_fields _ _ _ hret).1
    · simp only [Bool.not_eq_true] at he
      by_cases ht : isTag t = true
      · rw [scan_tag _ _ _ _ _ _ ht, titleRule_of_ne _ _ _ hr,
          if_neg (fun h => hr h.2)] at hret
        rw [headTags_tag _ _ ht, lastContent_cons] at hno
        cases hl : lastContent "og:title" (headTags rest) with
        | some c => rw [hl] at hno; simp at hno
        | none =>
          rw [hl] at hno
          have hp : property t ≠ "og:title" := by
            intro hp; simp [hp] at hno
          cases hs : tagRules pageURL t r i with
          | error p => rw [hs] at hret; cases hret
          | ok s2 =>
            rw [hs] at hret
            have h1 := (tagRules_ok _ _ _ _ _ hs).1
            rw [scalarRules_Title, if_neg hp] at h1
            rw [ih s2.1 s2.2 (by rw [h1]; exact hr) hl hret, h1]
      · simp only [Bool.not_eq_true] at ht
        rw [scan_other _ _ _ _ _ _ he ht] at hret
        rw [headTags_other _ _ he ht] at hno
        exact ih r i hr hno hret

theorem scan_title_last (pageURL : String) (err : StreamError) (c : String) (hne : c ≠ "")
    (n : Nat) : ∀ (toks : List Token) (r s : PageSummary) (i : List PreviewImage),
    toks.length ≤ n → LookaheadSafe (carries "og:title") toks = true →
    lastContent "og:title" (headTags toks) = some c →
    scan pageURL err toks r i = .ok (some s, none) → s.Title = c := by
  induction n with
  | zero =>
    intro toks r s i hlen hc hl hret
    have : toks = [] := List.eq_nil_of_length_eq_zero (Nat.le_zero.mp hlen)
    subst this
    simp [headTags, headTokens, lastContent] at hl
  | succ n ih =>
    intro toks r s i hlen hc hl hret
    cases toks with
    | nil => simp [headTags, headTokens, lastContent] at hl
    | cons t rest =>
      have hlen2 : rest.length ≤ n := by simpa using hlen
      have hc2 := LookaheadSafe_tail _ t rest hc
      by_cases he : isEndHead t = true
      · simp [headTags_endHead _ _ he, lastContent] at hl
      · simp only [Bool.not_eq_true] at he
        by_cases ht : isTag t = true
        · rw [scan_tag _ _ _ _ _ _ ht] at hret
          rw [headTags_tag _ _ ht, lastContent_cons] at hl
          obtain ⟨hsafe, hcase⟩ := lookahead_cases (carries "og:title") t rest
            (t.Data = "title" ∧ r.Title = "") ht (fun h => h.1) hc
          have hlen3 := tail_length_le (t.Data = "title" ∧ r.Title = "") rest
          have hlast : lastContent "og:title"
              (headTags (if t.Data = "title" ∧ r.Title = "" then rest.tail else rest)) =
              lastContent "og:title" (headTags rest) := by
            rcases hcase with h | ⟨m, hm, hm1, hm2⟩
            · rw [h]
            · conv_rhs => rw [hm]
              exact (lastContent_skip _ _ _ hm1 hm2).symm
          cases hs : tagRules pageURL t (titleRule t rest.head? r) i with
          | error p => rw [hs] at hret; cases hret
          | ok s2 =>
            rw [hs] at hret
            simp only [] at hret
            cases hl2 : lastContent "og:title" (headTags rest) with
            | some c2 =>
              rw [hl2] at hl
              simp only [Option.some.injEq] at hl
              subst hl
              exact ih _ s2.1 s s2.2 (le_trans hlen3 hlen2) hsafe (hlast.trans hl2) hret
            | none =>
              rw [hl2] at hl
              have hp : property t = "og:title" := by
                by_contra hp; simp [hp] at hl
              simp only [hp, if_true, Option.some.injEq] at hl
              have h1 := (tagRules_ok _ _ _ _ _ hs).1
              rw [scalarRules_Title, if_pos hp, hl] at h1
              rw [scan_title_keep pageURL err _ s2.1 s s2.2 (by rw [h1]; exact hne)
                (hlast.trans hl2) hret, h1]
        · simp only [Bool.not_eq_true] at ht
          rw [scan_other _ _ _ _ _ _ he ht] at hret
          rw [headTags_other _ _ he ht] at hl
          exact ih rest r s i hlen2 hc2 hl hret

theorem scan_description_keep (pageURL : String) (err : StreamError) (n : Nat) :
    ∀ (toks : List Token) (r s : PageSummary) (i : List PreviewImage),
    toks.length ≤ n → LookaheadSafe (carries "og:description") toks = true →
    r.Description ≠ "" → lastContent "og:description" (headTags toks) = none →
    scan pageURL err toks r i = .ok (some s, none) → s.Description = r.Description := by
  induction n with
  | zero =>
    intro toks r s i hlen hc hr hno hret
    have : toks = [] := List.eq_nil_of_length_eq_zero (Nat.le_zero.mp hlen)
    subst this
    simp only [scan, Except.ok.injEq] at hret
    exact (atError_fields _ _ _ _ hret).2.1
  | succ n ih =>
    intro toks r s i hlen hc hr hno hret
    cases toks with
    | nil =>
      simp only [scan, Except.ok.injEq] at hret
      exact (atError_fields _ _ _ _ hret).2.1
    | cons t rest =>
      have hlen2 : rest.length ≤ n := by simpa using hlen
      have hc2 := LookaheadSafe_tail _ t rest hc
      by_cases he : isEndHead t = true
      · rw [scan_endHead _ _ _ _ _ _ he] at hret
        simp only [Except.ok.injEq] at hret
        exact (finish_fields _ _ _ hret).2.1
      · simp only [Bool.not_eq_true] at he
        by_cases ht : isTag t = true
        · rw [scan_tag _ _ _ _ _ _ ht] at hret
          rw [headTags_tag _ _ ht, lastContent_cons] at hno
          obtain ⟨hsafe, hcase⟩ := lookahead_cases (carries "og:description") t rest
            (t.Data = "title" ∧ r.Title = "") ht (fun h => h.1) hc
          have hlen3 := tail_length_le (t.Data = "title" ∧ r.Title = "") rest
          have hlast : lastContent "og:description"
              (headTags (if t.Data = "title" ∧ r.Title = "" then rest.tail else rest)) =
              lastContent "og:description" (headTags rest) := by
            rcases hcase with h | ⟨m, hm, hm1, hm2⟩
            · rw [h]
            · conv_rhs => rw [hm]
              exact (lastContent_skip _ _ _ hm1 hm2).symm
          cases hl : lastContent "og:description" (headTags rest) with
          | some c => rw [hl] at hno; simp at hno
          | none =>
            rw [hl] at hno
            have hp : property t ≠ "og:description" := by
              intro hp; simp [hp] at hno
            cases hs : tagRules pageURL t (titleRule t rest.head? r) i with
            | error p => rw [hs] at hret; cases hret
            | ok s2 =>
              rw [hs] at hret
              simp only [] at hret
              have h1 := (tagRules_ok _ _ _ _ _ hs).2.1
              rw [scalarRules_Description, if_neg hp, titleRule_Description,
                if_neg (fun h => hr h.2)] at h1
              rw [ih _ s2.1 s s2.2 (le_trans hlen3 hlen2) hsafe (by rw [h1]; exact hr)
                (hlast.trans hl) hret, h1]
        · simp only [Bool.not_eq_true] at ht
          rw [scan_other _ _ _ _ _ _ he ht] at hret
          rw [headTags_other _ _ he ht] at hno
          exact ih rest r s i hlen2 hc2 hr hno hret

theorem scan_description_last (pageURL : String) (err : StreamError) (c : String)
    (hne : c ≠ "") (n : Nat) :
    ∀ (toks : List Token) (r s : PageSummary) (i : List PreviewImage),
    toks.length ≤ n → LookaheadSafe (carries "og:description") toks = true →
    lastContent "og:description" (headTags toks) = some c →
    scan pageURL err toks r i = .ok (some s, none) → s.Description = c := by
  induction n with
  | zero =>
    intro toks r s i hlen hc hl hret
    have : toks = [] := List.eq_nil_of_length_eq_zero (Nat.le_zero.mp hlen)
    subst this
    simp [headTags, headTokens, lastContent] at hl
  | succ n ih =>
    intro toks r s i hlen hc hl hret
    cases toks with
    | nil => simp [headTags, headTokens, lastContent] at hl
    | cons t rest =>
      have hlen2 : rest.length ≤ n := by simpa using hlen
      have hc2 := LookaheadSafe_tail _ t rest hc
      by_cases he : isEndHead t = true
      · simp [headTags_endHead _ _ he, lastContent] at hl
      · simp only [Bool.not_eq_true] at he
        by_cases ht : isTag t = true
        · rw [scan_tag _ _ _ _ _ _ ht] at hret
          rw [headTags_tag _ _ ht, lastContent_cons] at hl
          obtain ⟨hsafe, hcase⟩ := lookahead_cases (carries "og:description") t rest
            (t.Data = "title" ∧ r.Title = "") ht (fun h => h.1) hc
          have hlen3 := tail_length_le (t.Data = "title" ∧ r.Title = "") rest
          have hlast : lastContent "og:description"
              (headTags (if t.Data = "title" ∧ r.Title = "" then rest.tail else rest)) =
              lastContent "og:description" (headTags rest) := by
            rcases hcase with h | ⟨m, hm, hm1, hm2⟩
            · rw [h]
            · conv_rhs => rw [hm]
              exact (lastContent_skip _ _ _ hm1 hm2).symm
          cases hs : tagRules pageURL t (titleRule t rest.head? r) i with
          | error p => rw [hs] at hret; cases hret
          | ok s2 =>
            rw [hs] at hret
            simp only [] at hret
            cases hl2 : lastContent "og:description" (headTags rest) with
            | some c2 =>
              rw [hl2] at hl
              simp only [Option.some.injEq] at hl
              subst hl
              exact ih _ s2.1 s s2.2 (le_trans hlen3 hlen2) hsafe (hlast.trans hl2) hret
            | none =>
              rw [hl2] at hl
              have hp : property t = "og:description" := by
                by_contra hp; simp [hp] at hl
              simp only [hp, if_true, Option.some.injEq] at hl
              have h1 := (tagRules_ok _ _ _ _ _ hs).2.1
              rw [scalarRules_Description, if_pos hp, hl] at h1
              rw [scan_description_keep pageURL err _ _ s2.1 s s2.2 (le_refl _) hsafe
                (by rw [h1]; exact hne) (hlast.trans hl2) hret, h1]
        · simp only [Bool.not_eq_true] at ht
          rw [scan_other _ _ _ _ _ _ he ht] at hret
          rw [headTags_other _ _ he ht] at hl
          exact ih rest r s i hlen2 hc2 hl hret

end Handlers

/-! ## The image list -/

namespace Handlers
open Html

theorem setLast_append (init : List PreviewImage) (l : PreviewImage)
    (f : PreviewImage → PreviewImage) : setLast (init ++ [l]) f = .ok (init ++ [f l]) := by
  simp [setLast]

theorem imageRules_image (pageURL c u : String) (imgs : List PreviewImage)
    (h : resolveLink c pageURL = .ok u) :
    imageRules pageURL "og:image" c imgs = .ok (imgs ++ [{ URL := u }]) := by
  simp [imageRules, h]

theorem imageRules_detail (pageURL p c : String) (init : List PreviewImage) (l : PreviewImage)
    (h : p ≠ "og:image") :
    imageRules pageURL p c (init ++ [l]) = .ok (init ++ [updDetail p c l]) := by
  unfold imageRules
  simp only [if_neg h]
  by_cases h1 : p = "og:image:secure_url"
  · subst h1; simp [setLast_append, updDetail]
  by_cases h2 : p = "og:image:type"
  · subst h2; simp [setLast_append, updDetail]
  by_cases h3 : p = "og:image:width"
  · subst h3; simp [setLast_append, updDetail]
  by_cases h4 : p = "og:image:height"
  · subst h4; simp [setLast_append, updDetail]
  by_cases h5 : p = "og:image:alt"
  · subst h5; simp [setLast_append, updDetail]
  simp [h1, h2, h3, h4, h5, updDetail]

theorem imageRules_other (pageURL p c : String) (imgs : List PreviewImage)
    (h : p ≠ "og:image") (hd : isDetail p = false) :
    imageRules pageURL p c imgs = .ok imgs := by
  simp [isDetail] at hd
  simp [imageRules, h, hd]

theorem withDetails_nil (img : PreviewImage) : withDetails img [] = img := by
  simp [withDetails, lastContent]

theorem withDetails_cons (img : PreviewImage) (t : Token) (seg : List Token) :
    withDetails img (t :: seg) = withDetails (updDetail (property t) (content t) img) seg := by
  have key : ∀ (k : String) (α : Type) (g : String → α) (d : α),
      ((lastContent k (t :: seg)).map g).getD d =
        ((lastContent k seg).map g).getD (if property t = k then g (content t) else d) := by
    intro k α g d
    rw [lastContent_cons]
    cases lastContent k seg with
    | some c => simp
    | none => simp only []; split_ifs <;> simp
  have k1 := fun k d => key k String id d
  simp only [Option.map_id_fun, id_eq] at k1
  simp only [withDetails, updDetail, key, k1]

theorem leadingTags_image (t : Token) (tags : List Token) (h : property t = "og:image") :
    leadingTags (t :: tags) = [] := by
  simp [leadingTags, h]

theorem leadingTags_other (t : Token) (tags : List Token) (h : property t ≠ "og:image") :
    leadingTags (t :: tags) = t :: leadingTags tags := by
  simp [leadingTags, h]

theorem isOk_iff {α : Type} (x : Except Panic α) (h : x.isOk = true) : ∃ a, x = .ok a := by
  cases x with
  | error p => simp [Except.isOk, Except.toBool] at h
  | ok a => exact ⟨a, rfl⟩

theorem foldImages_last (pageURL : String) (tags : List Token) (init : List PreviewImage)
    (l : PreviewImage)
    (hlinks : ∀ t ∈ tags, property t = "og:image" →
      (resolveLink (content t) pageURL).isOk = true) :
    ∃ recs, List.Forall₂ (IsImageOf pageURL) recs (imageSegments tags) ∧
      foldImages pageURL tags (init ++ [l]) =
        .ok (init ++ [withDetails l (leadingTags tags)] ++ recs) := by
  induction tags generalizing init l with
  | nil => exact ⟨[], by simp [imageSegments], by simp [foldImages, leadingTags, withDetails_nil]⟩
  | cons t tags ih =>
    have hlinks2 : ∀ u ∈ tags, property u = "og:image" →
        (resolveLink (content u) pageURL).isOk = true := fun u hu => hlinks u (by simp [hu])
    by_cases hp : property t = "og:image"
    · obtain ⟨u, hu⟩ := isOk_iff _ (hlinks t (by simp) hp)
      obtain ⟨recs, h1, h2⟩ := ih (init ++ [l]) { URL := u } hlinks2
      refine ⟨imageRecord u (leadingTags tags) :: recs, ?_, ?_⟩
      · simp only [imageSegments, if_pos hp]
        refine List.Forall₂.cons ⟨?_, ?_⟩ h1
        · simpa [imageRecord, withDetails] using hu
        · simp [imageRecord, withDetails]
      · simp only [foldImages, hp, imageRules_image _ _ _ _ hu, h2, leadingTags_image _ _ hp,
          withDetails_nil, imageRecord]
        simp
    · obtain ⟨recs, h1, h2⟩ := ih init (updDetail (property t) (content t) l) hlinks2
      refine ⟨recs, ?_, ?_⟩
      · simpa only [imageSegments, if_neg hp] using h1
      · simp only [foldImages, imageRules_detail _ _ _ _ _ hp, h2, leadingTags_other _ _ hp,
          withDetails_cons]

theorem foldImages_nil (pageURL : String) (tags : List Token)
    (hdetail : ∀ t ∈ leadingTags tags, isDetail (property t) = false)
    (hlinks : ∀ t ∈ tags, property t = "og:image" →
      (resolveLink (content t) pageURL).isOk = true) :
    ∃ recs, List.Forall₂ (IsImageOf pageURL) recs (imageSegments tags) ∧
      foldImages pageURL tags [] = .ok recs := by
  induction tags with
  | nil => exact ⟨[], by simp [imageSegments], rfl⟩
  | cons t tags ih =>
    have hlinks2 : ∀ u ∈ tags, property u = "og:image" →
        (resolveLink (content u) pageURL).isOk = true := fun u hu => hlinks u (by simp [hu])
    by_cases hp : property t = "og:image"
    · obtain ⟨u, hu⟩ := isOk_iff _ (hlinks t (by simp) hp)
      obtain ⟨recs, h1, h2⟩ := foldImages_last pageURL tags [] { URL := u } hlinks2
      refine ⟨imageRecord u (leadingTags tags) :: recs, ?_, ?_⟩
      · simp only [imageSegments, if_pos hp]
        refine List.Forall₂.cons ⟨?_, ?_⟩ h1
        · simpa [imageRecord, withDetails] using hu
        · simp [imageRecord, withDetails]
      · have := imageRules_image pageURL (content t) u [] hu
        simp only [List.nil_append] at this h2
        simp only [foldImages, hp, this, h2, imageRecord]
        simp
    · rw [leadingTags_other _ _ hp] at hdetail
      obtain ⟨recs, h1, h2⟩ := ih (fun u hu => hdetail u (by simp [hu])) hlinks2
      refine ⟨recs, ?_, ?_⟩
      · simpa only [imageSegments, if_neg hp] using h1
      · simp only [foldImages, imageRules_other _ _ _ _ hp (hdetail t (by simp)), h2]

theorem tagRules_of_images (pageURL : String) (t : Token) (r : PageSummary)
    (i i2 : List PreviewImage)
    (hicon : t.Data = "link" → getRel t = "icon" → (generateIcon t pageURL).isOk = true)
    (hi : imageRules pageURL (property t) (content t) i = .ok i2) :
    ∃ r2, tagRules pageURL t r i = .ok (r2, i2) := by
  unfold tagRules
  simp only []
  by_cases hc : t.Data = "link" ∧ getRel t = "icon"
  · obtain ⟨icon, hicon2⟩ := isOk_iff _ (hicon hc.1 hc.2)
    simp only [if_pos hc, hicon2]
    simp only [property, content] at hi
    simp only [hi]
    exact ⟨_, rfl⟩
  · simp only [if_neg hc]
    simp only [property, content] at hi
    simp only [hi]
    exact ⟨_, rfl⟩

theorem titleRule_Images (t : Token) (n : Option Token) (r : PageSummary) :
    (titleRule t n r).Images = r.Images := by
  unfold titleRule
  split_ifs
  · cases n with
    | none => rfl
    | some x => simp only []; split_ifs <;> rfl
  · rfl

theorem mem_headTags_skip (m u : Token) (rest : List Token) (h : isEndHead m = false)
    (hu : u ∈ headTags rest) : u ∈ headTags (m :: rest) := by
  by_cases ht : isTag m = true
  · rw [headTags_tag _ _ ht]; exact List.mem_cons_of_mem _ hu
  · simp only [Bool.not_eq_true] at ht
    rw [headTags_other _ _ h ht]; exact hu

theorem foldImages_skip (pageURL : String) (m : Token) (rest : List Token)
    (i : List PreviewImage) (h1 : carriesImage m = false) (h2 : isEndHead m = false) :
    foldImages pageURL (headTags (m :: rest)) i = foldImages pageURL (headTags rest) i := by
  by_cases ht : isTag m = true
  · have hp : property m ≠ "og:image" ∧ isDetail (property m) = false := by
      simpa [carriesImage, ht] using h1
    rw [headTags_tag _ _ ht]
    simp only [foldImages, imageRules_other _ _ _ _ hp.1 hp.2]
  · simp only [Bool.not_eq_true] at ht
    rw [headTags_other _ _ h2 ht]

theorem scan_images (pageURL : String) (err : StreamError) (n : Nat) :
    ∀ (toks : List Token) (r : PageSummary) (i i2 : List PreviewImage),
    toks.length ≤ n → LookaheadSafe carriesImage toks = true →
    (err = .EOF ∨ ∃ t ∈ toks, isEndHead t = true) →
    (∀ t ∈ headTags toks, t.Data = "link" → getRel t = "icon" →
      (generateIcon t pageURL).isOk = true) →
    foldImages pageURL (headTags toks) i = .ok i2 →
    ∃ s, scan pageURL err toks r i = .ok (some s, none) ∧
      s.Images = if 0 < i2.length then some i2 else r.Images := by
  have hnil : ∀ (r : PageSummary) (i i2 : List PreviewImage),
      (err = .EOF ∨ ∃ t ∈ ([] : List Token), isEndHead t = true) →
      foldImages pageURL (headTags []) i = .ok i2 →
      ∃ s, scan pageURL err [] r i = .ok (some s, none) ∧
        s.Images = if 0 < i2.length then some i2 else r.Images := by
    intro r i i2 hend hf
    have he : err = .EOF := by
      rcases hend with h | ⟨t, ht, _⟩
      · exact h
      · simp at ht
    subst he
    simp only [headTags, headTokens, List.takeWhile_nil, List.filter_nil, foldImages,
      Except.ok.injEq] at hf
    subst hf
    exact ⟨_, rfl, by simp only [apply_ite PageSummary.Images]⟩
  induction n with
  | zero =>
    intro toks r i i2 hlen hc hend hicons hf
    have : toks = [] := List.eq_nil_of_length_eq_zero (Nat.le_zero.mp hlen)
    subst this
    exact hnil r i i2 hend hf
  | succ n ih =>
    intro toks r i i2 hlen hc hend hicons hf
    cases toks with
    | nil => exact hnil r i i2 hend hf
    | cons t rest =>
      have hlen2 : rest.length ≤ n := by simpa using hlen
      have hc2 := LookaheadSafe_tail _ t rest hc
      by_cases he : isEndHead t = true
      · rw [headTags_endHead _ _ he] at hf
        simp only [foldImages, Except.ok.injEq] at hf
        subst hf
        rw [scan_endHead _ _ _ _ _ _ he]
        exact ⟨_, rfl, by simp only [apply_ite PageSummary.Images]⟩
      · simp only [Bool.not_eq_true] at he
        have hend2 : err = .EOF ∨ ∃ u ∈ rest, isEndHead u = true := by
          rcases hend with h | ⟨u, hu, hu2⟩
          · exact Or.inl h
          · simp only [List.mem_cons] at hu
            rcases hu with rfl | hu
            · rw [he] at hu2; cases hu2
            · exact Or.inr ⟨u, hu, hu2⟩
        by_cases ht : isTag t = true
        · rw [headTags_tag _ _ ht] at hf hicons
          rw [scan_tag _ _ _ _ _ _ ht]
          obtain ⟨hsafe, hcase⟩ := lookahead_cases carriesImage t rest
            (t.Data = "title" ∧ r.Title = "") ht (fun h => h.1) hc
          have hlen3 := tail_length_le (t.Data = "title" ∧ r.Title = "") rest
          simp only [foldImages] at hf
          cases hi : imageRules pageURL (property t) (content t) i with
          | error p => rw [hi] at hf; cases hf
          | ok i1 =>
            rw [hi] at hf
            simp only [] at hf
            obtain ⟨r2, hr2⟩ := tagRules_of_images pageURL t (titleRule t rest.head? r) i i1
              (hicons t (by simp)) hi
            have hstep : ∃ s, scan pageURL err
                (if t.Data = "title" ∧ r.Title = "" then rest.tail else rest) r2 i1 =
                  .ok (some s, none) ∧
                s.Images = if 0 < i2.length then some i2 else r2.Images := by
              apply ih _ r2 i1 i2 (le_trans hlen3 hlen2) hsafe
              · rcases hcase with h | ⟨m, hm, _, hm2⟩
                · rw [h]; exact hend2
                · rcases hend2 with h | ⟨u, hu, hu2⟩
                  · exact Or.inl h
                  · rw [hm] at hu
                    simp only [List.mem_cons] at hu
                    rcases hu with rfl | hu
                    · rw [hm2] at hu2; cases hu2
                    · exact Or.inr ⟨u, hu, hu2⟩
              · intro u hu
                apply hicons u
                apply List.mem_cons_of_mem
                rcases hcase with h | ⟨m, hm, _, hm2⟩
                · rw [h] at hu; exact hu
                · rw [hm]; exact mem_headTags_skip m u _ hm2 hu
              · rcases hcase with h | ⟨m, hm, hm1, hm2⟩
                · rw [h]; exact hf
                · rw [hm] at hf
                  rw [← foldImages_skip pageURL m _ i1 hm1 hm2]
                  exact hf
            obtain ⟨s, hs1, hs2⟩ := hstep
            refine ⟨s, by simp only [hr2, hs1], ?_⟩
            rw [hs2]
            have := (tagRules_ok _ _ _ _ _ hr2).2.2.1
            simp only [] at this
            rw [this, titleRule_Images]
        · simp only [Bool.not_eq_true] at ht
          rw [headTags_other _ _ he ht] at hf hicons
          rw [scan_other _ _ _ _ _ _ he ht]
          exact ih rest r i i2 hlen2 hc2 hend2 hicons hf

/-- What the loop of `extractSummary` can end in: a panic, the parse error
(only when the tokenizer reports an error other than end-of-stream), or a
summary without an error. -/
theorem scan_outcome (pageURL : String) (err : StreamError) (toks : List Token)
    (r : PageSummary) (i : List PreviewImage) :
    (∃ p, scan pageURL err toks r i = .error p) ∨
      (scan pageURL err toks r i = .ok (none, some parseErrorMessage) ∧ err = .other) ∨
      ∃ s, scan pageURL err toks r i = .ok (some s, none) := by
  have hat : ∀ (r : PageSummary) (i : List PreviewImage),
      (atError err r i = (none, some parseErrorMessage) ∧ err = .other) ∨
        ∃ s, atError err r i = (some s, none) := by
    intro r i
    cases err with
    | EOF => exact Or.inr ⟨_, rfl⟩
    | other => exact Or.inl ⟨rfl, rfl⟩
  induction toks, r, i using scan.induct pageURL err with
  | case1 r i =>
    rw [scan.eq_1]
    rcases hat r i with h | ⟨s, h⟩
    · exact Or.inr (Or.inl ⟨by rw [h.1], h.2⟩)
    · exact Or.inr (Or.inr ⟨s, by rw [h]⟩)
  | case2 t rest r i h1 =>
    rw [scan.eq_def]; simp only [if_pos h1]
    exact Or.inr (Or.inr ⟨_, rfl⟩)
  | case3 t r i h1 h2 h3 p hp =>
    rw [scan.eq_2]; simp only [if_neg h1, if_pos h2, if_pos h3, hp]
    exact Or.inl ⟨p, rfl⟩
  | case4 t r i h1 h2 h3 s hs =>
    rw [scan.eq_2]; simp only [if_neg h1, if_pos h2, if_pos h3, hs]
    rcases hat s.1 s.2 with h | ⟨s2, h⟩
    · exact Or.inr (Or.inl ⟨by rw [h.1], h.2⟩)
    · exact Or.inr (Or.inr ⟨s2, by rw [h]⟩)
  | case5 t r i h1 h2 h3 n rest2 p hp =>
    rw [scan.eq_3]; simp only [if_neg h1, if_pos h2, if_pos h3, hp]
    exact Or.inl ⟨p, rfl⟩
  | case6 t r i h1 h2 h3 n rest2 s hs ih =>
    rw [scan.eq_3]; simp only [if_neg h1, if_pos h2, if_pos h3, hs]
    exact ih
  | case7 t rest r i h1 h2 h3 p hp =>
    rw [scan.eq_def]; simp only [if_neg h1, if_pos h2, if_neg h3, hp]
    exact Or.inl ⟨p, rfl⟩
  | case8 t rest r i h1 h2 h3 s hs ih =>
    rw [scan.eq_def]; simp only [if_neg h1, if_pos h2, if_neg h3, hs]
    exact ih
  | case9 t rest r i h1 h2 ih =>
    rw [scan.eq_def]; simp only [if_neg h1, if_neg h2]
    exact ih

end Handlers

/-! ## The claims on `extractSummary` -/

namespace Handlers

open Html

/-- C1 (failing input): two heads in which each detail property is preceded
by an `og:image` property, as the claim asks, and on which `extractSummary`
returns no list of images, because it panics. In the first the content of an
`og:image` does not parse as a URL, and `resolveLink` reads through the nil
pointer (the defect of C10). In the second an icon link whose `sizes` has no
`x` stands behind the images, and `generateIcon` reads `heiWid[1]` out of
range (the defect of C7). -/
theorem extractSummary_images_panic :
    (Tokenized [startTag "head", metaProperty "og:image" "/%zz", endTag "head"] = true ∧
      (∀ t ∈ leadingTags (headTags
          [startTag "head", metaProperty "og:image" "/%zz", endTag "head"]),
        isDetail (property t) = false) ∧
      extractSummary "https://ex.com/a/b"
          { tokens := [startTag "head", metaProperty "og:image" "/%zz", endTag "head"],
            err := .EOF } = .error .nilDereference) ∧
    (Tokenized [startTag "head", metaProperty "og:image" "u1",
        metaProperty "og:image:width" "100", linkIcon "32" "i.png", endTag "head"] = true ∧
      (∀ t ∈ leadingTags (headTags
          [startTag "head", metaProperty "og:image" "u1",
            metaProperty "og:image:width" "100", linkIcon "32" "i.png", endTag "head"]),
        isDetail (property t) = false) ∧
      extractSummary "https://ex.com/a/b"
          { tokens := [startTag "head", metaProperty "og:image" "u1",
              metaProperty "og:image:width" "100", linkIcon "32" "i.png", endTag "head"],
            err := .EOF } = .error .indexOutOfRange) := by
  decide

/-- C1 (the claim where the code does not panic): on a tokenized stream
that ends with end-of-stream or holds a `</head>`, in which no image-detail
property stands before the first `og:image` property, and every `og:image`
content resolves and every icon is generated without a panic,
`extractSummary` returns a summary whose images are, in order, one record per
`og:image` tag of the head: its URL is `resolveLink` of the content, and its
details are those given by the tags up to the next `og:image` tag (the last
value of each), the others being unset; the list is nil when there is no
`og:image`. -/
theorem extractSummary_images (pageURL : String) (htmlStream : Tokenizer)
    (htok : Tokenized htmlStream.tokens = true)
    (hend : htmlStream.err = .EOF ∨ ∃ t ∈ htmlStream.tokens, isEndHead t = true)
    (hdetail : ∀ t ∈ leadingTags (headTags htmlStream.tokens), isDetail (property t) = false)
    (hlinks : ∀ t ∈ headTags htmlStream.tokens, property t = "og:image" →
      (resolveLink (content t) pageURL).isOk = true)
    (hicons : ∀ t ∈ headTags htmlStream.tokens, t.Data = "link" → getRel t = "icon" →
      (generateIcon t pageURL).isOk = true) :
    ∃ s, extractSummary pageURL htmlStream = .ok (some s, none) ∧
      List.Forall₂ (IsImageOf pageURL) (s.Images.getD [])
        (imageSegments (headTags htmlStream.tokens)) ∧
      (s.Images = none ↔ imageSegments (headTags htmlStream.tokens) = []) := by
  obtain ⟨recs, h1, h2⟩ := foldImages_nil pageURL (headTags htmlStream.tokens) hdetail hlinks
  have hclean : LookaheadSafe carriesImage htmlStream.tokens = true :=
    Tokenized_safe carriesImage (fun t ht => by
      simp only [carriesImage, Bool.and_eq_true] at ht
      exact ht.1) _ htok
  obtain ⟨s, hs1, hs2⟩ := scan_images pageURL htmlStream.err htmlStream.tokens.length
    htmlStream.tokens {} [] recs (le_refl _) hclean hend hicons h2
  refine ⟨s, hs1, ?_, ?_⟩
  · rw [hs2]
    cases recs with
    | nil => simpa using h1
    | cons a l => simpa using h1
  · rw [hs2]
    cases recs with
    | nil =>
      cases hseg : imageSegments (headTags htmlStream.tokens) with
      | nil => simp
      | cons a l => rw [hseg] at h1; cases h1
    | cons a l =>
      cases hseg : imageSegments (headTags htmlStream.tokens) with
      | nil => rw [hseg] at h1; cases h1
      | cons a l => simp

/-- The example of C1 in the specification: the stream `og:image=u1`,
`og:image:width=100`, `og:image=u2`, `og:image:width=200`. -/
theorem extractSummary_images_witness :
    extractSummary "https://ex.com/a/b"
        { tokens := [metaProperty "og:image" "u1", metaProperty "og:image:width" "100",
                     metaProperty "og:image" "u2", metaProperty "og:image:width" "200"] } =
      .ok (some { Images := some [{ URL := "u1", Width := 100 }, { URL := "u2", Width := 200 }] },
        none) ∧
    ∃ s, extractSummary "https://ex.com/a/b"
        { tokens := [metaProperty "og:image" "u1", metaProperty "og:image:width" "100",
                     metaProperty "og:image" "u2", metaProperty "og:image:width" "200"] } =
        .ok (some s, none) ∧
      List.Forall₂ (IsImageOf "https://ex.com/a/b") (s.Images.getD [])
        (imageSegments (headTags
          [metaProperty "og:image" "u1", metaProperty "og:image:width" "100",
           metaProperty "og:image" "u2", metaProperty "og:image:width" "200"])) ∧
      (s.Images = none ↔ imageSegments (headTags
          [metaProperty "og:image" "u1", metaProperty "og:image:width" "100",
           metaProperty "og:image" "u2", metaProperty "og:image:width" "200"]) = []) :=
  ⟨by decide,
    extractSummary_images "https://ex.com/a/b"
      { tokens := [metaProperty "og:image" "u1", metaProperty "og:image:width" "100",
                   metaProperty "og:image" "u2", metaProperty "og:image:width" "200"] }
      (by decide) (Or.inl rfl) (by decide) (by decide) (by decide)⟩

/-- C2 (counterexample): the head holds an `og:title` property, and the title
is not its content. In the first stream the content is empty, which the code
takes for an unset title, so the later `<title>` text is stored. In the second
the `og:title` tag follows a `title` tag, is read as the title text and dropped.
In the third the `</head>` follows a `title` tag and is dropped, so an
`og:title` of the body is stored. -/
theorem extractSummary_og_title_counterexample :
    (lastContent "og:title"
        (headTags [metaProperty "og:title" "", startTag "title", textToken "T"]) = some "" ∧
      extractSummary "https://ex.com/a/b"
        { tokens := [metaProperty "og:title" "", startTag "title", textToken "T"] } =
        .ok (some { Title := "T" }, none)) ∧
    (lastContent "og:title"
        (headTags [startTag "title", metaProperty "og:title" "A"]) = some "A" ∧
      extractSummary "https://ex.com/a/b"
        { tokens := [startTag "title", metaProperty "og:title" "A"] } =
        .ok (some { Title := "" }, none)) ∧
    (lastContent "og:title"
        (headTags [metaProperty "og:title" "", startTag "title", endTag "head",
          metaProperty "og:title" "B"]) = some "" ∧
      extractSummary "https://ex.com/a/b"
        { tokens := [metaProperty "og:title" "", startTag "title", endTag "head",
            metaProperty "og:title" "B"] } =
        .ok (some { Title := "B" }, none)) := by
  decide

/-- C2 (amended): on a token stream in which no tag with an `og:title`
property and no `</head>` directly follows a `title` tag, if the last
`og:title` property of the head has a non-empty content, the title of the
summary that `extractSummary` returns is that content, whatever `<title>` texts
stand before or behind it. -/
theorem extractSummary_og_title (pageURL : String) (htmlStream : Tokenizer)
    (s : PageSummary) (c : String)
    (hclean : LookaheadSafe (carries "og:title") htmlStream.tokens = true)
    (hlast : lastContent "og:title" (headTags htmlStream.tokens) = some c) (hne : c ≠ "")
    (hret : extractSummary pageURL htmlStream = .ok (some s, none)) : s.Title = c :=
  scan_title_last pageURL htmlStream.err c hne htmlStream.tokens.length htmlStream.tokens {} s []
    (le_refl _) hclean hlast hret

/-- Witness of C2 (amended): a `<title>` text before and one behind the
`og:title` property. -/
theorem extractSummary_og_title_witness :
    extractSummary "https://ex.com/a/b"
        { tokens := [startTag "title", textToken "Hello", endTag "title",
                     metaProperty "og:title" "OG", startTag "title", textToken "Later",
                     endTag "title", endTag "head"] } = .ok (some { Title := "OG" }, none) ∧
      ({ Title := "OG" } : PageSummary).Title = "OG" :=
  ⟨by decide,
    extractSummary_og_title "https://ex.com/a/b"
      { tokens := [startTag "title", textToken "Hello", endTag "title",
                   metaProperty "og:title" "OG", startTag "title", textToken "Later",
                   endTag "title", endTag "head"] }
      { Title := "OG" } "OG" (by decide) (by decide) (by decide) (by decide)⟩

/-- C3 (counterexample): the head holds an `og:description` property, and the
description is not its content. In the first stream the content is empty, which
the code takes for an unset description, so the later generic tag is stored. In
the second the `og:description` tag follows a `title` tag and is dropped. In
the third the `</head>` follows a `title` tag and is dropped, so an
`og:description` of the body is stored. -/
theorem extractSummary_og_description_counterexample :
    (lastContent "og:description"
        (headTags [metaProperty "og:description" "", metaName "description" "G"]) = some "" ∧
      extractSummary "https://ex.com/a/b"
        { tokens := [metaProperty "og:description" "", metaName "description" "G"] } =
        .ok (some { Description := "G" }, none)) ∧
    (lastContent "og:description"
        (headTags [startTag "title", metaProperty "og:description" "D"]) = some "D" ∧
      extractSummary "https://ex.com/a/b"
        { tokens := [startTag "title", metaProperty "og:description" "D"] } =
        .ok (some { Description := "" }, none)) ∧
    (lastContent "og:description"
        (headTags [metaProperty "og:description" "D", startTag "title", endTag "head",
          metaProperty "og:description" "E"]) = some "D" ∧
      extractSummary "https://ex.com/a/b"
        { tokens := [metaProperty "og:description" "D", startTag "title", endTag "head",
            metaProperty "og:description" "E"] } =
        .ok (some { Description := "E" }, none)) := by
  decide

/-- C3 (amended): on a token stream in which no tag with an `og:description`
property and no `</head>` directly follows a `title` tag, if the last
`og:description` property of the head has a non-empty content, the description
of the summary that `extractSummary` returns is that content, wherever generic
description tags stand. -/
theorem extractSummary_og_description (pageURL : String) (htmlStream : Tokenizer)
    (s : PageSummary) (c : String)
    (hclean : LookaheadSafe (carries "og:description") htmlStream.tokens = true)
    (hlast : lastContent "og:description" (headTags htmlStream.tokens) = some c)
    (hne : c ≠ "")
    (hret : extractSummary pageURL htmlStream = .ok (some s, none)) : s.Description = c :=
  scan_description_last pageURL htmlStream.err c hne htmlStream.tokens.length
    htmlStream.tokens {} s [] (le_refl _) hclean hlast hret

/-- Witness of C3 (amended): a generic description before and one behind the
`og:description` property. -/
theorem extractSummary_og_description_witness :
    extractSummary "https://ex.com/a/b"
        { tokens := [metaName "description" "G1", metaProperty "og:description" "OG",
                     metaName "description" "G2", endTag "head"] } =
        .ok (some { Description := "OG" }, none) ∧
      ({ Description := "OG" } : PageSummary).Description = "OG" :=
  ⟨by decide,
    extractSummary_og_description "https://ex.com/a/b"
      { tokens := [metaName "description" "G1", metaProperty "og:description" "OG",
                   metaName "description" "G2", endTag "head"] }
      { Description := "OG" } "OG" (by decide) (by decide) (by decide) (by decide)⟩

/-- C4: on a tokenized stream the result of `extractSummary` on a prefix
`pre`, the end tag `head` and any suffix (with any final error of the
tokenizer) does not depend on the suffix, and it is the result on `pre`
followed by end-of-stream: no token behind the first `</head>` is read. The
stream is tokenized up to the `</head>`: the content of a `title` tag is text,
so the `</head>` does not stand directly behind a `title` tag. -/
theorem extractSummary_head_only (pageURL : String) (pre post1 post2 : List Token)
    (h : Token) (e1 e2 : StreamError) (hh : isEndHead h = true)
    (htok : Tokenized (pre ++ [h]) = true) :
    extractSummary pageURL { tokens := pre ++ h :: post1, err := e1 } =
        extractSummary pageURL { tokens := pre ++ h :: post2, err := e2 } ∧
      extractSummary pageURL { tokens := pre ++ h :: post1, err := e1 } =
        extractSummary pageURL { tokens := pre, err := .EOF } := by
  have hlast := Tokenized_last pre h (Or.inr hh) htok
  simp only [extractSummary]
  rw [scan_head_only pageURL e1 h hh post1 pre {} [] hlast,
    scan_head_only pageURL e2 h hh post2 pre {} [] hlast]
  exact ⟨rfl, rfl⟩

/-- Witness of C4: `<title>Hello</title>`, `</head>`, then an `og:title`
property in the body or nothing. -/
theorem extractSummary_head_only_witness :
    extractSummary "https://ex.com/a/b"
        { tokens := [startTag "title", textToken "Hello", endTag "title"] ++
            endTag "head" :: [metaProperty "og:title" "X"], err := .other } =
        extractSummary "https://ex.com/a/b"
          { tokens := [startTag "title", textToken "Hello", endTag "title"] ++
              endTag "head" :: [], err := .EOF } ∧
      extractSummary "https://ex.com/a/b"
        { tokens := [startTag "title", textToken "Hello", endTag "title"] ++
            endTag "head" :: [metaProperty "og:title" "X"], err := .other } =
        extractSummary "https://ex.com/a/b"
          { tokens := [startTag "title", textToken "Hello", endTag "title"], err := .EOF } :=
  extractSummary_head_only "https://ex.com/a/b"
    [startTag "title", textToken "Hello", endTag "title"] [metaProperty "og:title" "X"] []
    (endTag "head") .other .EOF (by decide) (by decide)

/-- C5 (failing input): on the head `<meta property="og:image:width"
content="100">` with no `og:image` before it, `extractSummary` returns neither
an error nor a summary: it panics on the index `len(imgs)-1` of the empty list. -/
theorem extractSummary_orphan_detail :
    extractSummary "https://ex.com/a/b"
        { tokens := [startTag "head", metaProperty "og:image:width" "100", endTag "head"],
          err := .EOF } = .error .indexOutOfRange := by
  decide

end Handlers

/-! ## Fields that the last tag of a kind decides -/

namespace Handlers

open Html

theorem lastValue_cons {α : Type} (sel : Token → Bool) (val : Token → α) (t : Token)
    (tags : List Token) :
    lastValue sel val (t :: tags) =
      match lastValue sel val tags with
      | some c => some c
      | none => if sel t = true then some (val t) else none := by
  unfold lastValue
  by_cases h : sel t = true
  · simp only [List.filter_cons, h, if_true]
    cases hf : List.filter sel tags with
    | nil => simp
    | cons a l =>
      simp only [List.getLast?_cons_cons]
      rw [List.getLast?_eq_getLast _ (List.cons_ne_nil a l)]
      rfl
  · simp only [List.filter_cons, h, if_false]
    cases hf : List.filter sel tags with
    | nil => simp
    | cons a l =>
      rw [List.getLast?_eq_getLast _ (List.cons_ne_nil a l)]
      rfl

theorem lastValue_skip {α : Type} (sel : Token → Bool) (val : Token → α) (n : Token)
    (rest : List Token) (h1 : (isTag n && sel n) = false) (h2 : isEndHead n = false) :
    lastValue sel val (headTags (n :: rest)) = lastValue sel val (headTags rest) := by
  by_cases ht : isTag n = true
  · have hp : sel n = false := by simpa [ht] using h1
    rw [headTags_tag _ _ ht, lastValue_cons]
    cases lastValue sel val (headTags rest) with
    | some c => rfl
    | none => simp [hp]
  · simp only [Bool.not_eq_true] at ht
    rw [headTags_other _ _ h2 ht]

theorem LookaheadSafe_mono (P Q : Token → Bool) (h : ∀ t, Q t = true → P t = true) :
    ∀ toks : List Token, LookaheadSafe P toks = true → LookaheadSafe Q toks = true := by
  intro toks
  induction toks with
  | nil => intro _; rfl
  | cons t rest ih =>
    intro hs
    have hs2 := ih (LookaheadSafe_tail P t rest hs)
    cases rest with
    | nil => simp [LookaheadSafe]
    | cons n rest2 =>
      simp only [LookaheadSafe, Bool.and_eq_true, Bool.not_eq_true'] at hs ⊢
      refine ⟨?_, by simpa [LookaheadSafe] using hs2⟩
      have h1 := hs.1
      by_cases ht : isTitleTag t = true
      · simp only [ht, Bool.true_and, Bool.or_eq_false_iff] at h1 ⊢
        refine ⟨?_, h1.2⟩
        cases hq : Q n with
        | false => rfl
        | true => rw [h n hq] at h1; exact absurd h1.1 (by simp)
      · simp only [Bool.not_eq_true] at ht
        simp [ht]

/-- A field `f` of the summary that the rules set to `val t` at each tag `t`
that `sel` selects, and that nothing else changes, has at the end the value of
the last selected tag of the head, when none of them is read ahead as a title
text. -/
theorem scan_lastValue {α : Type} (f : PageSummary → α) (sel : Token → Bool)
    (val : Token → α) (pageURL : String) (err : StreamError)
    (hrule : ∀ (t : Token) (r : PageSummary) (i : List PreviewImage)
      (s : PageSummary × List PreviewImage),
      tagRules pageURL t r i = .ok s → f s.1 = if sel t = true then val t else f r)
    (htitle : ∀ (t : Token) (n : Option Token) (r : PageSummary), f (titleRule t n r) = f r)
    (hfin : ∀ (r s : PageSummary) (i : List PreviewImage),
      finish r i = (some s, none) → f s = f r)
    (n : Nat) :
    ∀ (toks : List Token) (r s : PageSummary) (i : List PreviewImage),
    toks.length ≤ n → LookaheadSafe (fun t => isTag t && sel t) toks = true →
    scan pageURL err toks r i = .ok (some s, none) →
    f s = (lastValue sel val (headTags toks)).getD (f r) := by
  have hat : ∀ (r s : PageSummary) (i : List PreviewImage),
      atError err r i = (some s, none) → f s = f r := by
    intro r s i h
    cases err with
    | EOF => exact hfin r s i h
    | other => simp [atError] at h
  induction n with
  | zero =>
    intro toks r s i hlen hc hret
    have : toks = [] := List.eq_nil_of_length_eq_zero (Nat.le_zero.mp hlen)
    subst this
    simp only [scan, Except.ok.injEq] at hret
    simpa [headTags, headTokens, lastValue] using hat _ _ _ hret
  | succ n ih =>
    intro toks r s i hlen hc hret
    cases toks with
    | nil =>
      simp only [scan, Except.ok.injEq] at hret
      simpa [headTags, headTokens, lastValue] using hat _ _ _ hret
    | cons t rest =>
      have hlen2 : rest.length ≤ n := by simpa using hlen
      have hc2 := LookaheadSafe_tail _ t rest hc
      by_cases he : isEndHead t = true
      · rw [scan_endHead _ _ _ _ _ _ he] at hret
        simp only [Except.ok.injEq] at hret
        rw [headTags_endHead _ _ he]
        simpa [lastValue] using hfin _ _ _ hret
      · simp only [Bool.not_eq_true] at he
        by_cases ht : isTag t = true
        · rw [scan_tag _ _ _ _ _ _ ht] at hret
          rw [headTags_tag _ _ ht, lastValue_cons]
          obtain ⟨hsafe, hcase⟩ := lookahead_cases (fun t => isTag t && sel t) t rest
            (t.Data = "title" ∧ r.Title = "") ht (fun h => h.1) hc
          have hlen3 := tail_length_le (t.Data = "title" ∧ r.Title = "") rest
          have hlast : lastValue sel val
              (headTags (if t.Data = "title" ∧ r.Title = "" then rest.tail else rest)) =
              lastValue sel val (headTags rest) := by
            rcases hcase with h | ⟨m, hm, hm1, hm2⟩
            · rw [h]
            · conv_rhs => rw [hm]
              exact (lastValue_skip _ _ _ _ hm1 hm2).symm
          cases hs : tagRules pageURL t (titleRule t rest.head? r) i with
          | error p => rw [hs] at hret; cases hret
          | ok s2 =>
            rw [hs] at hret
            simp only [] at hret
            have h1 := hrule _ _ _ _ hs
            rw [htitle] at h1
            have h2 := ih _ s2.1 s s2.2 (le_trans hlen3 hlen2) hsafe hret
            rw [hlast] at h2
            rw [h2, h1]
            cases lastValue sel val (headTags rest) with
            | some c => rfl
            | none =>
              by_cases hsel : sel t = true
              · simp [hsel]
              · simp [hsel]
        · simp only [Bool.not_eq_true] at ht
          rw [scan_other _ _ _ _ _ _ he ht] at hret
          rw [headTags_other _ _ he ht]
          exact ih rest r s i hlen2 hc2 hret

/-- The summary that the rules give for a tag is the one of the scalar rules,
with the icon replaced when the tag is an icon link. -/
theorem tagRules_summary (pageURL : String) (t : Token) (r : PageSummary)
    (i : List PreviewImage) (s : PageSummary × List PreviewImage)
    (h : tagRules pageURL t r i = .ok s) :
    ∃ icon, s.1 = { scalarRules (property t) (name t) (content t) r with Icon := icon } := by
  unfold tagRules at h
  simp only [] at h
  split at h
  · cases h
  · rename_i r2 hr2
    split at h
    · cases h
    · rename_i i2 hi2
      cases h
      split_ifs at hr2 with hc
      · split at hr2
        · cases hr2; exact ⟨_, rfl⟩
        · cases hr2
      · cases hr2; exact ⟨_, rfl⟩

theorem scalarRules_Type (p n c : String) (r : PageSummary) :
    (scalarRules p n c r).Type_ = if p = "og:type" then c else r.Type_ := by
  simp only [scalarRules, apply_ite PageSummary.Type_, ite_self]

theorem scalarRules_URL (p n c : String) (r : PageSummary) :
    (scalarRules p n c r).URL = if p = "og:url" then c else r.URL := by
  simp only [scalarRules, apply_ite PageSummary.URL, ite_self]

theorem scalarRules_SiteName (p n c : String) (r : PageSummary) :
    (scalarRules p n c r).SiteName = if p = "og:site_name" then c else r.SiteName := by
  simp only [scalarRules, apply_ite PageSummary.SiteName, ite_self]

theorem scalarRules_Author (p n c : String) (r : PageSummary) :
    (scalarRules p n c r).Author = if n = "author" then c else r.Author := by
  simp only [scalarRules, apply_ite PageSummary.Author, ite_self]

theorem scalarRules_Keywords (p n c : String) (r : PageSummary) :
    (scalarRules p n c r).Keywords =
      if n = "keywords" then some (keywordsOf c) else r.Keywords := by
  simp only [scalarRules, keywordsOf, apply_ite PageSummary.Keywords, ite_self]

theorem titleRule_fields (t : Token) (n : Option Token) (r : PageSummary) :
    (titleRule t n r).Type_ = r.Type_ ∧ (titleRule t n r).URL = r.URL ∧
      (titleRule t n r).SiteName = r.SiteName ∧ (titleRule t n r).Author = r.Author ∧
      (titleRule t n r).Keywords = r.Keywords ∧ (titleRule t n r).Icon = r.Icon := by
  unfold titleRule
  split_ifs
  · cases n with
    | none => exact ⟨rfl, rfl, rfl, rfl, rfl, rfl⟩
    | some x => simp only []; split_ifs <;> exact ⟨rfl, rfl, rfl, rfl, rfl, rfl⟩
  · exact ⟨rfl, rfl, rfl, rfl, rfl, rfl⟩

theorem finish_scalars (r s : PageSummary) (i : List PreviewImage)
    (h : finish r i = (some s, none)) :
    s.Type_ = r.Type_ ∧ s.URL = r.URL ∧ s.SiteName = r.SiteName ∧ s.Author = r.Author ∧
      s.Keywords = r.Keywords ∧ s.Icon = r.Icon := by
  unfold finish at h
  simp only [Prod.mk.injEq, Option.some.injEq, and_true] at h
  subst h
  split_ifs <;> exact ⟨rfl, rfl, rfl, rfl, rfl, rfl⟩

/-- The keywords at the end of the scan. -/
theorem scan_keywords (pageURL : String) (err : StreamError) (toks : List Token)
    (r s : PageSummary) (i : List PreviewImage)
    (hsafe : LookaheadSafe (named "keywords") toks = true)
    (hret : scan pageURL err toks r i = .ok (some s, none)) :
    s.Keywords =
      (lastValue (fun t => decide (name t = "keywords")) (fun t => some (keywordsOf (content t)))
        (headTags toks)).getD r.Keywords := by
  refine scan_lastValue PageSummary.Keywords _ _ pageURL err ?_ ?_ ?_ toks.length toks r s i
    (le_refl _) hsafe hret
  · intro t r i s h
    obtain ⟨icon, hs⟩ := tagRules_summary _ _ _ _ _ h
    rw [hs]
    show (scalarRules (property t) (name t) (content t) r).Keywords = _
    rw [scalarRules_Keywords]
    simp
  · intro t n r; exact (titleRule_fields t n r).2.2.2.2.1
  · intro r s i h; exact (finish_scalars r s i h).2.2.2.2.1

end Handlers

/-! ## The claims on the keywords and the plain scalars -/

namespace Handlers

open Html

theorem lastValue_map {α β : Type} (sel : Token → Bool) (val : Token → α) (g : α → β)
    (tags : List Token) :
    lastValue sel (fun t => g (val t)) tags = (lastValue sel val tags).map g := by
  unfold lastValue
  cases (tags.filter sel).getLast? <;> rfl

theorem scan_scalars (pageURL : String) (err : StreamError) (toks : List Token)
    (r s : PageSummary) (i : List PreviewImage)
    (hsafe : LookaheadSafe carriesScalar toks = true)
    (hret : scan pageURL err toks r i = .ok (some s, none)) :
    s.Type_ = (lastContent "og:type" (headTags toks)).getD r.Type_ ∧
    s.URL = (lastContent "og:url" (headTags toks)).getD r.URL ∧
    s.SiteName = (lastContent "og:site_name" (headTags toks)).getD r.SiteName ∧
    s.Author = (lastNamed "author" (headTags toks)).getD r.Author := by
  refine ⟨?_, ?_, ?_, ?_⟩
  · refine scan_lastValue PageSummary.Type_ (fun t => decide (property t = "og:type")) content
      pageURL err ?_ ?_ ?_ toks.length toks r s i (le_refl _)
      (LookaheadSafe_mono carriesScalar _ ?_ toks hsafe) hret
    · intro t r i s h
      obtain ⟨icon, hs⟩ := tagRules_summary _ _ _ _ _ h
      rw [hs]
      show (scalarRules (property t) (name t) (content t) r).Type_ = _
      rw [scalarRules_Type]
      simp
    · intro t n r; exact (titleRule_fields t n r).1
    · intro r s i h; exact (finish_scalars r s i h).1
    · intro t ht
      simp only [Bool.and_eq_true] at ht
      simp [carriesScalar, carries, ht.1, ht.2]
  · refine scan_lastValue PageSummary.URL (fun t => decide (property t = "og:url")) content
      pageURL err ?_ ?_ ?_ toks.length toks r s i (le_refl _)
      (LookaheadSafe_mono carriesScalar _ ?_ toks hsafe) hret
    · intro t r i s h
      obtain ⟨icon, hs⟩ := tagRules_summary _ _ _ _ _ h
      rw [hs]
      show (scalarRules (property t) (name t) (content t) r).URL = _
      rw [scalarRules_URL]
      simp
    · intro t n r; exact (titleRule_fields t n r).2.1
    · intro r s i h; exact (finish_scalars r s i h).2.1
    · intro t ht
      simp only [Bool.and_eq_true] at ht
      simp [carriesScalar, carries, ht.1, ht.2]
  · refine scan_lastValue PageSummary.SiteName (fun t => decide (property t = "og:site_name"))
      content pageURL err ?_ ?_ ?_ toks.length toks r s i (le_refl _)
      (LookaheadSafe_mono carriesScalar _ ?_ toks hsafe) hret
    · intro t r i s h
      obtain ⟨icon, hs⟩ := tagRules_summary _ _ _ _ _ h
      rw [hs]
      show (scalarRules (property t) (name t) (content t) r).SiteName = _
      rw [scalarRules_SiteName]
      simp
    · intro t n r; exact (titleRule_fields t n r).2.2.1
    · intro r s i h; exact (finish_scalars r s i h).2.2.1
    · intro t ht
      simp only [Bool.and_eq_true] at ht
      simp [carriesScalar, carries, ht.1, ht.2]
  · refine scan_lastValue PageSummary.Author (fun t => decide (name t = "author")) content
      pageURL err ?_ ?_ ?_ toks.length toks r s i (le_refl _)
      (LookaheadSafe_mono carriesScalar _ ?_ toks hsafe) hret
    · intro t r i s h
      obtain ⟨icon, hs⟩ := tagRules_summary _ _ _ _ _ h
      rw [hs]
      show (scalarRules (property t) (name t) (content t) r).Author = _
      rw [scalarRules_Author]
      simp
    · intro t n r; exact (titleRule_fields t n r).2.2.2.1
    · intro r s i h; exact (finish_scalars r s i h).2.2.2.1
    · intro t ht
      simp only [Bool.and_eq_true] at ht
      simp [carriesScalar, named, ht.1, ht.2]

/-- C11: a tag with the name `keywords` and the content `c` sets the
keywords to the pieces of `c` between the commas, each trimmed, whatever the
keywords were before; and the keywords of the summary that `extractSummary`
returns for a tokenized stream are those of the last keywords tag of the
head, and nil when the head has none. -/
theorem extractSummary_keywords (pageURL : String) (htmlStream : Tokenizer) (s : PageSummary)
    (htok : Tokenized htmlStream.tokens = true)
    (hret : extractSummary pageURL htmlStream = .ok (some s, none)) :
    s.Keywords = (lastNamed "keywords" (headTags htmlStream.tokens)).map keywordsOf ∧
    ∀ (t : Token) (r : PageSummary) (i : List PreviewImage)
      (s2 : PageSummary × List PreviewImage),
      name t = "keywords" → tagRules pageURL t r i = .ok s2 →
      s2.1.Keywords = some ((Strings.Split (content t) ',').map Strings.TrimSpace) := by
  have hsafe : LookaheadSafe (named "keywords") htmlStream.tokens = true :=
    Tokenized_safe _ (fun t ht => by
      simp only [named, Bool.and_eq_true] at ht
      exact ht.1) _ htok
  constructor
  · have h := scan_keywords pageURL htmlStream.err htmlStream.tokens {} s [] hsafe hret
    rw [h, lastValue_map _ content (fun c => some (keywordsOf c))]
    unfold lastNamed
    cases lastValue (fun t => decide (name t = "keywords")) content
      (headTags htmlStream.tokens) <;> rfl
  · intro t r i s2 hn h
    obtain ⟨icon, hs⟩ := tagRules_summary _ _ _ _ _ h
    rw [hs]
    show (scalarRules (property t) (name t) (content t) r).Keywords = _
    rw [scalarRules_Keywords, if_pos hn]
    rfl

/-- Witness of C11: the content `a, b ,c` gives the keywords `a`,
`b`, `c`, and a later keywords tag replaces them. -/
theorem extractSummary_keywords_witness :
    keywordsOf "a, b ,c" = ["a", "b", "c"] ∧
    extractSummary "http://example.com/"
        { tokens := [metaName "keywords" "x,y", metaName "keywords" "a, b ,c", endTag "head",
                     metaName "keywords" "z"] } =
      .ok (some { Keywords := some ["a", "b", "c"] }, none) ∧
    ({ Keywords := some ["a", "b", "c"] } : PageSummary).Keywords =
      (lastNamed "keywords"
        (headTags [metaName "keywords" "x,y", metaName "keywords" "a, b ,c", endTag "head",
                   metaName "keywords" "z"])).map keywordsOf :=
  ⟨by decide, by decide,
    (extractSummary_keywords "http://example.com/"
      { tokens := [metaName "keywords" "x,y", metaName "keywords" "a, b ,c", endTag "head",
                   metaName "keywords" "z"] }
      { Keywords := some ["a", "b", "c"] } (by decide) (by decide)).1⟩

/-- C12: the type, url, siteName and author of the summary that
`extractSummary` returns for a tokenized stream are the contents of the last
tag of the head with the property `og:type`, `og:url`, `og:site_name` and
with the name `author`, each for its own kind, and the empty string when the
head has none. -/
theorem extractSummary_scalars (pageURL : String) (htmlStream : Tokenizer) (s : PageSummary)
    (htok : Tokenized htmlStream.tokens = true)
    (hret : extractSummary pageURL htmlStream = .ok (some s, none)) :
    s.Type_ = (lastContent "og:type" (headTags htmlStream.tokens)).getD "" ∧
    s.URL = (lastContent "og:url" (headTags htmlStream.tokens)).getD "" ∧
    s.SiteName = (lastContent "og:site_name" (headTags htmlStream.tokens)).getD "" ∧
    s.Author = (lastNamed "author" (headTags htmlStream.tokens)).getD "" :=
  scan_scalars pageURL htmlStream.err htmlStream.tokens {} s []
    (Tokenized_safe carriesScalar (fun t ht => by
      simp only [carriesScalar, carries, named, Bool.or_eq_true, Bool.and_eq_true] at ht
      rcases ht with ((ht | ht) | ht) | ht <;> exact ht.1) _ htok) hret

/-- Witness of C12: two tags of each kind, the second one counts;
a page without them leaves the four fields unset. -/
theorem extractSummary_scalars_witness :
    extractSummary "http://example.com/"
        { tokens := [metaProperty "og:type" "a", metaProperty "og:url" "b",
                     metaProperty "og:site_name" "c", metaName "author" "d",
                     metaProperty "og:type" "article", metaProperty "og:url" "http://u/",
                     metaProperty "og:site_name" "Site", metaName "author" "Ann",
                     endTag "head", metaName "author" "Bob"] } =
      .ok (some { Type_ := "article", URL := "http://u/", SiteName := "Site", Author := "Ann" },
        none) ∧
    (lastContent "og:type"
        (headTags [metaProperty "og:type" "a", metaProperty "og:url" "b",
                   metaProperty "og:site_name" "c", metaName "author" "d",
                   metaProperty "og:type" "article", metaProperty "og:url" "http://u/",
                   metaProperty "og:site_name" "Site", metaName "author" "Ann",
                   endTag "head", metaName "author" "Bob"])).getD "" = "article" ∧
    ({ Type_ := "article", URL := "http://u/", SiteName := "Site", Author := "Ann" } :
        PageSummary).Author =
      (lastNamed "author"
        (headTags [metaProperty "og:type" "a", metaProperty "og:url" "b",
                   metaProperty "og:site_name" "c", metaName "author" "d",
                   metaProperty "og:type" "article", metaProperty "og:url" "http://u/",
                   metaProperty "og:site_name" "Site", metaName "author" "Ann",
                   endTag "head", metaName "author" "Bob"])).getD "" :=
  ⟨by decide, by decide,
    (extractSummary_scalars "http://example.com/"
      { tokens := [metaProperty "og:type" "a", metaProperty "og:url" "b",
                   metaProperty "og:site_name" "c", metaName "author" "d",
                   metaProperty "og:type" "article", metaProperty "og:url" "http://u/",
                   metaProperty "og:site_name" "Site", metaName "author" "Ann",
                   endTag "head", metaName "author" "Bob"] }
      { Type_ := "article", URL := "http://u/", SiteName := "Site", Author := "Ann" }
      (by decide) (by decide)).2.2.2⟩

end Handlers

/-! ## A head with a title only -/

namespace Handlers

open Html

/-- The rules leave the summary and the images as they are at a tag on which
none of them acts. -/
theorem tagRules_inert (pageURL : String) (t : Token) (r : PageSummary)
    (i : List PreviewImage) (h : inert t = true) : tagRules pageURL t r i = .ok (r, i) := by
  simp only [inert, Bool.and_eq_true, decide_eq_true_eq, Bool.not_eq_true',
    Bool.and_eq_false_imp, decide_eq_false_iff_not] at h
  obtain ⟨⟨⟨⟨⟨⟨⟨⟨⟨⟨h1, h2⟩, h3⟩, h4⟩, h5⟩, h6⟩, h7⟩, h8⟩, h9⟩, h10⟩, h11⟩ := h
  have hs : scalarRules (getBasicInfo t).1 (getBasicInfo t).2.1 (getBasicInfo t).2.2 r = r := by
    have hs2 : scalarRules (property t) (name t) (content t) r = r := by
      simp [scalarRules, h1, h2, h3, h4, h5, h8, h9, h10]
    exact hs2
  have hi : imageRules pageURL (getBasicInfo t).1 (getBasicInfo t).2.2 i = .ok i :=
    imageRules_other pageURL (property t) (content t) i h6 h7
  have hicon : ¬ (t.Data = "link" ∧ getRel t = "icon") := fun hc => h11 hc.1 hc.2
  unfold tagRules
  simp only []
  rw [if_neg hicon]
  simp only []
  rw [hi, hs]

/-- Once the title is set, a stream whose head has inert tags only leaves the
summary as it is. -/
theorem scan_inert (pageURL : String) (err : StreamError) (r : PageSummary)
    (i : List PreviewImage) (hr : r.Title ≠ "") :
    ∀ toks : List Token, (∀ t ∈ headTags toks, inert t = true) →
    (err = .EOF ∨ ∃ t ∈ toks, isEndHead t = true) →
    scan pageURL err toks r i = .ok (finish r i) := by
  intro toks
  induction toks with
  | nil =>
    intro _ hend
    rcases hend with h | ⟨t, ht, _⟩
    · subst h; rfl
    · cases ht
  | cons t rest ih =>
    intro hin hend
    by_cases he : isEndHead t = true
    · exact scan_endHead _ _ _ _ _ _ he
    · simp only [Bool.not_eq_true] at he
      have hend2 : err = .EOF ∨ ∃ u ∈ rest, isEndHead u = true := by
        rcases hend with h | ⟨u, hu, hu2⟩
        · exact Or.inl h
        · rcases List.mem_cons.mp hu with h | h
          · subst h; rw [he] at hu2; cases hu2
          · exact Or.inr ⟨u, h, hu2⟩
      by_cases ht : isTag t = true
      · rw [headTags_tag _ _ ht] at hin
        rw [scan_tag _ _ _ _ _ _ ht, titleRule_of_ne _ _ _ hr,
          tagRules_inert _ _ _ _ (hin t (List.mem_cons_self _ _))]
        simp only [if_neg (fun h : t.Data = "title" ∧ r.Title = "" => hr h.2)]
        exact ih (fun u hu => hin u (List.mem_cons_of_mem _ hu)) hend2
      · simp only [Bool.not_eq_true] at ht
        rw [headTags_other _ _ he ht] at hin
        rw [scan_other _ _ _ _ _ _ he ht]
        exact ih hin hend2

theorem headTags_append (pre rest : List Token) (hpre : ∀ t ∈ pre, isEndHead t = false) :
    headTags (pre ++ rest) = pre.filter isTag ++ headTags rest := by
  induction pre with
  | nil => rfl
  | cons t pre ih =>
    have h1 := hpre t (List.mem_cons_self _ _)
    have h2 := ih (fun u hu => hpre u (List.mem_cons_of_mem _ hu))
    by_cases ht : isTag t = true
    · rw [List.cons_append, headTags_tag _ _ ht, h2]
      simp [ht]
    · simp only [Bool.not_eq_true] at ht
      rw [List.cons_append, headTags_other _ _ h1 ht, h2]
      simp [ht]

/-- Tokens before the first `title` tag on which no rule acts are passed
over. -/
theorem scan_inert_leading (pageURL : String) (err : StreamError) (rest : List Token)
    (r : PageSummary) (i : List PreviewImage) :
    ∀ pre : List Token, (∀ t ∈ pre, isEndHead t = false ∧ isTitleTag t = false) →
    (∀ t ∈ pre, isTag t = true → inert t = true) →
    scan pageURL err (pre ++ rest) r i = scan pageURL err rest r i := by
  intro pre
  induction pre with
  | nil => intro _ _; rfl
  | cons t pre ih =>
    intro hpre hin
    obtain ⟨he, htt⟩ := hpre t (List.mem_cons_self _ _)
    have ih2 := ih (fun u hu => hpre u (List.mem_cons_of_mem _ hu))
      (fun u hu => hin u (List.mem_cons_of_mem _ hu))
    by_cases ht : isTag t = true
    · have hd : t.Data ≠ "title" := by
        intro hd; simp [isTitleTag, ht, hd] at htt
      have hno : ¬ (t.Data = "title" ∧ r.Title = "") := fun h => hd h.1
      rw [List.cons_append, scan_tag _ _ _ _ _ _ ht]
      have htr : titleRule t (pre ++ rest).head? r = r := by simp [titleRule, hno]
      rw [htr, tagRules_inert _ _ _ _ (hin t (List.mem_cons_self _ _) ht)]
      simp only [if_neg hno]
      exact ih2
    · simp only [Bool.not_eq_true] at ht
      rw [List.cons_append, scan_other _ _ _ _ _ _ he ht]
      exact ih2

/-- C13 (counterexample): the head has no `meta` and no `link` tag, and a
`title` tag directly followed by the text `Hello`; the `property` and
`content` attributes are read from any tag, here from the `title` tag itself,
so the type is set. In the second stream the `title` tag with the text is
itself read ahead for an earlier `title` tag and dropped: the title stays
unset. -/
theorem extractSummary_title_only_counterexample :
    extractSummary "http://example.com/"
        { tokens := [startTag "head",
                     tagWith "title" [("property", "og:type"), ("content", "website")],
                     textToken "Hello", endTag "title", endTag "head"] } =
      .ok (some { Type_ := "website", Title := "Hello" }, none) ∧
    extractSummary "http://example.com/"
        { tokens := [startTag "title", startTag "title", textToken "Hello", endTag "title",
                     endTag "head"] } =
      .ok (some {}, none) := by
  decide

/-- C13 (amended): the stream ends with the end of the input or has a
`</head>` behind the title; no tag of the head carries a property or name on
which a rule acts or is an icon link; and the first `title` tag is directly
followed by a text token that is not empty. Then `extractSummary` returns the
summary whose title is that text and whose other fields are all unset, the
images nil. -/
theorem extractSummary_title_only (pageURL : String) (err : StreamError)
    (pre post : List Token) (title text : Token)
    (hpre : ∀ t ∈ pre, isEndHead t = false ∧ isTitleTag t = false)
    (htitle : isTitleTag title = true)
    (htext : text.Type_ = .TextToken) (hne : text.Data ≠ "")
    (hinert : ∀ t ∈ headTags (pre ++ title :: text :: post), inert t = true)
    (hend : err = .EOF ∨ ∃ t ∈ post, isEndHead t = true) :
    extractSummary pageURL { tokens := pre ++ title :: text :: post, err := err } =
      .ok (some { Title := text.Data }, none) := by
  have ht : isTag title = true ∧ title.Data = "title" := by
    simpa [isTitleTag] using htitle
  have hx1 : isTag text = false := by simp [isTag, htext]
  have hx2 : isEndHead text = false := by simp [isEndHead, htext]
  have hh : headTags (pre ++ title :: text :: post) =
      pre.filter isTag ++ (title :: headTags post) := by
    rw [headTags_append _ _ (fun t h => (hpre t h).1), headTags_tag _ _ ht.1,
      headTags_other _ _ hx2 hx1]
  rw [hh] at hinert
  unfold extractSummary
  simp only []
  rw [scan_inert_leading pageURL err _ _ _ pre hpre
    (fun t h1 h2 => hinert t (List.mem_append_left _ (List.mem_filter.mpr ⟨h1, h2⟩)))]
  rw [scan_tag _ _ _ _ _ _ ht.1]
  have htr : titleRule title (text :: post).head? {} = { Title := text.Data } := by
    simp [titleRule, ht.2, htext]
  rw [htr, tagRules_inert _ _ _ _
    (hinert title (List.mem_append_right _ (List.mem_cons_self _ _)))]
  have hc : title.Data = "title" ∧ ({} : PageSummary).Title = "" := ⟨ht.2, rfl⟩
  rw [if_pos hc, List.tail_cons]
  simp only []
  rw [scan_inert pageURL err { Title := text.Data } [] hne post
    (fun t h => hinert t (List.mem_append_right _ (List.mem_cons_of_mem _ h))) hend]
  rfl

/-- Witness of C13 (amended): the page `<html><head><title>Hello</title>
</head>` followed by a `meta` tag in the body. -/
theorem extractSummary_title_only_witness :
    extractSummary "http://example.com/"
        { tokens := [startTag "html", startTag "head"] ++ startTag "title" ::
            textToken "Hello" :: [endTag "title", endTag "head", metaProperty "og:type" "x"],
          err := .other } =
      .ok (some { Title := "Hello" }, none) :=
  extractSummary_title_only "http://example.com/" .other [startTag "html", startTag "head"]
    [endTag "title", endTag "head", metaProperty "og:type" "x"] (startTag "title")
    (textToken "Hello") (by decide) (by decide) (by decide) (by decide) (by decide)
    (Or.inr ⟨endTag "head", by decide, by decide⟩)

end Handlers

/-! ## The claims on `fetchHTML` and `SummaryHandler` -/

namespace Handlers

open Html NetHTTP

/-- C14: for a response that `http.Get` hands over without an error,
`fetchHTML` returns a stream exactly when the status code is 200 and the
`Content-Type` header starts with `text/html`; the stream is then the body of
the response. Otherwise it returns an error and no stream, and the result is
the same whatever the body is: the body is not looked at. -/
theorem fetchHTML_valid (get : String → Except String Response) (pageURL : String)
    (resp : Response) (hget : get pageURL = .ok resp) :
    ((∃ stream, fetchHTML get pageURL = (some stream, none)) ↔
      (resp.StatusCode = 200 ∧
        Strings.HasPrefix (resp.Header.Get "Content-Type") "text/html" = true)) ∧
    ((resp.StatusCode = 200 ∧
        Strings.HasPrefix (resp.Header.Get "Content-Type") "text/html" = true) →
      fetchHTML get pageURL = (some resp.Body, none)) ∧
    (¬ (resp.StatusCode = 200 ∧
        Strings.HasPrefix (resp.Header.Get "Content-Type") "text/html" = true) →
      (∃ e, fetchHTML get pageURL = (none, some e)) ∧
      ∀ body : Tokenizer,
        fetchHTML (fun _ => .ok { resp with Body := body }) pageURL =
          fetchHTML get pageURL) := by
  by_cases h1 : resp.StatusCode = 200
  · by_cases h2 : Strings.HasPrefix (resp.Header.Get "Content-Type") "text/html" = true
    · have h : fetchHTML get pageURL = (some resp.Body, none) := by
        simp [fetchHTML, hget, h1, h2, StatusOK]
      exact ⟨⟨fun _ => ⟨h1, h2⟩, fun _ => ⟨_, h⟩⟩, fun _ => h, fun hn => absurd ⟨h1, h2⟩ hn⟩
    · have h : fetchHTML get pageURL = (none, some "Provided url is not a web page") := by
        simp [fetchHTML, hget, h1, h2, StatusOK]
      refine ⟨⟨fun ⟨s, hs⟩ => ?_, fun hc => absurd hc.2 h2⟩, fun hc => absurd hc.2 h2,
        fun _ => ⟨⟨_, h⟩, fun body => ?_⟩⟩
      · rw [h] at hs; cases hs
      · rw [h]; simp [fetchHTML, h1, h2, StatusOK]
  · have h : fetchHTML get pageURL = (none, some "Provided url was not found") := by
      simp [fetchHTML, hget, h1, StatusOK]
    refine ⟨⟨fun ⟨s, hs⟩ => ?_, fun hc => absurd hc.1 h1⟩, fun hc => absurd hc.1 h1,
      fun _ => ⟨⟨_, h⟩, fun body => ?_⟩⟩
    · rw [h] at hs; cases hs
    · rw [h]; simp [fetchHTML, h1, StatusOK]

/-- Witness of C14: a page served with status 200 and the content type
`text/html; charset=utf-8` gives its body; a 404 response and a response of
type `application/json` give an error. -/
theorem fetchHTML_valid_witness :
    fetchHTML (fun _ => .ok (htmlPage [startTag "html"] .EOF)) "http://example.com/" =
      (some { tokens := [startTag "html"] }, none) ∧
    (∃ e, fetchHTML (fun _ => .ok (responseOf 404 "text/html")) "http://example.com/" =
      (none, some e)) ∧
    (∃ e, fetchHTML (fun _ => .ok (responseOf 200 "application/json")) "http://example.com/" =
      (none, some e)) :=
  ⟨(fetchHTML_valid (fun _ => .ok (htmlPage [startTag "html"] .EOF)) "http://example.com/"
      (htmlPage [startTag "html"] .EOF) rfl).2.1 (by decide),
    ((fetchHTML_valid (fun _ => .ok (responseOf 404 "text/html")) "http://example.com/"
      (responseOf 404 "text/html") rfl).2.2
      (by decide)).1,
    ((fetchHTML_valid (fun _ => .ok (responseOf 200 "application/json")) "http://example.com/"
      (responseOf 200 "application/json") rfl).2.2 (by decide)).1⟩

/-- Whether the stream that `fetchHTML` returned is closed when the handler
is left: it is closed exactly on the paths on which `extractSummary` returned
without an error. -/
theorem SummaryHandler_stream (get : String → Except String Response) (w : ResponseWriter)
    (r : Request) (stream : Tokenizer) (hurl : r.Query.Get "url" ≠ "")
    (hfetch : fetchHTML get (r.Query.Get "url") = (some stream, none)) :
    (SummaryHandler get w r).stream =
      some (match extractSummary (r.Query.Get "url") stream with
        | .ok (_, none) => true
        | _ => false) := by
  unfold SummaryHandler
  simp only [if_neg hurl, hfetch]
  cases hx : extractSummary (r.Query.Get "url") stream with
  | error p => rfl
  | ok v =>
    obtain ⟨sumData, e⟩ := v
    cases e with
    | some e => rfl
    | none => simp only [jsonMarshal]; cases sumData <;> rfl

/-- C15 (failing input): a page served as `text/html` whose body breaks off
with a read error before `</head>`. `extractSummary` returns its error, the
handler answers 500 and returns before the deferred `stream.Close()` is
registered: the stream is left open. -/
theorem SummaryHandler_parse_failure_leaves_stream_open :
    (SummaryHandler (fun _ => .ok (htmlPage [startTag "html", startTag "head"] .other)) {}
        (requestFor "http://example.com/")).w.status = some 500 ∧
    (SummaryHandler (fun _ => .ok (htmlPage [startTag "html", startTag "head"] .other)) {}
        (requestFor "http://example.com/")).stream = some false ∧
    (SummaryHandler (fun _ => .ok (htmlPage [startTag "html", startTag "head"] .other)) {}
        (requestFor "http://example.com/")).panic = none := by
  decide

/-- The status codes of `SummaryHandler` for a fresh response writer, path by
path; on the last path the body is the JSON document of the summary. -/
theorem SummaryHandler_status (get : String → Except String Response) (r : Request) :
    (r.Query.Get "url" = "" → (SummaryHandler get {} r).w.status = some 400) ∧
    (r.Query.Get "url" ≠ "" → ∀ x e, fetchHTML get (r.Query.Get "url") = (x, some e) →
      (SummaryHandler get {} r).w.status = some 400) ∧
    (r.Query.Get "url" ≠ "" → ∀ stream x e,
      fetchHTML get (r.Query.Get "url") = (some stream, none) →
      extractSummary (r.Query.Get "url") stream = .ok (x, some e) →
      (SummaryHandler get {} r).w.status = some 500) ∧
    (r.Query.Get "url" ≠ "" → ∀ stream s,
      fetchHTML get (r.Query.Get "url") = (some stream, none) →
      extractSummary (r.Query.Get "url") stream = .ok (some s, none) →
      (SummaryHandler get {} r).w.status = some 200 ∧
      (SummaryHandler get {} r).w.header.Get "Content-Type" = "application/json" ∧
      (SummaryHandler get {} r).w.body = [.json (.obj (marshalSummary s))] ∧
      (SummaryHandler get {} r).panic = none) ∧
    (r.Query.Get "url" ≠ "" → ∀ stream p,
      fetchHTML get (r.Query.Get "url") = (some stream, none) →
      extractSummary (r.Query.Get "url") stream = .error p →
      (SummaryHandler get {} r).w.status = none ∧
      (SummaryHandler get {} r).w.body = [] ∧
      (SummaryHandler get {} r).panic = some p) := by
  refine ⟨fun h => ?_, fun h x e hf => ?_, fun h stream x e hf hx => ?_,
    fun h stream s hf hx => ?_, fun h stream p hf hx => ?_⟩
  · unfold SummaryHandler
    simp only [if_pos h]
    rfl
  · unfold SummaryHandler
    simp only [if_neg h, hf]
    rfl
  · unfold SummaryHandler
    simp only [if_neg h, hf, hx]
    rfl
  · unfold SummaryHandler
    simp only [if_neg h, hf, hx, jsonMarshal]
    refine ⟨?_, ?_, ?_, ?_⟩ <;> first | rfl | trivial
  · unfold SummaryHandler
    simp only [if_neg h, hf, hx]
    refine ⟨?_, ?_, ?_⟩ <;> first | rfl | trivial

/-- C16 (failing input): a page served as `text/html` whose head has an
`og:image:width` property before any `og:image`. None of the three errors of
the claim occurs, yet there is no response with status 200: `extractSummary`
panics, nothing is written but the CORS header, and the stream is left open. -/
theorem SummaryHandler_orphan_detail_no_response :
    fetchHTML
        (fun _ => .ok (htmlPage
          [startTag "head", metaProperty "og:image:width" "100", endTag "head"] .EOF))
        "http://example.com/" =
      (some { tokens := [startTag "head", metaProperty "og:image:width" "100", endTag "head"] },
        none) ∧
    SummaryHandler
        (fun _ => .ok (htmlPage
          [startTag "head", metaProperty "og:image:width" "100", endTag "head"] .EOF))
        {} (requestFor "http://example.com/") =
      { w := { header := { lines := [("Access-Control-Allow-Origin", "*")] } },
        stream := some false, panic := some .indexOutOfRange } := by
  decide

/-- A content without a sign that is not a decimal numeral, and whose leading
digits stay in the `uint64` range, gives the value zero. -/
theorem Atoi_syntax (ds : List Char) (c : Char) (rest : List Char)
    (h1 : ds.all Strconv.isDigit = true) (hc : Strconv.isDigit c = false)
    (hs : ds ≠ [] ∨ (c ≠ '-' ∧ c ≠ '+'))
    (h2 : Strconv.digitsValue ds ≤ Strconv.maxUint64) :
    Strconv.Atoi (String.mk (ds ++ c :: rest)) = (0, false) := by
  have h3 : Strconv.parseUintLoop (ds ++ c :: rest) 0 = (0, some .ErrSyntax) :=
    Strconv.parseUintLoop_syntax ds c rest 0 h1 hc h2
  have hh : (ds ++ c :: rest).head? ≠ some '-' ∧ (ds ++ c :: rest).head? ≠ some '+' := by
    cases ds with
    | nil =>
      rcases hs with hs | hs
      · exact absurd rfl hs
      · simp [hs.1, hs.2]
    | cons d cs =>
      have hd : Strconv.isDigit d = true := by simp at h1; exact h1.1
      have hm : d ≠ '-' := by rintro rfl; simp [Strconv.isDigit] at hd
      have hp : d ≠ '+' := by rintro rfl; simp [Strconv.isDigit] at hd
      simp [hm, hp]
  have h5 : Strconv.ParseInt (ds ++ c :: rest) = (0, some .ErrSyntax) := by
    simp only [Strconv.ParseInt, Strconv.ParseUint, hh.1, hh.2, or_self, if_false,
      decide_False, h3]
    simp
  simp only [Strconv.Atoi, h5]
  rfl

/-- A width or height that is not a numeral is stored as zero in the last
image record, and the rules go on. -/
theorem imageRules_not_a_numeral (pageURL c : String) (init : List PreviewImage)
    (l : PreviewImage) (h : Strconv.Atoi c = (0, false)) :
    imageRules pageURL "og:image:width" c (init ++ [l]) = .ok (init ++ [{ l with Width := 0 }]) ∧
    imageRules pageURL "og:image:height" c (init ++ [l]) =
      .ok (init ++ [{ l with Height := 0 }]) := by
  constructor
  · rw [imageRules_detail _ _ _ _ _ (by decide)]
    simp [updDetail, h]
  · rw [imageRules_detail _ _ _ _ _ (by decide)]
    simp [updDetail, h]

/-- C17 (failing input): the contents `99999999999999999999` and
`-99999999999999999999` do not parse as an `int` (`Atoi` returns a range
error), yet the width and the height of the record are not left unset: the
value that `Atoi` returns with the error, the bound of the `int` range, is
stored. -/
theorem extractSummary_width_out_of_range :
    (Strconv.Atoi "99999999999999999999").2 = false ∧
    (Strconv.Atoi "-99999999999999999999").2 = false ∧
    extractSummary "http://example.com/"
        { tokens := [metaProperty "og:image" "a.png",
                     metaProperty "og:image:width" "99999999999999999999",
                     metaProperty "og:image:height" "-99999999999999999999"] } =
      .ok (some { Images := some [{ URL := "a.png", Width := 9223372036854775807,
                                    Height := -9223372036854775808 }] }, none) := by
  decide

end Handlers

/-! ## The JSON document of a summary -/

namespace Handlers

open Html

theorem mem_summaryString (kv : String × JSON.Value) (key v : String) :
    kv ∈ summaryString key v ↔ v ≠ "" ∧ kv = (key, .str v) := by
  unfold summaryString
  split_ifs with h
  · simp [h]
  · simp [h]

theorem mem_stringField (kv : String × JSON.Scalar) (key v : String) :
    kv ∈ JSON.stringField key v ↔ v ≠ "" ∧ kv = (key, .str v) := by
  unfold JSON.stringField
  split_ifs with h
  · simp [h]
  · simp [h]

theorem mem_intField (kv : String × JSON.Scalar) (key : String) (v : Int) :
    kv ∈ JSON.intField key v ↔ v ≠ 0 ∧ kv = (key, .num v) := by
  unfold JSON.intField
  split_ifs with h
  · simp [h]
  · simp [h]

/-- The fields of the JSON object of an image record. -/
theorem mem_marshalImage (kv : String × JSON.Scalar) (i : PreviewImage) :
    kv ∈ marshalImage i ↔
      (i.URL ≠ "" ∧ kv = ("url", .str i.URL)) ∨
      (i.SecureURL ≠ "" ∧ kv = ("secureURL", .str i.SecureURL)) ∨
      (i.Type_ ≠ "" ∧ kv = ("type", .str i.Type_)) ∨
      (i.Width ≠ 0 ∧ kv = ("width", .num i.Width)) ∨
      (i.Height ≠ 0 ∧ kv = ("height", .num i.Height)) ∨
      (i.Alt ≠ "" ∧ kv = ("alt", .str i.Alt)) := by
  simp only [marshalImage, List.mem_append, mem_stringField, mem_intField, or_assoc]

/-- The fields of the JSON object of a summary. -/
theorem mem_marshalSummary (kv : String × JSON.Value) (s : PageSummary) :
    kv ∈ marshalSummary s ↔
      (s.Type_ ≠ "" ∧ kv = ("type", .str s.Type_)) ∨
      (s.URL ≠ "" ∧ kv = ("url", .str s.URL)) ∨
      (s.Title ≠ "" ∧ kv = ("title", .str s.Title)) ∨
      (s.SiteName ≠ "" ∧ kv = ("siteName", .str s.SiteName)) ∨
      (s.Description ≠ "" ∧ kv = ("description", .str s.Description)) ∨
      (s.Author ≠ "" ∧ kv = ("author", .str s.Author)) ∨
      (∃ k ks, s.Keywords = some (k :: ks) ∧ kv = ("keywords", .strs (k :: ks))) ∨
      (∃ i, s.Icon = some i ∧ kv = ("icon", .obj (marshalImage i))) ∨
      (∃ i imgs, s.Images = some (i :: imgs) ∧
        kv = ("images", .objs ((i :: imgs).map marshalImage))) := by
  have hk : kv ∈ (match s.Keywords with
      | some (k :: ks) => [("keywords", JSON.Value.strs (k :: ks))]
      | _ => []) ↔
      ∃ k ks, s.Keywords = some (k :: ks) ∧ kv = ("keywords", .strs (k :: ks)) := by
    cases s.Keywords with
    | none => simp
    | some l =>
      cases l with
      | nil => simp
      | cons a l =>
        simp only [List.mem_singleton]
        exact ⟨fun h => ⟨a, l, rfl, h⟩, fun ⟨k, ks, h1, h2⟩ => by cases h1; exact h2⟩
  have hi : kv ∈ (match s.Icon with
      | some i => [("icon", JSON.Value.obj (marshalImage i))]
      | none => []) ↔
      ∃ i, s.Icon = some i ∧ kv = ("icon", .obj (marshalImage i)) := by
    cases s.Icon <;> simp
  have hm : kv ∈ (match s.Images with
      | some (i :: imgs) => [("images", JSON.Value.objs ((i :: imgs).map marshalImage))]
      | _ => []) ↔
      ∃ i imgs, s.Images = some (i :: imgs) ∧
        kv = ("images", .objs ((i :: imgs).map marshalImage)) := by
    cases s.Images with
    | none => simp
    | some l =>
      cases l with
      | nil => simp
      | cons a l =>
        simp only [List.mem_singleton]
        exact ⟨fun h => ⟨a, l, rfl, h⟩, fun ⟨k, ks, h1, h2⟩ => by cases h1; exact h2⟩
  simp only [marshalSummary, List.mem_append, mem_summaryString, hk, hi, hm, or_assoc]

theorem mem_keys {α : Type} (k : String) (fields : List (String × α)) :
    k ∈ JSON.keys fields ↔ ∃ v, (k, v) ∈ fields := by
  simp [JSON.keys]

/-- C19 (counterexample): the page has an icon link without attributes, an
`og:image` property and a keywords tag with empty content. The document of
the summary that `extractSummary` returns has the empty object as the icon
and as the only image, and the empty string as the only keyword. -/
theorem marshalSummary_empty_object :
    extractSummary "http://example.com/"
        { tokens := [tagWith "link" [("rel", "icon")], metaProperty "og:image" "",
                     metaName "keywords" ""] } =
      .ok (some { Keywords := some [""], Icon := some {}, Images := some [{}] }, none) ∧
    marshalSummary { Keywords := some [""], Icon := some {}, Images := some [{}] } =
      [("keywords", .strs [""]), ("icon", .obj []), ("images", .objs [[]])] := by
  decide

/-- C19 (amended): the JSON object of a summary has a key exactly when the
field has a value other than the empty string, the nil pointer and the list
without elements, and the object of an image record has a key exactly when
the field is not the empty string, for a width or height not zero. No value
that stands directly under a key is null, zero, the empty string or the empty
list. (An icon or an image none of whose fields is set is the empty object,
and a keyword may be the empty string.) -/
theorem marshalSummary_omitempty (s : PageSummary) :
    (("type" ∈ JSON.keys (marshalSummary s) ↔ s.Type_ ≠ "") ∧
     ("url" ∈ JSON.keys (marshalSummary s) ↔ s.URL ≠ "") ∧
     ("title" ∈ JSON.keys (marshalSummary s) ↔ s.Title ≠ "") ∧
     ("siteName" ∈ JSON.keys (marshalSummary s) ↔ s.SiteName ≠ "") ∧
     ("description" ∈ JSON.keys (marshalSummary s) ↔ s.Description ≠ "") ∧
     ("author" ∈ JSON.keys (marshalSummary s) ↔ s.Author ≠ "") ∧
     ("keywords" ∈ JSON.keys (marshalSummary s) ↔ ∃ k ks, s.Keywords = some (k :: ks)) ∧
     ("icon" ∈ JSON.keys (marshalSummary s) ↔ ∃ i, s.Icon = some i) ∧
     ("images" ∈ JSON.keys (marshalSummary s) ↔ ∃ i imgs, s.Images = some (i :: imgs))) ∧
    (∀ k ∈ JSON.keys (marshalSummary s),
      k ∈ ["type", "url", "title", "siteName", "description", "author", "keywords", "icon",
        "images"]) ∧
    (∀ kv ∈ marshalSummary s, kv.2.isSet = true) ∧
    ∀ i : PreviewImage,
      (("url" ∈ JSON.keys (marshalImage i) ↔ i.URL ≠ "") ∧
       ("secureURL" ∈ JSON.keys (marshalImage i) ↔ i.SecureURL ≠ "") ∧
       ("type" ∈ JSON.keys (marshalImage i) ↔ i.Type_ ≠ "") ∧
       ("width" ∈ JSON.keys (marshalImage i) ↔ i.Width ≠ 0) ∧
       ("height" ∈ JSON.keys (marshalImage i) ↔ i.Height ≠ 0) ∧
       ("alt" ∈ JSON.keys (marshalImage i) ↔ i.Alt ≠ "")) ∧
      (∀ k ∈ JSON.keys (marshalImage i),
        k ∈ ["url", "secureURL", "type", "width", "height", "alt"]) ∧
      ∀ kv ∈ marshalImage i, kv.2.isSet = true := by
  refine ⟨⟨?_, ?_, ?_, ?_, ?_, ?_, ?_, ?_, ?_⟩, ?_, ?_, fun i =>
    ⟨⟨?_, ?_, ?_, ?_, ?_, ?_⟩, ?_, ?_⟩⟩
  · rw [mem_keys]
    simp [mem_marshalSummary]
  · rw [mem_keys]
    simp [mem_marshalSummary]
  · rw [mem_keys]
    simp [mem_marshalSummary]
  · rw [mem_keys]
    simp [mem_marshalSummary]
  · rw [mem_keys]
    simp [mem_marshalSummary]
  · rw [mem_keys]
    simp [mem_marshalSummary]
  · rw [mem_keys]
    simp only [mem_marshalSummary]
    constructor
    · rintro ⟨v, h⟩
      rcases h with ⟨_, h⟩ | ⟨_, h⟩ | ⟨_, h⟩ | ⟨_, h⟩ | ⟨_, h⟩ | ⟨_, h⟩ | ⟨k, ks, h0, h⟩ |
        ⟨_, _, h⟩ | ⟨_, _, _, h⟩
      all_goals first
        | exact ⟨k, ks, h0⟩
        | (simp at h)
    · rintro ⟨k, ks, h⟩
      exact ⟨_, Or.inr (Or.inr (Or.inr (Or.inr (Or.inr (Or.inr (Or.inl ⟨k, ks, h, rfl⟩))))))⟩
  · rw [mem_keys]
    simp only [mem_marshalSummary]
    constructor
    · rintro ⟨v, h⟩
      rcases h with ⟨_, h⟩ | ⟨_, h⟩ | ⟨_, h⟩ | ⟨_, h⟩ | ⟨_, h⟩ | ⟨_, h⟩ | ⟨_, _, _, h⟩ |
        ⟨i, h0, h⟩ | ⟨_, _, _, h⟩
      all_goals first
        | exact ⟨i, h0⟩
        | (simp at h)
    · rintro ⟨i, h⟩
      exact ⟨_, Or.inr (Or.inr (Or.inr (Or.inr (Or.inr (Or.inr (Or.inr
        (Or.inl ⟨i, h, rfl⟩)))))))⟩
  · rw [mem_keys]
    simp only [mem_marshalSummary]
    constructor
    · rintro ⟨v, h⟩
      rcases h with ⟨_, h⟩ | ⟨_, h⟩ | ⟨_, h⟩ | ⟨_, h⟩ | ⟨_, h⟩ | ⟨_, h⟩ | ⟨_, _, _, h⟩ |
        ⟨_, _, h⟩ | ⟨i, imgs, h0, h⟩
      all_goals first
        | exact ⟨i, imgs, h0⟩
        | (simp at h)
    · rintro ⟨i, imgs, h⟩
      exact ⟨_, Or.inr (Or.inr (Or.inr (Or.inr (Or.inr (Or.inr (Or.inr
        (Or.inr ⟨i, imgs, h, rfl⟩)))))))⟩
  · intro k hk
    rw [mem_keys] at hk
    obtain ⟨v, hv⟩ := hk
    rw [mem_marshalSummary] at hv
    rcases hv with ⟨_, h⟩ | ⟨_, h⟩ | ⟨_, h⟩ | ⟨_, h⟩ | ⟨_, h⟩ | ⟨_, h⟩ | ⟨_, _, _, h⟩ |
      ⟨_, _, h⟩ | ⟨_, _, _, h⟩ <;>
    · cases h; simp
  · intro kv hkv
    rw [mem_marshalSummary] at hkv
    rcases hkv with ⟨h0, h⟩ | ⟨h0, h⟩ | ⟨h0, h⟩ | ⟨h0, h⟩ | ⟨h0, h⟩ | ⟨h0, h⟩ | ⟨_, _, h0, h⟩ |
      ⟨_, h0, h⟩ | ⟨_, _, h0, h⟩ <;>
    · subst h; simp [JSON.Value.isSet, h0]
  · rw [mem_keys]
    simp [mem_marshalImage]
  · rw [mem_keys]
    simp [mem_marshalImage]
  · rw [mem_keys]
    simp [mem_marshalImage]
  · rw [mem_keys]
    simp [mem_marshalImage]
  · rw [mem_keys]
    simp [mem_marshalImage]
  · rw [mem_keys]
    simp [mem_marshalImage]
  · intro k hk
    rw [mem_keys] at hk
    obtain ⟨v, hv⟩ := hk
    rw [mem_marshalImage] at hv
    rcases hv with ⟨_, h⟩ | ⟨_, h⟩ | ⟨_, h⟩ | ⟨_, h⟩ | ⟨_, h⟩ | ⟨_, h⟩ <;>
    · cases h; simp
  · intro kv hkv
    rw [mem_marshalImage] at hkv
    rcases hkv with ⟨h0, h⟩ | ⟨h0, h⟩ | ⟨h0, h⟩ | ⟨h0, h⟩ | ⟨h0, h⟩ | ⟨h0, h⟩ <;>
    · subst h; simp [JSON.Scalar.isSet, h0]

end Handlers

/-! ## Lemmas on the url of a record and on the icon -/

namespace NetURL

theorem String_ne_empty (url : URL) (h2 : url.Opaque = "") (h6 : url.Path ≠ []) :
    url.String ≠ "" := by
  have hp := EscapedPath_ne_nil url h6
  intro h
  have hd : url.String.data = [] := by rw [h]
  simp only [URL.String, h2, ne_eq, not_true_eq_false, if_false] at hd
  simp only [List.append_eq_nil] at hd
  exact hp hd.1.1.2

end NetURL

namespace Handlers

open Html

theorem updDetail_URL (p c : String) (l : PreviewImage) : (updDetail p c l).URL = l.URL := rfl

/-- Without an image record, the image rules give one for an `og:image`
property only. -/
theorem imageRules_nil (pageURL p c : String) (x : List PreviewImage) (hp : p ≠ "og:image")
    (h : imageRules pageURL p c [] = .ok x) : x = [] := by
  by_cases hd : isDetail p = true
  · simp only [isDetail, Bool.decide_or, Bool.or_eq_true, decide_eq_true_eq] at hd
    rcases hd with hd | hd | hd | hd | hd <;>
    · subst hd
      simp [imageRules, setLast] at h
  · simp only [Bool.not_eq_true] at hd
    rw [imageRules_other _ _ _ _ hp hd] at h
    cases h
    rfl

theorem iconSizes_URL (val : String) (result r2 : PreviewImage)
    (h : iconSizes val result = .ok r2) : r2.URL = result.URL := by
  unfold iconSizes at h
  simp only [] at h
  cases h0 : index (Strings.Split val 'x') 0 with
  | error p => rw [h0] at h; cases h
  | ok s0 =>
    cases h1 : index (Strings.Split val 'x') 1 with
    | error p => rw [h0, h1] at h; cases h
    | ok s1 =>
      rw [h0, h1] at h
      simp only [Except.ok.injEq] at h
      rw [← h]
      split_ifs <;> rfl

theorem scalarRules_Icon (p n c : String) (r : PageSummary) :
    (scalarRules p n c r).Icon = r.Icon := by
  simp only [scalarRules, apply_ite PageSummary.Icon, ite_self]

/-- The icon behind a tag: the one that `generateIcon` gives for an icon
link, else the icon as it was. -/
theorem tagRules_Icon (pageURL : String) (t : Token) (r : PageSummary)
    (i : List PreviewImage) (s : PageSummary × List PreviewImage)
    (h : tagRules pageURL t r i = .ok s) :
    (¬ (t.Data = "link" ∧ getRel t = "icon") ∧ s.1.Icon = r.Icon) ∨
    ((t.Data = "link" ∧ getRel t = "icon") ∧
      ∃ icon, generateIcon t pageURL = .ok icon ∧ s.1.Icon = some icon) := by
  unfold tagRules at h
  simp only [] at h
  split at h
  · cases h
  · rename_i r2 hr2
    split at h
    · cases h
    · rename_i i2 hi2
      cases h
      split_ifs at hr2 with hc
      · split at hr2
        · rename_i icon hicon
          cases hr2
          exact Or.inr ⟨hc, icon, hicon, rfl⟩
        · cases hr2
      · cases hr2
        exact Or.inl ⟨hc, scalarRules_Icon _ _ _ r⟩

end Handlers

/-! ## An image detail and the `og:image` properties before it -/

namespace Handlers

open Html

/-- An image-detail property with no image record makes the rules panic;
with a record they go on. -/
theorem tagRules_detail (pageURL : String) (d : Token) (r : PageSummary)
    (i : List PreviewImage) (hdet : isDetail (property d) = true)
    (hicon : d.Data = "link" → getRel d = "icon" → (generateIcon d pageURL).isOk = true) :
    (i = [] → tagRules pageURL d r i = .error .indexOutOfRange) ∧
    (i ≠ [] → ∃ s, tagRules pageURL d r i = .ok s) := by
  have hp : property d ≠ "og:image" := by
    intro hp
    rw [hp] at hdet
    revert hdet
    decide
  constructor
  · intro hi
    subst hi
    have him : imageRules pageURL (getBasicInfo d).1 (getBasicInfo d).2.2 [] =
        .error .indexOutOfRange := by
      have hdet2 := hdet
      simp only [isDetail, Bool.decide_or, Bool.or_eq_true, decide_eq_true_eq] at hdet2
      change imageRules pageURL (property d) (content d) [] = _
      rcases hdet2 with h | h | h | h | h <;>
      · rw [h]
        simp [imageRules, setLast]
    unfold tagRules
    simp only []
    by_cases hc : d.Data = "link" ∧ getRel d = "icon"
    · obtain ⟨icon, hicon2⟩ := isOk_iff _ (hicon hc.1 hc.2)
      simp only [if_pos hc, hicon2, him]
    · simp only [if_neg hc, him]
  · intro hi
    rcases List.eq_nil_or_concat i with h0 | ⟨init, l, h0⟩
    · exact absurd h0 hi
    · rw [List.concat_eq_append] at h0
      subst h0
      obtain ⟨r2, h⟩ := tagRules_of_images pageURL d r (init ++ [l]) _ hicon
        (imageRules_detail pageURL (property d) (content d) init l hp)
      exact ⟨_, h⟩

theorem imageRules_nil_iff (pageURL p c : String) (i x : List PreviewImage)
    (h : imageRules pageURL p c i = .ok x) :
    (p = "og:image" → x ≠ []) ∧ (p ≠ "og:image" → (x = [] ↔ i = [])) := by
  constructor
  · intro hp
    subst hp
    cases hr : resolveLink c pageURL with
    | error e => simp [imageRules, hr] at h
    | ok u =>
      rw [imageRules_image _ _ _ _ hr] at h
      cases h
      simp
  · intro hp
    rcases List.eq_nil_or_concat i with h0 | ⟨init, l, h0⟩
    · subst h0
      rw [imageRules_nil _ _ _ _ hp h]
    · rw [List.concat_eq_append] at h0
      subst h0
      rw [imageRules_detail _ _ _ _ _ hp] at h
      cases h
      simp

/-- The scan of a stream that ends behind an image-detail tag `d`, or goes on
behind it, when the tokens before `d` are scanned without a failure: it fails
at `d` when there is no image record, which is when no `og:image` tag stands
before `d`. -/
theorem scan_detail (pageURL : String) (d : Token) (hd : isTag d = true)
    (hdet : isDetail (property d) = true)
    (hicon : d.Data = "link" → getRel d = "icon" → (generateIcon d pageURL).isOk = true)
    (n : Nat) :
    ∀ (pre : List Token) (r s : PageSummary) (i : List PreviewImage),
    pre.length ≤ n → LookaheadSafe carriesImage (pre ++ [d]) = true →
    (∀ t ∈ pre, isEndHead t = false) →
    scan pageURL .EOF pre r i = .ok (some s, none) →
    ((i ≠ [] ∨ ∃ t ∈ pre, carries "og:image" t = true) →
      ∃ s2, scan pageURL .EOF (pre ++ [d]) r i = .ok (some s2, none)) ∧
    ((i = [] ∧ ¬ ∃ t ∈ pre, carries "og:image" t = true) →
      ∀ (post : List Token) (err : StreamError),
        scan pageURL err (pre ++ d :: post) r i = .error .indexOutOfRange) := by
  have hbase : ∀ (r : PageSummary) (i : List PreviewImage),
      (i ≠ [] → ∃ s2, scan pageURL .EOF [d] r i = .ok (some s2, none)) ∧
      (i = [] → ∀ (post : List Token) (err : StreamError),
        scan pageURL err (d :: post) r i = .error .indexOutOfRange) := by
    intro r i
    constructor
    · intro hi
      obtain ⟨s2, hs2⟩ := (tagRules_detail pageURL d (titleRule d none r) i hdet hicon).2 hi
      rw [scan_tag _ _ _ _ _ _ hd]
      simp only [List.head?_nil, hs2, List.tail_nil, ite_self]
      exact ⟨_, rfl⟩
    · intro hi post err
      rw [scan_tag _ _ _ _ _ _ hd,
        (tagRules_detail pageURL d (titleRule d post.head? r) i hdet hicon).1 hi]
  induction n with
  | zero =>
    intro pre r s i hlen hsafe hpre hret
    have : pre = [] := List.eq_nil_of_length_eq_zero (Nat.le_zero.mp hlen)
    subst this
    refine ⟨fun h => ?_, fun h => ?_⟩
    · rcases h with h | ⟨t, ht, _⟩
      · exact (hbase r i).1 h
      · cases ht
    · exact (hbase r i).2 h.1
  | succ n ih =>
    intro pre r s i hlen hsafe hpre hret
    cases pre with
    | nil =>
      refine ⟨fun h => ?_, fun h => ?_⟩
      · rcases h with h | ⟨t, ht, _⟩
        · exact (hbase r i).1 h
        · cases ht
      · exact (hbase r i).2 h.1
    | cons t rest =>
      have hlen2 : rest.length ≤ n := by simpa using hlen
      have he := hpre t (List.mem_cons_self _ _)
      have hpre2 : ∀ u ∈ rest, isEndHead u = false :=
        fun u hu => hpre u (List.mem_cons_of_mem _ hu)
      by_cases ht : isTag t = true
      · rw [scan_tag _ _ _ _ _ _ ht] at hret
        -- the token read ahead is one of `rest`, not `d`
        have hd2 : carriesImage d = true := by simp [carriesImage, hd, hdet]
        have happ : ∀ X : List Token, X ≠ [] → X.head? = some d →
            titleRule t (rest ++ X).head? r = titleRule t rest.head? r ∧
            (if t.Data = "title" ∧ r.Title = "" then (rest ++ X).tail else rest ++ X) =
              (if t.Data = "title" ∧ r.Title = "" then rest.tail else rest) ++ X := by
          intro X hX hXd
          by_cases hc : t.Data = "title" ∧ r.Title = ""
          · cases rest with
            | nil =>
              exfalso
              simp [LookaheadSafe, isTitleTag, ht, hc.1, hd2] at hsafe
            | cons m rest2 => simp [hc]
          · simp [titleRule, hc]
        obtain ⟨hsafe3, hcase⟩ := lookahead_cases carriesImage t (rest ++ [d])
          (t.Data = "title" ∧ r.Title = "") ht (fun h => h.1) hsafe
        have hlen3 := tail_length_le (t.Data = "title" ∧ r.Title = "") rest
        have hpre3 : ∀ u ∈ (if t.Data = "title" ∧ r.Title = "" then rest.tail else rest),
            isEndHead u = false := by
          intro u hu
          split_ifs at hu
          · exact hpre2 u (List.mem_of_mem_tail hu)
          · exact hpre2 u hu
        have hmem : ∀ u ∈ rest, carries "og:image" u = true →
            u ∈ (if t.Data = "title" ∧ r.Title = "" then rest.tail else rest) := by
          intro u hu hcu
          by_cases hc : t.Data = "title" ∧ r.Title = ""
          · rw [if_pos hc]
            cases rest with
            | nil => cases hu
            | cons m rest2 =>
              rcases List.mem_cons.mp hu with h | h
              · exfalso
                subst h
                have hcu2 : carriesImage u = true := by
                  simp only [carries, Bool.and_eq_true, decide_eq_true_eq] at hcu
                  simp [carriesImage, hcu.1, hcu.2]
                simp [LookaheadSafe, isTitleTag, ht, hc.1, hcu2] at hsafe
              · exact h
          · rw [if_neg hc]; exact hu
        cases hs : tagRules pageURL t (titleRule t rest.head? r) i with
        | error p => rw [hs] at hret; cases hret
        | ok s2 =>
          rw [hs] at hret
          simp only [] at hret
          obtain ⟨_, _, _, k4⟩ := tagRules_ok _ _ _ _ _ hs
          obtain ⟨n1, n2⟩ := imageRules_nil_iff _ _ _ _ _ k4
          have hsafe4 : LookaheadSafe carriesImage
              ((if t.Data = "title" ∧ r.Title = "" then rest.tail else rest) ++ [d]) = true := by
            rw [← (happ [d] (by simp) rfl).2]
            exact hsafe3
          obtain ⟨ihA, ihB⟩ := ih _ s2.1 s s2.2 (le_trans hlen3 hlen2) hsafe4 hpre3 hret
          refine ⟨fun h => ?_, fun h post err => ?_⟩
          · rw [List.cons_append, scan_tag _ _ _ _ _ _ ht, (happ [d] (by simp) rfl).1, hs]
            simp only []
            rw [(happ [d] (by simp) rfl).2]
            apply ihA
            by_cases hp : property t = "og:image"
            · exact Or.inl (n1 hp)
            · rcases h with h | ⟨u, hu, hcu⟩
              · exact Or.inl (fun hx => h ((n2 hp).mp hx))
              · rcases List.mem_cons.mp hu with hu | hu
                · subst hu
                  simp only [carries, Bool.and_eq_true, decide_eq_true_eq] at hcu
                  exact absurd hcu.2 hp
                · exact Or.inr ⟨u, hmem u hu hcu, hcu⟩
          · rw [List.cons_append, scan_tag _ _ _ _ _ _ ht,
              (happ (d :: post) (by simp) rfl).1, hs]
            simp only []
            rw [(happ (d :: post) (by simp) rfl).2]
            apply ihB
            have hp : property t ≠ "og:image" := by
              intro hp
              exact h.2 ⟨t, List.mem_cons_self _ _, by simp [carries, ht, hp]⟩
            refine ⟨(n2 hp).mpr h.1, ?_⟩
            rintro ⟨u, hu, hcu⟩
            have hu2 : u ∈ rest := by
              split_ifs at hu
              · exact List.mem_of_mem_tail hu
              · exact hu
            exact h.2 ⟨u, List.mem_cons_of_mem _ hu2, hcu⟩
      · simp only [Bool.not_eq_true] at ht
        rw [scan_other _ _ _ _ _ _ he ht] at hret
        have hsafe2 : LookaheadSafe carriesImage (rest ++ [d]) = true :=
          LookaheadSafe_tail _ t _ hsafe
        obtain ⟨ihA, ihB⟩ := ih rest r s i hlen2 hsafe2 hpre2 hret
        have hnc : carries "og:image" t = false := by simp [carries, ht]
        refine ⟨fun h => ?_, fun h post err => ?_⟩
        · rw [List.cons_append, scan_other _ _ _ _ _ _ he ht]
          apply ihA
          rcases h with h | ⟨u, hu, hcu⟩
          · exact Or.inl h
          · rcases List.mem_cons.mp hu with hu | hu
            · subst hu; rw [hnc] at hcu; cases hcu
            · exact Or.inr ⟨u, hu, hcu⟩
        · rw [List.cons_append, scan_other _ _ _ _ _ _ he ht]
          apply ihB
          exact ⟨h.1, fun ⟨u, hu, hcu⟩ => h.2 ⟨u, List.mem_cons_of_mem _ hu, hcu⟩⟩

/-- C18: let `d` be a tag with an image-detail property, behind tokens `pre`
of the head that `extractSummary` scans without a failure, in a tokenized
stream. When an `og:image` tag stands in `pre`, the index is in range: the
detail is applied and the stream that ends behind `d` gives a summary. When
none does, the image list is empty at `d`, the index is out of range and the
call panics, whatever follows `d`. -/
theorem extractSummary_detail_index (pageURL : String) (pre : List Token) (d : Token)
    (s : PageSummary)
    (htok : Tokenized (pre ++ [d]) = true)
    (hpre : ∀ t ∈ pre, isEndHead t = false)
    (hd : isTag d = true) (hdet : isDetail (property d) = true)
    (hicon : d.Data = "link" → getRel d = "icon" → (generateIcon d pageURL).isOk = true)
    (hret : extractSummary pageURL { tokens := pre } = .ok (some s, none)) :
    ((∃ t ∈ pre, carries "og:image" t = true) →
      ∃ s2, extractSummary pageURL { tokens := pre ++ [d] } = .ok (some s2, none)) ∧
    ((¬ ∃ t ∈ pre, carries "og:image" t = true) →
      ∀ (post : List Token) (err : StreamError),
        extractSummary pageURL { tokens := pre ++ d :: post, err := err } =
          .error .indexOutOfRange) := by
  have hsafe : LookaheadSafe carriesImage (pre ++ [d]) = true :=
    Tokenized_safe carriesImage (fun t ht => by
      simp only [carriesImage, Bool.and_eq_true] at ht
      exact ht.1) _ htok
  obtain ⟨hA, hB⟩ := scan_detail pageURL d hd hdet hicon pre.length pre {} s [] (le_refl _)
    hsafe hpre hret
  exact ⟨fun h => hA (Or.inr h), fun h post err => hB ⟨rfl, h⟩ post err⟩

/-- Witness of C18: a width behind an `og:image` is applied; the
same width without the `og:image` before it makes the call panic. -/
theorem extractSummary_detail_index_witness :
    (∃ s2, extractSummary "http://example.com/"
        { tokens := [startTag "head", metaProperty "og:image" "a.png"] ++
            [metaProperty "og:image:width" "100"] } = .ok (some s2, none)) ∧
    extractSummary "http://example.com/"
        { tokens := [startTag "head"] ++ metaProperty "og:image:width" "100" ::
            [metaProperty "og:image" "a.png", endTag "head"], err := .EOF } =
      .error .indexOutOfRange :=
  ⟨(extractSummary_detail_index "http://example.com/"
      [startTag "head", metaProperty "og:image" "a.png"] (metaProperty "og:image:width" "100")
      { Images := some [{ URL := "a.png" }] } (by decide) (by decide) (by decide) (by decide)
      (by decide) (by decide)).1 ⟨metaProperty "og:image" "a.png", by decide, by decide⟩,
    (extractSummary_detail_index "http://example.com/" [startTag "head"]
      (metaProperty "og:image:width" "100") {} (by decide) (by decide) (by decide) (by decide)
      (by decide) (by decide)).2 (by decide)
      [metaProperty "og:image" "a.png", endTag "head"] .EOF⟩

end Handlers

/-! ## The CORS header of `SummaryHandler` -/

namespace NetHTTP

theorem mem_Set_lines (h : Header) (key value : String) (kv : String × String)
    (hk : kv.1 ≠ key) (hm : kv ∈ h.lines) : kv ∈ (h.Set key value).lines := by
  simp only [Header.Set, List.mem_append, List.mem_filter]
  exact Or.inl ⟨hm, by simpa using hk⟩

theorem Error_lines (w : ResponseWriter) (error : String) (code : Int) (kv : String × String)
    (h1 : kv.1 ≠ "Content-Type") (h2 : kv.1 ≠ "X-Content-Type-Options")
    (hm : kv ∈ w.header.lines) : kv ∈ (Error w error code).header.lines := by
  have h := mem_Set_lines _ "X-Content-Type-Options" "nosniff" kv h2
    (mem_Set_lines w.header "Content-Type" "text/plain; charset=utf-8" kv h1 hm)
  unfold Error ResponseWriter.Write ResponseWriter.WriteHeader
  simp only []
  cases w.status <;> exact h

theorem Error_status (w : ResponseWriter) (error : String) (code : Int)
    (h : w.status = none) : (Error w error code).status = some code := by
  unfold Error ResponseWriter.Write ResponseWriter.WriteHeader
  simp only [h]

end NetHTTP

namespace Handlers

open Html NetHTTP

/-- The header that `http.Error` sends on a writer that has sent nothing
yet: the header map with the two lines that `http.Error` sets. -/
theorem Error_sent (w : ResponseWriter) (error : String) (code : Int) (h : Header)
    (hs : (Error w error code).sent = some h) :
    w.sent = some h ∨
      h = Header.Set (Header.Set w.header "Content-Type" "text/plain; charset=utf-8")
        "X-Content-Type-Options" "nosniff" := by
  unfold Error ResponseWriter.Write ResponseWriter.WriteHeader at hs
  simp only [] at hs
  cases hw : w.status with
  | none =>
    simp only [hw] at hs
    cases hs
    exact Or.inr rfl
  | some c =>
    simp only [hw] at hs
    exact Or.inl hs

/-- The response writer that `SummaryHandler` leaves is the one that its
calls, made in their order, leave. -/
theorem SummaryHandler_replay (get : String → Except String Response) (w : ResponseWriter)
    (r : Request) : (SummaryHandler get w r).w = replay (SummaryHandler.calls get r) w := by
  unfold SummaryHandler SummaryHandler.calls replay
  simp only []
  by_cases hu : r.Query.Get "url" = ""
  · simp only [hu, if_true]
    rfl
  · simp only [hu, if_false]
    rcases hf : fetchHTML get (r.Query.Get "url") with ⟨a, b⟩
    cases b with
    | some err => cases a <;> rfl
    | none =>
      cases a with
      | none => rfl
      | some stream =>
        simp only []
        cases he : extractSummary (r.Query.Get "url") stream with
        | error p => rfl
        | ok v =>
          rcases v with ⟨sd, e⟩
          cases e with
          | some err => rfl
          | none =>
            simp only []
            rcases hj : jsonMarshal sd with ⟨fs, je⟩
            cases je with
            | some err => rfl
            | none => rfl

/-- C21: whatever the request and whatever `http.Get` answers, the first call
of `SummaryHandler` adds the line `Access-Control-Allow-Origin: *` to the
header, and the `url` parameter is read by the call behind it; the response
writer that the handler leaves is the one that these calls leave in that
order. The header that the handler sends holds the line: whenever the handler
ends without a panic it has sent a response, with the status 400, 500 or 200,
and the header sent with it holds the line (it is the value that `Get`
returns for it). The header map that the handler leaves holds the line as
well. -/
theorem SummaryHandler_cors (get : String → Except String Response) (w : ResponseWriter)
    (r : Request) :
    (∃ rest, SummaryHandler.calls get r =
      .headerAdd "Access-Control-Allow-Origin" "*" :: .queryGet "url" :: rest) ∧
    (SummaryHandler get w r).w = replay (SummaryHandler.calls get r) w ∧
    (∀ h, (SummaryHandler get w r).w.sent = some h →
      w.sent = some h ∨ ("Access-Control-Allow-Origin", "*") ∈ h.lines) ∧
    ((SummaryHandler get {} r).panic = none →
      ∃ h c, (SummaryHandler get {} r).w.sent = some h ∧
        (SummaryHandler get {} r).w.status = some c ∧ (c = 400 ∨ c = 500 ∨ c = 200) ∧
        ("Access-Control-Allow-Origin", "*") ∈ h.lines ∧
        h.Get "Access-Control-Allow-Origin" = "*") ∧
    ("Access-Control-Allow-Origin", "*") ∈ (SummaryHandler get w r).w.header.lines ∧
    (SummaryHandler get {} r).w.header.Get "Access-Control-Allow-Origin" = "*" := by
  have h0 : ∀ w : ResponseWriter, ("Access-Control-Allow-Origin", "*") ∈
      ({ w with header := w.header.Add headerCORS corsAnyOrig } : ResponseWriter).header.lines := by
    intro w
    simp [Header.Add, headerCORS, corsAnyOrig]
  have herr : ∀ (w : ResponseWriter) (e : String) (c : Int),
      ("Access-Control-Allow-Origin", "*") ∈
        (Error { w with header := w.header.Add headerCORS corsAnyOrig } e c).header.lines :=
    fun w e c => Error_lines _ e c _ (by decide) (by decide) (h0 w)
  have hsent : ∀ (w : ResponseWriter) (e : String) (c : Int) (h : Header),
      (Error { w with header := w.header.Add headerCORS corsAnyOrig } e c).sent = some h →
      w.sent = some h ∨ ("Access-Control-Allow-Origin", "*") ∈ h.lines := by
    intro w e c h hs
    rcases Error_sent _ e c h hs with h1 | h1
    · exact Or.inl h1
    · refine Or.inr ?_
      rw [h1]
      exact mem_Set_lines _ _ _ _ (by decide) (mem_Set_lines _ _ _ _ (by decide) (h0 w))
  refine ⟨⟨_, rfl⟩, SummaryHandler_replay get w r, ?_, ?_, ?_, ?_⟩
  · intro h hs
    unfold SummaryHandler at hs
    simp only [] at hs
    split_ifs at hs with hu
    · exact hsent w _ _ h hs
    · split at hs
      · exact hsent w _ _ h hs
      · exact Or.inl hs
      · split at hs
        · exact Or.inl hs
        · exact hsent w _ _ h hs
        · split at hs
          · exact hsent w _ _ h hs
          · simp only [ResponseWriter.Write, ResponseWriter.WriteHeader] at hs
            cases hw : w.status with
            | none =>
              simp only [hw] at hs
              cases hs
              refine Or.inr ?_
              simp [Header.Add, headerCORS, corsAnyOrig]
            | some c =>
              simp only [hw] at hs
              exact Or.inl hs
  · intro hp
    unfold SummaryHandler at hp ⊢
    simp only [] at hp ⊢
    split_ifs with hu
    · exact ⟨_, _, rfl, rfl, by decide, by decide, rfl⟩
    · rw [if_neg hu] at hp
      split
      · exact ⟨_, _, rfl, rfl, by decide, by decide, rfl⟩
      · rename_i hf
        rw [hf] at hp
        cases hp
      · rename_i stream hf
        rw [hf] at hp
        simp only [] at hp
        split
        · rename_i p he
          rw [he] at hp
          cases hp
        · exact ⟨_, _, rfl, rfl, by decide, by decide, rfl⟩
        · split
          · exact ⟨_, _, rfl, rfl, by decide, by decide, rfl⟩
          · exact ⟨_, _, rfl, rfl, by decide, by decide, rfl⟩
  · unfold SummaryHandler
    simp only []
    split_ifs with hu
    · exact herr w _ _
    · split
      · exact herr w _ _
      · exact h0 w
      · split
        · exact h0 w
        · exact herr w _ _
        · split
          · exact herr w _ _
          · simp only [ResponseWriter.Write, ResponseWriter.WriteHeader]
            split <;> simp [Header.Add, headerCORS, corsAnyOrig]
  · unfold SummaryHandler
    simp only []
    split_ifs with hu
    · rfl
    · split
      · rfl
      · rfl
      · split
        · rfl
        · rfl
        · split
          · rfl
          · rfl

end Handlers

/-! ## `GetSessionID` -/

namespace Strings

theorem HasPrefix_append (pre rest : String) : HasPrefix (pre ++ rest) pre = true := by
  simp [HasPrefix, String.data_append]

theorem TrimPrefix_append (pre rest : String) : TrimPrefix (pre ++ rest) pre = rest := by
  simp [TrimPrefix, HasPrefix_append, String.data_append]

end Strings

namespace Sessions

open NetHTTP

/-- C22: `GetSessionID` takes the value of the `Authorization` header, and
when that is empty the first `auth` parameter of the query. With neither it
returns `InvalidSessionID` and `ErrNoSessionID`; with a value that does not
start with `Bearer ` it returns `InvalidSessionID` and `ErrInvalidScheme`; with
a value `Bearer ` followed by `rest` it returns what `ValidateID` returns for
`rest` and the signing key. -/
theorem GetSessionID_cases {SessionID : Type} (InvalidSessionID : SessionID)
    (ValidateID : String → String → SessionID × Option String)
    (r : Request) (signingKey : String) :
    (r.Header.Get "Authorization" = "" → r.Query.index "auth" = [] →
      GetSessionID InvalidSessionID ValidateID r signingKey =
        (InvalidSessionID, some ErrNoSessionID)) ∧
    (∀ v : String,
      (r.Header.Get "Authorization" ≠ "" ∧ v = r.Header.Get "Authorization") ∨
        (r.Header.Get "Authorization" = "" ∧ (r.Query.index "auth").head? = some v) →
      (Strings.HasPrefix v "Bearer " = false →
        GetSessionID InvalidSessionID ValidateID r signingKey =
          (InvalidSessionID, some ErrInvalidScheme)) ∧
      (∀ rest : String, v = "Bearer " ++ rest →
        GetSessionID InvalidSessionID ValidateID r signingKey = ValidateID rest signingKey)) := by
  have hsel : ∀ v : String,
      (r.Header.Get "Authorization" ≠ "" ∧ v = r.Header.Get "Authorization") ∨
        (r.Header.Get "Authorization" = "" ∧ (r.Query.index "auth").head? = some v) →
      GetSessionID InvalidSessionID ValidateID r signingKey =
        if ¬ Strings.HasPrefix v "Bearer " then (InvalidSessionID, some ErrInvalidScheme)
        else ValidateID (Strings.TrimPrefix v "Bearer ") signingKey := by
    intro v hv
    unfold GetSessionID
    simp only [headerAuthorization, paramAuthorization, schemeBearer]
    rcases hv with ⟨h1, h2⟩ | ⟨h1, h2⟩
    · rw [if_neg h1, ← h2]
    · rw [if_pos h1]
      cases hq : r.Query.index "auth" with
      | nil => rw [hq] at h2; cases h2
      | cons q qs =>
        rw [hq] at h2
        simp only [List.head?_cons, Option.some.injEq] at h2
        rw [h2]
  refine ⟨fun h1 h2 => ?_, fun v hv => ⟨fun hp => ?_, fun rest hrest => ?_⟩⟩
  · unfold GetSessionID
    simp only [headerAuthorization, paramAuthorization]
    rw [if_pos h1, h2]
  · rw [hsel v hv, if_pos (by simp [hp])]
  · rw [hsel v hv, hrest, if_neg (by simp [Strings.HasPrefix_append]),
      Strings.TrimPrefix_append]

/-- Witness of C22: a header `Bearer abc` is validated as `abc`, also when an
`auth` parameter is there; without the header the first `auth` parameter
counts; `Basic abc` is not accepted; an empty request has no session. -/
theorem GetSessionID_cases_witness :
    GetSessionID "" (fun id key => (id ++ "/" ++ key, none))
        (Handlers.requestWith "Bearer abc" [("auth", "Bearer xyz")]) "k" = ("abc/k", none) ∧
    GetSessionID "" (fun id key => (id ++ "/" ++ key, none))
        (Handlers.requestWith "" [("auth", "Bearer xyz"), ("auth", "Bearer uvw")]) "k" =
      ("xyz/k", none) ∧
    GetSessionID "" (fun id key => (id ++ "/" ++ key, none))
        (Handlers.requestWith "Basic abc" [("auth", "Bearer xyz")]) "k" =
      ("", some ErrInvalidScheme) ∧
    GetSessionID "" (fun id key => (id ++ "/" ++ key, none))
        (Handlers.requestWith "" [("other", "Bearer xyz")]) "k" = ("", some ErrNoSessionID) :=
  ⟨((GetSessionID_cases "" (fun id key => (id ++ "/" ++ key, none))
        (Handlers.requestWith "Bearer abc" [("auth", "Bearer xyz")]) "k").2 "Bearer abc"
        (Or.inl ⟨by decide, by decide⟩)).2 "abc" (by decide),
    ((GetSessionID_cases "" (fun id key => (id ++ "/" ++ key, none))
        (Handlers.requestWith "" [("auth", "Bearer xyz"), ("auth", "Bearer uvw")]) "k").2
        "Bearer xyz" (Or.inr ⟨by decide, by decide⟩)).2 "xyz" (by decide),
    ((GetSessionID_cases "" (fun id key => (id ++ "/" ++ key, none))
        (Handlers.requestWith "Basic abc" [("auth", "Bearer xyz")]) "k").2 "Basic abc"
        (Or.inl ⟨by decide, by decide⟩)).1 (by decide),
    (GetSessionID_cases "" (fun id key => (id ++ "/" ++ key, none))
        (Handlers.requestWith "" [("other", "Bearer xyz")]) "k").1 (by decide) (by decide)⟩

end Sessions

/-! ## The getters of the user store -/

namespace Users

/-- The getters return the error of the query; with rows that all scan they
return the user of the last row, with one row the user of that row; without
rows they return the zero user and no error. -/
theorem GetByID_rows {Row : Type} (query : String → Int → Except String (List Row))
    (scan : Row → Except String User) (id : Int) :
    (∀ e, query
        "select id,email,pass_hash,username,first_name,last_name,photo_url from users where id=?"
        id = .error e → GetByID query scan id = (none, some e)) ∧
    (∀ row u, query
        "select id,email,pass_hash,username,first_name,last_name,photo_url from users where id=?"
        id = .ok [row] → scan row = .ok u → GetByID query scan id = (some u, none)) ∧
    (∀ row e, query
        "select id,email,pass_hash,username,first_name,last_name,photo_url from users where id=?"
        id = .ok [row] → scan row = .error e → GetByID query scan id = (none, some e)) ∧
    (query
        "select id,email,pass_hash,username,first_name,last_name,photo_url from users where id=?"
        id = .ok [] → GetByID query scan id = (some {}, none)) := by
  refine ⟨fun e h => ?_, fun row u h hs => ?_, fun row e h hs => ?_, fun h => ?_⟩
  · simp [GetByID, h]
  · simp [GetByID, h, scanRows, hs]
  · simp [GetByID, h, scanRows, hs]
  · simp [GetByID, h, scanRows]

/-- C23 (failing input): a table with one user, and getters asked for an id,
an email and a user name that no row has. The query gives no row and no
error, and each getter returns a user that is not nil, with all fields zero,
and a nil error. For the id, email and user name of the row they return that
user. -/
theorem GetByID_no_matching_user :
    GetByID
        (selectWhere [{ ID := 1, Email := "test@test.com", PassHash := [112], UserName := "username",
                        FirstName := "firstname", LastName := "lastname",
                        PhotoURL := "photourl" }] User.ID)
        .ok 2 = (some {}, none) ∧
    GetByEmail
        (selectWhere [{ ID := 1, Email := "test@test.com", PassHash := [112], UserName := "username",
                        FirstName := "firstname", LastName := "lastname",
                        PhotoURL := "photourl" }] User.Email)
        .ok "other@test.com" = (some {}, none) ∧
    GetByUserName
        (selectWhere [{ ID := 1, Email := "test@test.com", PassHash := [112], UserName := "username",
                        FirstName := "firstname", LastName := "lastname",
                        PhotoURL := "photourl" }] User.UserName)
        .ok "nobody" = (some {}, none) ∧
    GetByID
        (selectWhere [{ ID := 1, Email := "test@test.com", PassHash := [112], UserName := "username",
                        FirstName := "firstname", LastName := "lastname",
                        PhotoURL := "photourl" }] User.ID)
        .ok 1 =
      (some { ID := 1, Email := "test@test.com", PassHash := [112], UserName := "username",
              FirstName := "firstname", LastName := "lastname", PhotoURL := "photourl" },
        none) := by
  decide

end Users

/-! ## The first title text and the first description -/

namespace Handlers

open Html

theorem lastContent_none (p : String) (tags : List Token)
    (h : ∀ t ∈ tags, property t ≠ p) : lastContent p tags = none := by
  have hf : tags.filter (fun t => decide (property t = p)) = [] := by
    rw [List.filter_eq_nil_iff]
    intro t ht
    simpa using h t ht
  simp [lastContent, hf]

theorem mem_headTags (t : Token) (toks : List Token) (h : t ∈ headTags toks) :
    t ∈ toks ∧ isTag t = true := by
  simp only [headTags, headTokens, List.mem_filter] at h
  exact ⟨List.takeWhile_subset _ h.1, h.2⟩

/-- The summary behind a tag: its title. -/
theorem tagRules_Title (pageURL : String) (t : Token) (r : PageSummary)
    (i : List PreviewImage) (s : PageSummary × List PreviewImage)
    (h : tagRules pageURL t r i = .ok s) :
    s.1.Title = if property t = "og:title" then content t else r.Title := by
  rw [(tagRules_ok _ _ _ _ _ h).1, scalarRules_Title]

/-- C24: let a `title` tag without the property `og:title` be processed while
the title is unset. When the next token is a text that is not empty, and no
tag behind it carries `og:title`, the title of the summary that is returned
is that text: no later `title` tag changes it. When the next token is no
text, it is dropped, the scan goes on behind it and the title is still unset
behind the tag. And a tag without `og:title` that is processed while the
title is set, a `title` tag or another one, leaves the title as it is. -/
theorem scan_title_first_wins (pageURL : String) (err : StreamError) (title : Token)
    (r : PageSummary) (i : List PreviewImage)
    (htitle : isTitleTag title = true) (hr : r.Title = "")
    (hog : property title ≠ "og:title") :
    (∀ (text : Token) (post : List Token) (s : PageSummary),
      text.Type_ = .TextToken → text.Data ≠ "" →
      (∀ t ∈ post, carries "og:title" t = false) →
      scan pageURL err (title :: text :: post) r i = .ok (some s, none) →
      s.Title = text.Data) ∧
    (∀ (next : Token) (rest : List Token), next.Type_ ≠ .TextToken →
      scan pageURL err (title :: next :: rest) r i =
        (match tagRules pageURL title r i with
          | .error p => .error p
          | .ok s2 => scan pageURL err rest s2.1 s2.2) ∧
      ∀ s2, tagRules pageURL title r i = .ok s2 → s2.1.Title = "") ∧
    (∀ (t : Token) (next : Option Token) (r2 : PageSummary) (i2 : List PreviewImage)
      (s2 : PageSummary × List PreviewImage),
      r2.Title ≠ "" → property t ≠ "og:title" →
      tagRules pageURL t (titleRule t next r2) i2 = .ok s2 → s2.1.Title = r2.Title) := by
  have ht : isTag title = true ∧ title.Data = "title" := by
    simpa [isTitleTag] using htitle
  have hc : title.Data = "title" ∧ r.Title = "" := ⟨ht.2, hr⟩
  refine ⟨fun text post s htext hne hpost hret => ?_, fun next rest hnext => ⟨?_, ?_⟩,
    fun t next r2 i2 s2 hr2 hp h => ?_⟩
  · rw [scan_tag _ _ _ _ _ _ ht.1] at hret
    have htr : titleRule title (text :: post).head? r = { r with Title := text.Data } := by
      simp [titleRule, hc, htext]
    rw [htr, if_pos hc, List.tail_cons] at hret
    cases hs : tagRules pageURL title { r with Title := text.Data } i with
    | error p => rw [hs] at hret; cases hret
    | ok s2 =>
      rw [hs] at hret
      simp only [] at hret
      have h1 := tagRules_Title _ _ _ _ _ hs
      rw [if_neg hog] at h1
      have hno : lastContent "og:title" (headTags post) = none := by
        apply lastContent_none
        intro t hm
        obtain ⟨hm1, hm2⟩ := mem_headTags t post hm
        have := hpost t hm1
        simpa [carries, hm2] using this
      rw [scan_title_keep pageURL err post s2.1 s s2.2 (by rw [h1]; exact hne) hno hret, h1]
  · rw [scan_tag _ _ _ _ _ _ ht.1]
    have htr : titleRule title (next :: rest).head? r = r := by
      simp [titleRule, hc, hnext]
    rw [htr, if_pos hc, List.tail_cons]
  · intro s2 hs
    rw [tagRules_Title _ _ _ _ _ hs, if_neg hog]
    exact hr
  · rw [tagRules_Title _ _ _ _ _ h, if_neg hp, titleRule_of_ne _ _ _ hr2]

/-- Witness of C24: the first title text stays, and a `title` tag followed
by an end tag leaves the title unset for the next `title` tag. -/
theorem scan_title_first_wins_witness :
    extractSummary "http://example.com/"
        { tokens := [startTag "title", textToken "First", endTag "title", startTag "title",
                     textToken "Second", endTag "title"] } =
      .ok (some { Title := "First" }, none) ∧
    ({ Title := "First" } : PageSummary).Title = (textToken "First").Data ∧
    extractSummary "http://example.com/"
        { tokens := [startTag "title", endTag "title", startTag "title", textToken "Second"] } =
      .ok (some { Title := "Second" }, none) ∧
    scan "http://example.com/" .EOF
        [startTag "title", endTag "title", startTag "title", textToken "Second"] {} [] =
      (match tagRules "http://example.com/" (startTag "title") {} [] with
        | .error p => .error p
        | .ok s2 => scan "http://example.com/" .EOF [startTag "title", textToken "Second"]
            s2.1 s2.2) :=
  ⟨by decide,
    (scan_title_first_wins "http://example.com/" .EOF (startTag "title") {} [] (by decide) rfl
      (by decide)).1 (textToken "First")
      [endTag "title", startTag "title", textToken "Second", endTag "title"]
      { Title := "First" } rfl (by decide) (by decide) (by decide),
    by decide,
    ((scan_title_first_wins "http://example.com/" .EOF (startTag "title") {} [] (by decide) rfl
      (by decide)).2.1 (endTag "title") [startTag "title", textToken "Second"]
      (by decide)).1⟩

theorem firstDescription_cons (t : Token) (tags : List Token) :
    firstDescription (t :: tags) =
      if name t = "description" ∧ content t ≠ "" then some (content t)
      else firstDescription tags := by
  unfold firstDescription
  by_cases h : name t = "description" ∧ content t ≠ ""
  · rw [if_pos h]
    simp [List.find?, h.1, h.2]
  · rw [if_neg h]
    have : (decide (name t = "description") && decide (content t ≠ "")) = false := by
      simpa using h
    simp only [List.find?, this]

theorem firstDescription_skip (n : Token) (rest : List Token)
    (h1 : carriesDescription n = false) (h2 : isEndHead n = false) :
    firstDescription (headTags (n :: rest)) = firstDescription (headTags rest) := by
  by_cases ht : isTag n = true
  · have hp : name n ≠ "description" := by
      simp only [carriesDescription, named, ht, Bool.true_and, Bool.or_eq_false_iff,
        decide_eq_false_iff_not] at h1
      exact h1.1
    rw [headTags_tag _ _ ht, firstDescription_cons, if_neg (fun h => hp h.1)]
  · simp only [Bool.not_eq_true] at ht
    rw [headTags_other _ _ h2 ht]

/-- Without `og:description` properties, the description at the end of the
scan is the content of the first description tag of the head whose content is
not empty. -/
theorem scan_description_first (pageURL : String) (err : StreamError) (n : Nat) :
    ∀ (toks : List Token) (r s : PageSummary) (i : List PreviewImage),
    toks.length ≤ n → LookaheadSafe carriesDescription toks = true →
    r.Description = "" → (∀ t ∈ headTags toks, property t ≠ "og:description") →
    scan pageURL err toks r i = .ok (some s, none) →
    s.Description = (firstDescription (headTags toks)).getD "" := by
  induction n with
  | zero =>
    intro toks r s i hlen hc hr hno hret
    have : toks = [] := List.eq_nil_of_length_eq_zero (Nat.le_zero.mp hlen)
    subst this
    simp only [scan, Except.ok.injEq] at hret
    rw [(atError_fields _ _ _ _ hret).2.1, hr]
    rfl
  | succ n ih =>
    intro toks r s i hlen hc hr hno hret
    cases toks with
    | nil =>
      simp only [scan, Except.ok.injEq] at hret
      rw [(atError_fields _ _ _ _ hret).2.1, hr]
      rfl
    | cons t rest =>
      have hlen2 : rest.length ≤ n := by simpa using hlen
      have hc2 := LookaheadSafe_tail _ t rest hc
      by_cases he : isEndHead t = true
      · rw [scan_endHead _ _ _ _ _ _ he] at hret
        simp only [Except.ok.injEq] at hret
        rw [(finish_fields _ _ _ hret).2.1, hr, headTags_endHead _ _ he]
        rfl
      · simp only [Bool.not_eq_true] at he
        by_cases ht : isTag t = true
        · rw [scan_tag _ _ _ _ _ _ ht] at hret
          rw [headTags_tag _ _ ht] at hno ⊢
          obtain ⟨hsafe, hcase⟩ := lookahead_cases carriesDescription t rest
            (t.Data = "title" ∧ r.Title = "") ht (fun h => h.1) hc
          have hlen3 := tail_length_le (t.Data = "title" ∧ r.Title = "") rest
          have hfirst : firstDescription
              (headTags (if t.Data = "title" ∧ r.Title = "" then rest.tail else rest)) =
              firstDescription (headTags rest) := by
            rcases hcase with h | ⟨m, hm, hm1, hm2⟩
            · rw [h]
            · conv_rhs => rw [hm]
              exact (firstDescription_skip _ _ hm1 hm2).symm
          have hno3 : ∀ u ∈ headTags (if t.Data = "title" ∧ r.Title = "" then rest.tail
              else rest), property u ≠ "og:description" := by
            intro u hu
            apply hno u
            apply List.mem_cons_of_mem
            rcases hcase with h | ⟨m, hm, hm1, hm2⟩
            · rw [h] at hu; exact hu
            · rw [hm]; exact mem_headTags_skip m u _ hm2 hu
          have hp : property t ≠ "og:description" := hno t (List.mem_cons_self _ _)
          cases hs : tagRules pageURL t (titleRule t rest.head? r) i with
          | error p => rw [hs] at hret; cases hret
          | ok s2 =>
            rw [hs] at hret
            simp only [] at hret
            have h1 := (tagRules_ok _ _ _ _ _ hs).2.1
            rw [scalarRules_Description, if_neg hp, titleRule_Description, hr] at h1
            rw [firstDescription_cons]
            by_cases hd : name t = "description" ∧ content t ≠ ""
            · rw [if_pos hd]
              rw [if_pos ⟨hd.1, rfl⟩] at h1
              have hkeep := scan_description_keep pageURL err _ _ s2.1 s s2.2 (le_refl _)
                (LookaheadSafe_mono carriesDescription _
                  (fun u hu => by simp [carriesDescription, hu]) _ hsafe)
                (by rw [h1]; exact hd.2) (lastContent_none _ _ hno3) hret
              rw [hkeep, h1]
              rfl
            · rw [if_neg hd]
              have h2 : s2.1.Description = "" := by
                rw [h1]
                by_cases hn : name t = "description"
                · rw [if_pos ⟨hn, rfl⟩]
                  by_contra hcon
                  exact hd ⟨hn, hcon⟩
                · rw [if_neg (fun h => hn h.1)]
              rw [ih _ s2.1 s s2.2 (le_trans hlen3 hlen2) hsafe h2 hno3 hret, hfirst]
        · simp only [Bool.not_eq_true] at ht
          rw [scan_other _ _ _ _ _ _ he ht] at hret
          rw [headTags_other _ _ he ht] at hno ⊢
          exact ih rest r s i hlen2 hc2 hr hno hret

/-- C25: when the head of a tokenized stream has no `og:description`
property, the description of the summary that `extractSummary` returns is the
content of the first tag of the head with the name `description` whose content
is not empty, whatever description tags follow it; it is unset when the head
has no such tag. -/
theorem extractSummary_first_description (pageURL : String) (htmlStream : Tokenizer)
    (s : PageSummary)
    (htok : Tokenized htmlStream.tokens = true)
    (hno : ∀ t ∈ headTags htmlStream.tokens, property t ≠ "og:description")
    (hret : extractSummary pageURL htmlStream = .ok (some s, none)) :
    s.Description = (firstDescription (headTags htmlStream.tokens)).getD "" :=
  scan_description_first pageURL htmlStream.err htmlStream.tokens.length htmlStream.tokens {} s
    [] (le_refl _)
    (Tokenized_safe carriesDescription (fun t ht => by
      simp only [carriesDescription, carries, named, Bool.or_eq_true, Bool.and_eq_true] at ht
      rcases ht with ht | ht <;> exact ht.1) _ htok) rfl hno hret

/-- Witness of C25: an empty description, then two with content:
the first of these counts; a description in the body does not. -/
theorem extractSummary_first_description_witness :
    extractSummary "http://example.com/"
        { tokens := [metaName "description" "", metaName "description" "first",
                     metaName "description" "second", endTag "head",
                     metaName "description" "third"] } =
      .ok (some { Description := "first" }, none) ∧
    ({ Description := "first" } : PageSummary).Description =
      (firstDescription
        (headTags [metaName "description" "", metaName "description" "first",
                   metaName "description" "second", endTag "head",
                   metaName "description" "third"])).getD "" :=
  ⟨by decide,
    extractSummary_first_description "http://example.com/"
      { tokens := [metaName "description" "", metaName "description" "first",
                   metaName "description" "second", endTag "head",
                   metaName "description" "third"] }
      { Description := "first" } (by decide) (by decide) (by decide)⟩

end Handlers

/-! ## Image details, the icon, and the token behind a `title` tag -/

namespace Handlers

open Html

/-- C26: a tag with an image-detail property that is processed when the
image list is `init` followed by the record `l` leaves the list as `init`
followed by one record: the length and the records of `init` are as before,
and the last record differs from `l` at most in the field that the property
names, which takes the content (for the width and the height the value that
`Atoi` gives for it). The image rules do not fail on such a list. -/
theorem tagRules_detail_frame (pageURL : String) (t : Token) (r : PageSummary)
    (init : List PreviewImage) (l : PreviewImage) (s2 : PageSummary × List PreviewImage)
    (hdet : isDetail (property t) = true)
    (h : tagRules pageURL t r (init ++ [l]) = .ok s2) :
    imageRules pageURL (property t) (content t) (init ++ [l]) = .ok s2.2 ∧
    s2.2.length = (init ++ [l]).length ∧ s2.2.dropLast = init ∧
    ∃ l2, s2.2 = init ++ [l2] ∧ l2.URL = l.URL ∧
      l2.SecureURL = (if property t = "og:image:secure_url" then content t else l.SecureURL) ∧
      l2.Type_ = (if property t = "og:image:type" then content t else l.Type_) ∧
      l2.Width =
        (if property t = "og:image:width" then (Strconv.Atoi (content t)).1 else l.Width) ∧
      l2.Height =
        (if property t = "og:image:height" then (Strconv.Atoi (content t)).1 else l.Height) ∧
      l2.Alt = (if property t = "og:image:alt" then content t else l.Alt) := by
  have hp : property t ≠ "og:image" := by
    intro hp
    rw [hp] at hdet
    revert hdet
    decide
  have h1 := (tagRules_ok _ _ _ _ _ h).2.2.2
  have h2 := imageRules_detail pageURL (property t) (content t) init l hp
  rw [h2] at h1
  simp only [Except.ok.injEq] at h1
  refine ⟨by rw [h2, h1], by rw [← h1]; simp, by rw [← h1]; simp, updDetail (property t) (content t) l,
    h1.symm, rfl, rfl, rfl, rfl, rfl, rfl⟩

/-- Witness of C26: a width for the second of two images. -/
theorem tagRules_detail_frame_witness :
    tagRules "http://example.com/" (metaProperty "og:image:width" "200") {}
        ([{ URL := "a.png", Width := 100 }] ++ [{ URL := "b.png", Alt := "b" }]) =
      .ok ({}, [{ URL := "a.png", Width := 100 }, { URL := "b.png", Width := 200, Alt := "b" }]) ∧
    ((({} : PageSummary),
        [({ URL := "a.png", Width := 100 } : PreviewImage),
          { URL := "b.png", Width := 200, Alt := "b" }]).2.dropLast =
      [{ URL := "a.png", Width := 100 }]) :=
  ⟨by decide,
    (tagRules_detail_frame "http://example.com/" (metaProperty "og:image:width" "200") {}
      [{ URL := "a.png", Width := 100 }] { URL := "b.png", Alt := "b" }
      ({}, [{ URL := "a.png", Width := 100 }, { URL := "b.png", Width := 200, Alt := "b" }])
      (by decide) (by decide)).2.2.1⟩

/-- The icon links of the head of a stream that is scanned to the end are
all generated without a panic, when none of them is read ahead as a title
text. -/
theorem scan_icons_ok (pageURL : String) (err : StreamError) (n : Nat) :
    ∀ (toks : List Token) (r s : PageSummary) (i : List PreviewImage),
    toks.length ≤ n → LookaheadSafe carriesIcon toks = true →
    scan pageURL err toks r i = .ok (some s, none) →
    ∀ t ∈ headTags toks, iconLink t = true → ∃ icon, generateIcon t pageURL = .ok icon := by
  induction n with
  | zero =>
    intro toks r s i hlen hc hret
    have : toks = [] := List.eq_nil_of_length_eq_zero (Nat.le_zero.mp hlen)
    subst this
    intro t ht
    simp [headTags, headTokens] at ht
  | succ n ih =>
    intro toks r s i hlen hc hret
    cases toks with
    | nil =>
      intro t ht
      simp [headTags, headTokens] at ht
    | cons t rest =>
      have hlen2 : rest.length ≤ n := by simpa using hlen
      have hc2 := LookaheadSafe_tail _ t rest hc
      by_cases he : isEndHead t = true
      · rw [headTags_endHead _ _ he]
        intro u hu
        cases hu
      · simp only [Bool.not_eq_true] at he
        by_cases ht : isTag t = true
        · rw [scan_tag _ _ _ _ _ _ ht] at hret
          rw [headTags_tag _ _ ht]
          obtain ⟨hsafe, hcase⟩ := lookahead_cases carriesIcon t rest
            (t.Data = "title" ∧ r.Title = "") ht (fun h => h.1) hc
          have hlen3 := tail_length_le (t.Data = "title" ∧ r.Title = "") rest
          cases hs : tagRules pageURL t (titleRule t rest.head? r) i with
          | error p => rw [hs] at hret; cases hret
          | ok s2 =>
            rw [hs] at hret
            simp only [] at hret
            have ih2 := ih _ s2.1 s s2.2 (le_trans hlen3 hlen2) hsafe hret
            intro u hu hicon
            rcases List.mem_cons.mp hu with hu | hu
            · subst hu
              rcases tagRules_Icon _ _ _ _ _ hs with ⟨hn, _⟩ | ⟨_, icon, hg, _⟩
              · exfalso
                simp only [iconLink, Bool.and_eq_true, decide_eq_true_eq] at hicon
                exact hn hicon
              · exact ⟨icon, hg⟩
            · rcases hcase with h | ⟨m, hm, hm1, hm2⟩
              · rw [h] at ih2; exact ih2 u hu hicon
              · rw [hm] at hu
                by_cases hmt : isTag m = true
                · rw [headTags_tag _ _ hmt] at hu
                  rcases List.mem_cons.mp hu with hu | hu
                  · rw [hu] at hicon
                    simp [carriesIcon, hmt, hicon] at hm1
                  · exact ih2 u hu hicon
                · simp only [Bool.not_eq_true] at hmt
                  rw [headTags_other _ _ hm2 hmt] at hu
                  exact ih2 u hu hicon
        · simp only [Bool.not_eq_true] at ht
          rw [scan_other _ _ _ _ _ _ he ht] at hret
          rw [headTags_other _ _ he ht]
          exact ih rest r s i hlen2 hc2 hret

/-- The icon at the end of the scan is the one of the last icon link. -/
theorem scan_icon (pageURL : String) (err : StreamError) (toks : List Token)
    (r s : PageSummary) (i : List PreviewImage)
    (hsafe : LookaheadSafe carriesIcon toks = true)
    (hret : scan pageURL err toks r i = .ok (some s, none)) :
    s.Icon = (lastValue iconLink (iconOf pageURL) (headTags toks)).getD r.Icon := by
  refine scan_lastValue PageSummary.Icon iconLink (iconOf pageURL) pageURL err ?_ ?_ ?_
    toks.length toks r s i (le_refl _)
    (show LookaheadSafe (fun t => isTag t && iconLink t) toks = true from hsafe) hret
  · intro t r i s h
    rcases tagRules_Icon _ _ _ _ _ h with ⟨hn, hI⟩ | ⟨hc, icon, hg, hI⟩
    · have : iconLink t = false := by
        simp only [iconLink, Bool.and_eq_false_imp, decide_eq_true_eq, decide_eq_false_iff_not]
        exact fun h1 h2 => hn ⟨h1, h2⟩
      rw [hI, this]
      simp
    · have : iconLink t = true := by simp [iconLink, hc.1, hc.2]
      rw [hI, this, if_pos rfl]
      simp [iconOf, hg]
  · intro t n r; exact (titleRule_fields t n r).2.2.2.2.2
  · intro r s i h; exact (finish_scalars r s i h).2.2.2.2.2

/-- C27: the icon of the summary that `extractSummary` returns for a
tokenized stream is the record that `generateIcon` gives for the last tag of
the head that is a `link` whose first `rel` is `icon`, whatever the icon links
before it give; without such a tag in the head the icon is nil, whatever other
links there are. -/
theorem extractSummary_last_icon (pageURL : String) (htmlStream : Tokenizer)
    (s : PageSummary)
    (htok : Tokenized htmlStream.tokens = true)
    (hret : extractSummary pageURL htmlStream = .ok (some s, none)) :
    (∀ t, ((headTags htmlStream.tokens).filter iconLink).getLast? = some t →
      ∃ icon, generateIcon t pageURL = .ok icon ∧ s.Icon = some icon) ∧
    ((headTags htmlStream.tokens).filter iconLink = [] → s.Icon = none) := by
  have hsafe : LookaheadSafe carriesIcon htmlStream.tokens = true :=
    Tokenized_safe carriesIcon (fun t ht => by
      simp only [carriesIcon, Bool.and_eq_true] at ht
      exact ht.1) _ htok
  have h1 := scan_icon pageURL htmlStream.err htmlStream.tokens {} s [] hsafe hret
  have h2 := scan_icons_ok pageURL htmlStream.err htmlStream.tokens.length htmlStream.tokens {} s
    [] (le_refl _) hsafe hret
  constructor
  · intro t ht
    have hm : t ∈ (headTags htmlStream.tokens).filter iconLink := List.mem_of_getLast?_eq_some ht
    obtain ⟨hm1, hm2⟩ := List.mem_filter.mp hm
    obtain ⟨icon, hg⟩ := h2 t hm1 hm2
    refine ⟨icon, hg, ?_⟩
    rw [h1]
    simp [lastValue, ht, iconOf, hg]
  · intro hnil
    rw [h1]
    simp [lastValue, hnil]

/-- Witness of C27: the second icon link has a type only, and
nothing of the first one stays; a style sheet link behind it changes
nothing. -/
theorem extractSummary_last_icon_witness :
    extractSummary "http://example.com/"
        { tokens := [linkIcon "any" "a.ico", tagWith "link" [("rel", "icon"), ("type", "image/png")],
                     tagWith "link" [("rel", "stylesheet"), ("href", "s.css")]] } =
      .ok (some { Icon := some { Type_ := "image/png" } }, none) ∧
    ∃ icon, generateIcon (tagWith "link" [("rel", "icon"), ("type", "image/png")])
        "http://example.com/" = .ok icon ∧
      ({ Icon := some { Type_ := "image/png" } } : PageSummary).Icon = some icon :=
  ⟨by decide,
    (extractSummary_last_icon "http://example.com/"
      { tokens := [linkIcon "any" "a.ico", tagWith "link" [("rel", "icon"), ("type", "image/png")],
                   tagWith "link" [("rel", "stylesheet"), ("href", "s.css")]] }
      { Icon := some { Type_ := "image/png" } } (by decide) (by decide)).1
      (tagWith "link" [("rel", "icon"), ("type", "image/png")]) (by decide)⟩

end Handlers

/-! ## The token behind a `title` tag, and the tokens that are no tags -/

namespace Handlers

open Html

/-- C28: when a `title` tag is processed while the title is unset, the token
behind it is consumed whatever it is: the scan goes on with the tokens behind
that one. A text becomes the title; any other token is dropped, so that the
result is the same whichever token that is not text stands there: a tag in
that place gives nothing to the summary, and a `</head>` there does not end
the scan. -/
theorem scan_title_lookahead (pageURL : String) (err : StreamError) (title next : Token)
    (rest : List Token) (r : PageSummary) (i : List PreviewImage)
    (htitle : isTitleTag title = true) (hr : r.Title = "") :
    (next.Type_ = .TextToken →
      scan pageURL err (title :: next :: rest) r i =
        (tagRules pageURL title { r with Title := next.Data } i).bind
          fun s2 => scan pageURL err rest s2.1 s2.2) ∧
    (next.Type_ ≠ .TextToken →
      scan pageURL err (title :: next :: rest) r i =
        (tagRules pageURL title r i).bind fun s2 => scan pageURL err rest s2.1 s2.2) ∧
    (next.Type_ ≠ .TextToken → ∀ other : Token, other.Type_ ≠ .TextToken →
      scan pageURL err (title :: next :: rest) r i =
        scan pageURL err (title :: other :: rest) r i) := by
  have ht : isTag title = true ∧ title.Data = "title" := by
    simpa [isTitleTag] using htitle
  have hc : title.Data = "title" ∧ r.Title = "" := ⟨ht.2, hr⟩
  have hdrop : ∀ n : Token, n.Type_ ≠ .TextToken →
      scan pageURL err (title :: n :: rest) r i =
        (tagRules pageURL title r i).bind fun s2 => scan pageURL err rest s2.1 s2.2 := by
    intro n hn
    have htr : titleRule title (n :: rest).head? r = r := by
      simp [titleRule, hc, hn]
    rw [scan_tag _ _ _ _ _ _ ht.1, htr, if_pos hc, List.tail_cons]
    cases tagRules pageURL title r i <;> rfl
  refine ⟨fun hn => ?_, hdrop next, fun hn other ho => ?_⟩
  · have htr : titleRule title (next :: rest).head? r = { r with Title := next.Data } := by
      simp [titleRule, hc, hn]
    rw [scan_tag _ _ _ _ _ _ ht.1, htr, if_pos hc, List.tail_cons]
    cases tagRules pageURL title { r with Title := next.Data } i <;> rfl
  · rw [hdrop next hn, hdrop other ho]

/-- Witness of C28: an `og:type` tag behind a `title` tag gives no type, and
a `</head>` there does not end the scan: the `og:url` of the body is
stored. -/
theorem scan_title_lookahead_witness :
    extractSummary "http://example.com/"
        { tokens := [startTag "title", metaProperty "og:type" "article",
                     metaProperty "og:url" "http://u/"] } =
      .ok (some { URL := "http://u/" }, none) ∧
    extractSummary "http://example.com/"
        { tokens := [startTag "title", endTag "head", metaProperty "og:url" "http://u/"] } =
      .ok (some { URL := "http://u/" }, none) ∧
    scan "http://example.com/" .EOF
        [startTag "title", metaProperty "og:type" "article", metaProperty "og:url" "http://u/"]
        {} [] =
      scan "http://example.com/" .EOF
        [startTag "title", endTag "head", metaProperty "og:url" "http://u/"] {} [] :=
  ⟨by decide, by decide,
    (scan_title_lookahead "http://example.com/" .EOF (startTag "title")
      (metaProperty "og:type" "article") [metaProperty "og:url" "http://u/"] {} [] (by decide)
      rfl).2.2 (by decide) (endTag "head") (by decide)⟩

/-- The scan gives the same for a stream and for the stream without the
tokens that are no tags, when the tokens directly behind `title` tags are
kept. -/
theorem scan_dropOthers (pageURL : String) (err : StreamError) (n : Nat) :
    ∀ (toks : List Token) (b : Bool) (r : PageSummary) (i : List PreviewImage),
    toks.length ≤ n →
    scan pageURL err (dropOthers b toks) r i = scan pageURL err toks r i := by
  induction n with
  | zero =>
    intro toks b r i hlen
    have : toks = [] := List.eq_nil_of_length_eq_zero (Nat.le_zero.mp hlen)
    subst this
    rfl
  | succ n ih =>
    intro toks b r i hlen
    cases toks with
    | nil => rfl
    | cons t rest =>
      have hlen2 : rest.length ≤ n := by simpa using hlen
      by_cases hk : (b || isTag t || isEndHead t) = true
      · have hdo : dropOthers b (t :: rest) = t :: dropOthers (isTitleTag t) rest := by
          simp only [dropOthers, hk, if_true]
        rw [hdo]
        by_cases he : isEndHead t = true
        · rw [scan_endHead _ _ _ _ _ _ he, scan_endHead _ _ _ _ _ _ he]
        · simp only [Bool.not_eq_true] at he
          by_cases ht : isTag t = true
          · rw [scan_tag _ _ _ _ _ _ ht, scan_tag _ _ _ _ _ _ ht]
            by_cases hc : t.Data = "title" ∧ r.Title = ""
            · have htt : isTitleTag t = true := by simp [isTitleTag, ht, hc.1]
              rw [htt, if_pos hc, if_pos hc]
              cases rest with
              | nil => rfl
              | cons m rest2 =>
                have hdo2 : dropOthers true (m :: rest2) =
                    m :: dropOthers (isTitleTag m) rest2 := by
                  simp [dropOthers]
                rw [hdo2]
                simp only [List.head?_cons, List.tail_cons]
                cases tagRules pageURL t (titleRule t (some m) r) i with
                | error p => rfl
                | ok s2 =>
                  simp only []
                  exact ih rest2 _ s2.1 s2.2 (by simp at hlen2; omega)
            · rw [if_neg hc, if_neg hc]
              have htr : ∀ x : Option Token, titleRule t x r = r := by
                intro x; simp [titleRule, hc]
              rw [htr, htr]
              cases tagRules pageURL t r i with
              | error p => rfl
              | ok s2 =>
                simp only []
                exact ih rest _ s2.1 s2.2 hlen2
          · simp only [Bool.not_eq_true] at ht
            rw [scan_other _ _ _ _ _ _ he ht, scan_other _ _ _ _ _ _ he ht]
            exact ih rest _ r i hlen2
      · have hdo : dropOthers b (t :: rest) = dropOthers false rest := by
          simp only [dropOthers, hk, if_false, Bool.false_eq_true]
        simp only [Bool.not_eq_true, Bool.or_eq_false_iff] at hk
        rw [hdo, scan_other _ _ _ _ _ _ hk.2 hk.1.2]
        exact ih rest _ r i hlen2

/-- C29 (counterexample): the end tag `title` is neither a tag that is read
nor a text; in the stream without it the `og:type` tag stands behind the
`title` tag, is read ahead and dropped, and the type is lost. -/
theorem extractSummary_dropOthers_counterexample :
    extractSummary "http://example.com/"
        { tokens := [startTag "title", endTag "title", metaProperty "og:type" "article",
                     endTag "head"] } =
      .ok (some { Type_ := "article" }, none) ∧
    [startTag "title", endTag "title", metaProperty "og:type" "article", endTag "head"].filter
        (fun t => isTag t || isEndHead t) =
      [startTag "title", metaProperty "og:type" "article", endTag "head"] ∧
    extractSummary "http://example.com/"
        { tokens := [startTag "title", metaProperty "og:type" "article", endTag "head"] } =
      .ok (some {}, none) := by
  decide

/-- C29 (amended): a token that is neither a start or self-closing tag nor
`</head>`, met where the scan reads the next token, is passed over and
leaves the summary and the images as they are; and the stream without all
such tokens, those directly behind a `title` tag kept, gives the same result
of `extractSummary` as the stream itself. -/
theorem extractSummary_dropOthers (pageURL : String) (htmlStream : Tokenizer) :
    extractSummary pageURL
        { tokens := dropOthers false htmlStream.tokens, err := htmlStream.err } =
      extractSummary pageURL htmlStream ∧
    ∀ (t : Token) (rest : List Token) (r : PageSummary) (i : List PreviewImage),
      isTag t = false → isEndHead t = false →
      scan pageURL htmlStream.err (t :: rest) r i = scan pageURL htmlStream.err rest r i :=
  ⟨scan_dropOthers pageURL htmlStream.err htmlStream.tokens.length htmlStream.tokens false {} []
      (le_refl _),
    fun t rest r i h1 h2 => scan_other pageURL htmlStream.err t rest r i h2 h1⟩

/-- Witness of C29 (amended): a page with a doctype, a comment, text and end
tags; the end tag behind the empty second `title` is kept. -/
theorem extractSummary_dropOthers_witness :
    dropOthers false
        [{ Type_ := .DoctypeToken, Data := "html" }, startTag "head", startTag "title",
         textToken "T", endTag "title", { Type_ := .CommentToken, Data := "c" },
         startTag "title", endTag "title", metaProperty "og:type" "article", textToken " ",
         endTag "head", textToken "body"] =
      [startTag "head", startTag "title", textToken "T", startTag "title", endTag "title",
       metaProperty "og:type" "article", endTag "head"] ∧
    extractSummary "http://example.com/"
        { tokens := dropOthers false
            [{ Type_ := .DoctypeToken, Data := "html" }, startTag "head", startTag "title",
             textToken "T", endTag "title", { Type_ := .CommentToken, Data := "c" },
             startTag "title", endTag "title", metaProperty "og:type" "article", textToken " ",
             endTag "head", textToken "body"],
          err := .EOF } =
      extractSummary "http://example.com/"
        { tokens :=
            [{ Type_ := .DoctypeToken, Data := "html" }, startTag "head", startTag "title",
             textToken "T", endTag "title", { Type_ := .CommentToken, Data := "c" },
             startTag "title", endTag "title", metaProperty "og:type" "article", textToken " ",
             endTag "head", textToken "body"],
          err := .EOF } ∧
    scan "http://example.com/" .EOF [textToken "x", metaProperty "og:type" "article"] {} [] =
      scan "http://example.com/" .EOF [metaProperty "og:type" "article"] {} [] :=
  ⟨by decide,
    (extractSummary_dropOthers "http://example.com/"
      { tokens :=
          [{ Type_ := .DoctypeToken, Data := "html" }, startTag "head", startTag "title",
           textToken "T", endTag "title", { Type_ := .CommentToken, Data := "c" },
           startTag "title", endTag "title", metaProperty "og:type" "article", textToken " ",
           endTag "head", textToken "body"],
        err := .EOF }).1,
    (extractSummary_dropOthers "http://example.com/" { tokens := [] }).2 (textToken "x")
      [metaProperty "og:type" "article"] {} [] (by decide) (by decide)⟩

/-- C30 (failing input): a width 100, then a width whose content does not
parse as an `int` because it is out of range. The width of the record is not
0 behind it but the bound of the `int` range, the value that `Atoi` returns
with its error. A content that is no numeral does overwrite the width with
0. -/
theorem extractSummary_width_overwritten :
    (Strconv.Atoi "99999999999999999999").2 = false ∧
    extractSummary "http://example.com/"
        { tokens := [metaProperty "og:image" "a.png", metaProperty "og:image:width" "100",
                     metaProperty "og:image:width" "99999999999999999999"] } =
      .ok (some { Images := some [{ URL := "a.png", Width := 9223372036854775807 }] }, none) ∧
    (Strconv.Atoi "wide").2 = false ∧
    extractSummary "http://example.com/"
        { tokens := [metaProperty "og:image" "a.png", metaProperty "og:image:width" "100",
                     metaProperty "og:image:width" "wide"] } =
      .ok (some { Images := some [{ URL := "a.png", Width := 0 }] }, none) := by
  decide

end Handlers

/-! ## `resolveLink` applied twice -/

namespace NetURL

/-- A letter of the alphabet, as `getScheme` tests it. -/
theorem letter_ne_slash (c : Char)
    (h : (97 ≤ c.toNat ∧ c.toNat ≤ 122) ∨ (65 ≤ c.toNat ∧ c.toNat ≤ 90)) :
    toLowerASCII c ≠ '/' := by
  unfold toLowerASCII
  split_ifs with hu
  · generalize c.toNat = n at hu
    obtain ⟨h1, h2⟩ := hu
    interval_cases n <;> decide
  · intro hc
    have : c.toNat = 47 := by rw [hc]; rfl
    omega

/-- The scheme that `getScheme` finds starts with a letter. -/
theorem getScheme_go_head (raw : List Char) :
    ∀ (cs seen sch rest : List Char),
    getScheme.go raw seen cs = some (sch, rest) →
    (seen = [] ∨ ∃ c, seen.head? = some c ∧
      ((97 ≤ c.toNat ∧ c.toNat ≤ 122) ∨ (65 ≤ c.toNat ∧ c.toNat ≤ 90))) →
    sch = [] ∨ ∃ c, sch.head? = some c ∧
      ((97 ≤ c.toNat ∧ c.toNat ≤ 122) ∨ (65 ≤ c.toNat ∧ c.toNat ≤ 90)) := by
  intro cs
  induction cs with
  | nil =>
    intro seen sch rest h _
    simp only [getScheme.go, Option.some.injEq, Prod.mk.injEq] at h
    exact Or.inl h.1.symm
  | cons c cs ih =>
    intro seen sch rest h hseen
    have hnext : ∀ d : Char, ((97 ≤ d.toNat ∧ d.toNat ≤ 122) ∨ (65 ≤ d.toNat ∧ d.toNat ≤ 90)) ∨
        seen ≠ [] →
        (seen ++ [d] = [] ∨ ∃ e, (seen ++ [d]).head? = some e ∧
          ((97 ≤ e.toNat ∧ e.toNat ≤ 122) ∨ (65 ≤ e.toNat ∧ e.toNat ≤ 90))) := by
      intro d hd
      right
      rcases hseen with hs | ⟨e, he, hl⟩
      · subst hs
        rcases hd with hd | hd
        · exact ⟨d, rfl, hd⟩
        · exact absurd rfl hd
      · refine ⟨e, ?_, hl⟩
        cases seen with
        | nil => simp at he
        | cons a t => simpa using he
    simp only [getScheme.go] at h
    by_cases h1 : (97 ≤ c.toNat ∧ c.toNat ≤ 122) ∨ (65 ≤ c.toNat ∧ c.toNat ≤ 90)
    · rw [if_pos h1] at h
      exact ih _ _ _ h (hnext c (Or.inl h1))
    · rw [if_neg h1] at h
      by_cases h2 : (48 ≤ c.toNat ∧ c.toNat ≤ 57) ∨ c = '+' ∨ c = '-' ∨ c = '.'
      · rw [if_pos h2] at h
        by_cases h3 : seen = []
        · rw [if_pos h3] at h
          simp only [Option.some.injEq, Prod.mk.injEq] at h
          exact Or.inl h.1.symm
        · rw [if_neg h3] at h
          exact ih _ _ _ h (hnext c (Or.inr h3))
      · rw [if_neg h2] at h
        by_cases h4 : c = ':'
        · rw [if_pos h4] at h
          by_cases h3 : seen = []
          · rw [if_pos h3] at h; cases h
          · rw [if_neg h3] at h
            simp only [Option.some.injEq, Prod.mk.injEq] at h
            rw [← h.1]
            rcases hseen with hs | hs
            · exact absurd hs h3
            · exact Or.inr hs
        · rw [if_neg h4] at h
          simp only [Option.some.injEq, Prod.mk.injEq] at h
          exact Or.inl h.1.symm

/-- The scheme of a URL that `parse` returns does not start with `/`. -/
theorem parse_scheme_head (raw : List Char) (url : URL) (h : parse raw = some url)
    (hs : url.Scheme ≠ "") : ∃ c, url.Scheme.data.head? = some c ∧ c ≠ '/' := by
  unfold parse at h
  split_ifs at h with h1 h2
  · cases h
    exact absurd rfl hs
  · cases hg : getScheme raw with
    | none => rw [hg] at h; cases h
    | some v =>
      obtain ⟨sch, afterScheme⟩ := v
      rw [hg] at h
      simp only [] at h
      have hsch := parseRest_scheme _ _ _ h
      simp only [] at hsch
      rcases getScheme_go_head raw raw [] sch afterScheme hg (Or.inl rfl) with h0 | ⟨c, hc, hl⟩
      · subst h0
        rw [hsch] at hs
        exact absurd rfl hs
      · refine ⟨toLowerASCII c, ?_, letter_ne_slash c hl⟩
        rw [hsch]
        cases sch with
        | nil => simp at hc
        | cons a t =>
          simp only [List.head?_cons, Option.some.injEq] at hc
          subst hc
          rfl

theorem Parse_scheme_head (rawURL : String) (url : URL) (h : Parse rawURL = some url)
    (hs : url.Scheme ≠ "") : ∃ c, url.Scheme.data.head? = some c ∧ c ≠ '/' := by
  unfold Parse at h
  simp only [Option.bind_eq_some] at h
  obtain ⟨v, hv, h⟩ := h
  split_ifs at h
  · cases h
    exact parse_scheme_head _ _ hv hs
  · have hf := (setFragment_fields _ _ _ h).1
    rw [hf] at hs ⊢
    exact parse_scheme_head _ _ hv hs

/-- A reference without a scheme is resolved to a URL with the scheme of the
base. -/
theorem ResolveReference_scheme (base ref url : URL) (h0 : ref.Scheme = "")
    (h : ResolveReference (some base) (some ref) = .ok url) : url.Scheme = base.Scheme := by
  have hsp : ∀ (v : URL) (p : List Char), ((v.setPath p).getD v).Scheme = v.Scheme := by
    intro v p
    cases hv : v.setPath p with
    | none => rfl
    | some w => exact (setPath_fields _ _ _ hv).1
  unfold ResolveReference at h
  simp only [h0, ne_eq, not_true_eq_false, if_false] at h
  split_ifs at h
  all_goals
    simp only [Except.ok.injEq] at h
    subst h
    first
      | rfl
      | exact hsp _ _

/-- The text of a URL with a scheme starts as the scheme does. -/
theorem String_head (url : URL) (hs : url.Scheme ≠ "") :
    url.String.data.head? = url.Scheme.data.head? := by
  have hne : url.Scheme.data ≠ [] := by
    intro h
    exact hs (String.ext h)
  have key : ∀ (a b : List Char), a ≠ [] → (a ++ b).head? = a.head? := by
    intro a b ha
    cases a with
    | nil => exact absurd rfl ha
    | cons x t => rfl
  have hpre : ∃ rest, url.String.data = url.Scheme.data ++ rest := by
    simp only [URL.String, hs, ne_eq, not_false_eq_true, if_true, true_or]
    split_ifs <;> simp only [List.append_assoc] <;> exact ⟨_, rfl⟩
  obtain ⟨rest, hr⟩ := hpre
  rw [hr, key _ _ hne]

end NetURL

namespace Handlers

open Html

/-- C31: for a page URL that parses and has a scheme (an absolute URL), and a
candidate `p` for which `resolveLink` returns `x` without a panic,
`resolveLink` returns `x` for `x` again. -/
theorem resolveLink_idempotent (p pageURL x : String) (base : NetURL.URL)
    (hbase : NetURL.Parse pageURL = some base) (habs : base.Scheme ≠ "")
    (h : resolveLink p pageURL = .ok x) : resolveLink x pageURL = .ok x := by
  by_cases hp : Strings.HasPrefix p "/" = true
  · have hx : Strings.HasPrefix x "/" = false := by
      unfold resolveLink at h
      rw [if_neg (by simp [hp]), hbase] at h
      cases href : NetURL.Parse p with
      | none =>
        rw [href] at h
        simp [NetURL.ResolveReference] at h
      | some ref =>
        rw [href] at h
        have hs0 := NetURL.Parse_slash_scheme p ref href hp
        cases hres : NetURL.ResolveReference (some base) (some ref) with
        | error e => rw [hres] at h; cases h
        | ok url =>
          rw [hres] at h
          simp only [Except.ok.injEq] at h
          have hsch := NetURL.ResolveReference_scheme base ref url hs0 hres
          obtain ⟨c, hc, hne⟩ := NetURL.Parse_scheme_head pageURL base hbase habs
          have hhead : x.data.head? = some c := by
            rw [← h, NetURL.String_head url (by rw [hsch]; exact habs), hsch, hc]
          cases hd : x.data with
          | nil => rw [hd] at hhead; simp at hhead
          | cons a t =>
            rw [hd] at hhead
            simp only [List.head?_cons, Option.some.injEq] at hhead
            subst hhead
            have : ("/" : String).data = ['/'] := rfl
            simp only [Strings.HasPrefix, hd, this, List.isPrefixOf]
            simp
            exact fun hc2 => hne hc2.symm
    simp [resolveLink, hx]
  · simp only [Bool.not_eq_true] at hp
    have hxp : x = p := by
      simp only [resolveLink, hp, Bool.false_eq_true, not_false_eq_true, if_true,
        Except.ok.injEq] at h
      exact h.symm
    rw [hxp]
    simp [resolveLink, hp]

/-- Witness of C31: `/icon.png` against `https://example.com/a/b`, and a
candidate without a leading `/`. -/
theorem resolveLink_idempotent_witness :
    resolveLink "/icon.png" "https://example.com/a/b" = .ok "https://example.com/icon.png" ∧
    resolveLink "https://example.com/icon.png" "https://example.com/a/b" =
      .ok "https://example.com/icon.png" ∧
    resolveLink "img/1.png" "https://example.com/a/b" = .ok "img/1.png" :=
  ⟨by decide,
    resolveLink_idempotent "/icon.png" "https://example.com/a/b" "https://example.com/icon.png"
      { Scheme := "https", Host := [101, 120, 97, 109, 112, 108, 101, 46, 99, 111, 109],
        Path := [47, 97, 47, 98] }
      (by decide) (by decide) (by decide),
    resolveLink_idempotent "img/1.png" "https://example.com/a/b" "img/1.png"
      { Scheme := "https", Host := [101, 120, 97, 109, 112, 108, 101, 46, 99, 111, 109],
        Path := [47, 97, 47, 98] }
      (by decide) (by decide) (by decide)⟩

end Handlers

/-! ## The urls of the image records -/

namespace Handlers

open Html

/-- A candidate that is not empty is not resolved to the empty string, when
the page URL has a scheme. -/
theorem resolveLink_ne_empty (c pageURL u : String) (hc : c ≠ "")
    (hpage : ∀ base, NetURL.Parse pageURL = some base → base.Scheme ≠ "")
    (h : resolveLink c pageURL = .ok u) : u ≠ "" := by
  by_cases hp : Strings.HasPrefix c "/" = true
  · unfold resolveLink at h
    rw [if_neg (by simp [hp])] at h
    cases href : NetURL.Parse c with
    | none =>
      rw [href] at h
      simp [NetURL.ResolveReference] at h
    | some ref =>
      have hs0 := NetURL.Parse_slash_scheme c ref href hp
      cases hbase : NetURL.Parse pageURL with
      | none =>
        rw [href, hbase] at h
        simp [NetURL.ResolveReference, hs0] at h
      | some base =>
        rw [href, hbase] at h
        cases hres : NetURL.ResolveReference (some base) (some ref) with
        | error e => rw [hres] at h; cases h
        | ok url =>
          rw [hres] at h
          simp only [Except.ok.injEq] at h
          have hsch := NetURL.ResolveReference_scheme base ref url hs0 hres
          have habs := hpage base hbase
          obtain ⟨ch, hch, _⟩ := NetURL.Parse_scheme_head pageURL base hbase habs
          intro hu
          have hhead : u.data.head? = some ch := by
            rw [← h, NetURL.String_head url (by rw [hsch]; exact habs), hsch, hch]
          rw [hu] at hhead
          simp at hhead
  · simp only [Bool.not_eq_true] at hp
    simp only [resolveLink, hp, Bool.false_eq_true, not_false_eq_true, if_true,
      Except.ok.injEq] at h
    rw [← h]
    exact hc

/-- The image rules keep the URLs of the records; an `og:image` property
adds a record with the resolved content. -/
theorem imageRules_urls (pageURL p c : String) (imgs x : List PreviewImage)
    (hpage : ∀ base, NetURL.Parse pageURL = some base → base.Scheme ≠ "")
    (hgood : p = "og:image" → c ≠ "")
    (hi : ∀ img ∈ imgs, img.URL ≠ "")
    (h : imageRules pageURL p c imgs = .ok x) : ∀ img ∈ x, img.URL ≠ "" := by
  by_cases hp : p = "og:image"
  · subst hp
    cases hr : resolveLink c pageURL with
    | error e => simp [imageRules, hr] at h
    | ok u =>
      rw [imageRules_image _ _ _ _ hr] at h
      cases h
      intro img hm
      rcases List.mem_append.mp hm with hm | hm
      · exact hi img hm
      · simp only [List.mem_singleton] at hm
        subst hm
        exact resolveLink_ne_empty c pageURL u (hgood rfl) hpage hr
  · rcases List.eq_nil_or_concat imgs with h0 | ⟨init, l, h0⟩
    · subst h0
      rw [imageRules_nil _ _ _ _ hp h]
      intro img hm
      cases hm
    · rw [List.concat_eq_append] at h0
      subst h0
      rw [imageRules_detail _ _ _ _ _ hp] at h
      cases h
      intro img hm
      rcases List.mem_append.mp hm with hm | hm
      · exact hi img (List.mem_append_left _ hm)
      · simp only [List.mem_singleton] at hm
        subst hm
        rw [updDetail_URL]
        exact hi l (List.mem_append_right _ (List.mem_singleton_self l))

/-- One attribute in the loop of `generateIcon`: an `href` sets the url to
what `resolveLink` returns for its value, another attribute leaves it. -/
theorem iconAttr_URL (pageURL : String) (result r2 : PreviewImage) (a : Attribute)
    (h : iconAttr pageURL result a = .ok r2) :
    (a.Key = "href" → resolveLink a.Val pageURL = .ok r2.URL) ∧
      (a.Key ≠ "href" → r2.URL = result.URL) := by
  unfold iconAttr at h
  split at h
  · cases h
  · rename_i r1 hr1
    have h1 : (a.Key = "href" → resolveLink a.Val pageURL = .ok r1.URL) ∧
        (a.Key ≠ "href" → r1.URL = result.URL) := by
      split_ifs at hr1 with hk
      · split at hr1
        · rename_i u hu
          cases hr1
          exact ⟨fun _ => hu, fun hn => absurd hk hn⟩
        · cases hr1
      · cases hr1
        exact ⟨fun hn => absurd hn hk, fun _ => rfl⟩
    have h2 : r2.URL = r1.URL := by
      simp only [] at h
      by_cases hs : a.Key = "sizes" ∧ a.Val ≠ "any"
      · rw [if_pos hs] at h
        rw [iconSizes_URL _ _ _ h]
        split_ifs <;> rfl
      · rw [if_neg hs] at h
        simp only [Except.ok.injEq] at h
        rw [← h]
        split_ifs <;> rfl
    rw [h2]
    exact h1

/-- The url of the icon that `generateIcon` builds is what `resolveLink`
returns for the value of the last `href` attribute; without an `href` it is
the url at the start of the loop. -/
theorem iconLoop_URL (pageURL : String) :
    ∀ (attrs : List Attribute) (result r2 : PreviewImage),
    iconLoop pageURL attrs result = .ok r2 →
    (∀ b, (attrs.filter fun a => decide (a.Key = "href")).getLast? = some b →
      resolveLink b.Val pageURL = .ok r2.URL) ∧
    ((attrs.filter fun a => decide (a.Key = "href")).getLast? = none →
      r2.URL = result.URL) := by
  intro attrs
  induction attrs with
  | nil =>
    intro result r2 h
    simp only [iconLoop, Except.ok.injEq] at h
    subst h
    exact ⟨fun b hb => by simp at hb, fun _ => rfl⟩
  | cons a attrs ih =>
    intro result r2 h
    simp only [iconLoop] at h
    split at h
    · cases h
    · rename_i r1 hr1
      obtain ⟨g1, g2⟩ := iconAttr_URL pageURL result r1 a hr1
      obtain ⟨i1, i2⟩ := ih r1 r2 h
      by_cases hk : a.Key = "href"
      · have hf : (a :: attrs).filter (fun a => decide (a.Key = "href")) =
            a :: attrs.filter (fun a => decide (a.Key = "href")) := by
          simp [List.filter_cons, hk]
        rw [hf]
        cases hl : attrs.filter (fun a => decide (a.Key = "href")) with
        | nil =>
          rw [hl] at i2
          refine ⟨fun b hb => ?_, fun hn => by simp at hn⟩
          simp only [List.getLast?_singleton, Option.some.injEq] at hb
          subst hb
          rw [i2 rfl]
          exact g1 hk
        | cons b l =>
          rw [hl] at i1
          rw [List.getLast?_cons_cons]
          exact ⟨i1, fun hn => by simp [List.getLast?_eq_none_iff] at hn⟩
      · have hf : (a :: attrs).filter (fun a => decide (a.Key = "href")) =
            attrs.filter (fun a => decide (a.Key = "href")) := by
          simp [List.filter_cons, hk]
        rw [hf]
        exact ⟨i1, fun hn => by rw [i2 hn, g2 hk]⟩

/-- What `hasImageURLs` says of a tag. -/
theorem hasImageURLs_spec (t : Token) (h : hasImageURLs t = true) :
    (property t = "og:image" → content t ≠ "") ∧
    (t.Data = "link" → getRel t = "icon" →
      ∃ a, (t.Attr.filter fun a => decide (a.Key = "href")).getLast? = some a ∧ a.Val ≠ "") := by
  simp only [hasImageURLs, Bool.and_eq_true, Bool.or_eq_true, Bool.not_eq_true',
    decide_eq_false_iff_not, decide_eq_true_eq, Bool.and_eq_false_imp] at h
  obtain ⟨h1, h2⟩ := h
  constructor
  · intro hp
    rcases h1 with h1 | h1
    · exact absurd hp h1
    · exact h1
  · intro hd hr
    rcases h2 with h2 | h2
    · exact absurd hr (h2 hd)
    · cases hl : (t.Attr.filter fun a => decide (a.Key = "href")).getLast? with
      | none => rw [hl] at h2; simp at h2
      | some a =>
        rw [hl] at h2
        exact ⟨a, rfl, by simpa using h2⟩

/-- The records of the scan keep a URL that is not empty when the tags of
the head give one. -/
theorem scan_image_urls (pageURL : String)
    (hpage : ∀ base, NetURL.Parse pageURL = some base → base.Scheme ≠ "")
    (err : StreamError) (n : Nat) :
    ∀ (toks : List Token) (r s : PageSummary) (i : List PreviewImage),
    toks.length ≤ n → LookaheadSafe isTag toks = true →
    (∀ t ∈ headTags toks, hasImageURLs t = true) →
    (∀ ic, r.Icon = some ic → ic.URL ≠ "") →
    (∀ l, r.Images = some l → ∀ img ∈ l, img.URL ≠ "") →
    (∀ img ∈ i, img.URL ≠ "") →
    scan pageURL err toks r i = .ok (some s, none) →
    (∀ ic, s.Icon = some ic → ic.URL ≠ "") ∧
      (∀ l, s.Images = some l → ∀ img ∈ l, img.URL ≠ "") := by
  have hfin : ∀ (r s : PageSummary) (i : List PreviewImage),
      (∀ ic, r.Icon = some ic → ic.URL ≠ "") →
      (∀ l, r.Images = some l → ∀ img ∈ l, img.URL ≠ "") →
      (∀ img ∈ i, img.URL ≠ "") →
      finish r i = (some s, none) →
      (∀ ic, s.Icon = some ic → ic.URL ≠ "") ∧
        (∀ l, s.Images = some l → ∀ img ∈ l, img.URL ≠ "") := by
    intro r s i h1 h2 h3 h
    have hI := (finish_scalars r s i h).2.2.2.2.2
    have hM := (finish_fields r s i h).2.2
    refine ⟨fun ic hic => h1 ic (by rw [← hI]; exact hic), fun l hl => ?_⟩
    rw [hM] at hl
    split_ifs at hl
    · cases hl; exact h3
    · exact h2 l hl
  have hat : ∀ (r s : PageSummary) (i : List PreviewImage),
      (∀ ic, r.Icon = some ic → ic.URL ≠ "") →
      (∀ l, r.Images = some l → ∀ img ∈ l, img.URL ≠ "") →
      (∀ img ∈ i, img.URL ≠ "") →
      atError err r i = (some s, none) →
      (∀ ic, s.Icon = some ic → ic.URL ≠ "") ∧
        (∀ l, s.Images = some l → ∀ img ∈ l, img.URL ≠ "") := by
    intro r s i h1 h2 h3 h
    cases err with
    | EOF => exact hfin r s i h1 h2 h3 h
    | other => simp [atError] at h
  induction n with
  | zero =>
    intro toks r s i hlen hc hg h1 h2 h3 hret
    have : toks = [] := List.eq_nil_of_length_eq_zero (Nat.le_zero.mp hlen)
    subst this
    simp only [scan, Except.ok.injEq] at hret
    exact hat _ _ _ h1 h2 h3 hret
  | succ n ih =>
    intro toks r s i hlen hc hg h1 h2 h3 hret
    cases toks with
    | nil =>
      simp only [scan, Except.ok.injEq] at hret
      exact hat _ _ _ h1 h2 h3 hret
    | cons t rest =>
      have hlen2 : rest.length ≤ n := by simpa using hlen
      have hc2 := LookaheadSafe_tail _ t rest hc
      by_cases he : isEndHead t = true
      · rw [scan_endHead _ _ _ _ _ _ he] at hret
        simp only [Except.ok.injEq] at hret
        exact hfin _ _ _ h1 h2 h3 hret
      · simp only [Bool.not_eq_true] at he
        by_cases ht : isTag t = true
        · rw [scan_tag _ _ _ _ _ _ ht] at hret
          rw [headTags_tag _ _ ht] at hg
          obtain ⟨hsafe, hcase⟩ := lookahead_cases isTag t rest
            (t.Data = "title" ∧ r.Title = "") ht (fun h => h.1) hc
          have hlen3 := tail_length_le (t.Data = "title" ∧ r.Title = "") rest
          have hg3 : ∀ u ∈ headTags (if t.Data = "title" ∧ r.Title = "" then rest.tail else rest),
              hasImageURLs u = true := by
            intro u hu
            apply hg u
            apply List.mem_cons_of_mem
            rcases hcase with h | ⟨m, hm, hm1, hm2⟩
            · rw [h] at hu; exact hu
            · rw [hm, headTags_other _ _ hm2 hm1]; exact hu
          obtain ⟨hgi, hgl⟩ := hasImageURLs_spec t (hg t (List.mem_cons_self _ _))
          cases hs : tagRules pageURL t (titleRule t rest.head? r) i with
          | error p => rw [hs] at hret; cases hret
          | ok s2 =>
            rw [hs] at hret
            simp only [] at hret
            obtain ⟨_, _, k3, k4⟩ := tagRules_ok _ _ _ _ _ hs
            rw [titleRule_Images] at k3
            refine ih _ s2.1 s s2.2 (le_trans hlen3 hlen2) hsafe hg3 ?_ ?_ ?_ hret
            · intro ic hic
              rcases tagRules_Icon _ _ _ _ _ hs with ⟨_, hI⟩ | ⟨hcl, icon, hicon, hI⟩
              · rw [hI, (titleRule_fields t rest.head? r).2.2.2.2.2] at hic
                exact h1 ic hic
              · rw [hI] at hic
                cases hic
                obtain ⟨a, ha, hav⟩ := hgl hcl.1 hcl.2
                have hres := (iconLoop_URL pageURL t.Attr {} ic hicon).1 a ha
                exact resolveLink_ne_empty a.Val pageURL ic.URL hav hpage hres
            · intro l hl
              rw [k3] at hl
              exact h2 l hl
            · exact imageRules_urls pageURL _ _ i s2.2 hpage hgi h3 k4
        · simp only [Bool.not_eq_true] at ht
          rw [scan_other _ _ _ _ _ _ he ht] at hret
          rw [headTags_other _ _ he ht] at hg
          exact ih rest r s i hlen2 hc2 hg h1 h2 h3 hret

/-- C20 (counterexample): an icon link without an `href` attribute, and an
`og:image` property whose content is empty, give records whose url is
empty. -/
theorem extractSummary_image_urls_counterexample :
    extractSummary "http://example.com/"
        { tokens := [tagWith "link" [("rel", "icon"), ("type", "image/png")]] } =
      .ok (some { Icon := some { URL := "", Type_ := "image/png" } }, none) ∧
    extractSummary "http://example.com/"
        { tokens := [metaProperty "og:image" "", metaProperty "og:image:alt" "logo"] } =
      .ok (some { Images := some [{ URL := "", Alt := "logo" }] }, none) := by
  decide

/-- Against a page URL without a scheme the hypothesis on the page URL is
needed: the candidate `//` is not empty, and against the page URL `#` (which
`http.Get` cannot fetch) `resolveLink` returns the empty string for it. -/
theorem extractSummary_image_urls_schemeless :
    (NetURL.Parse "#").map (fun u => u.Scheme) = some "" ∧
    resolveLink "//" "#" = .ok "" ∧
    extractSummary "#" { tokens := [metaProperty "og:image" "//"] } =
      .ok (some { Images := some [{ URL := "" }] }, none) := by
  decide

/-- C20 (amended): for a page URL with a scheme and a tokenized stream, when
in the head the content of every `og:image` tag is not empty and every
`rel="icon"` link has an `href` attribute, the last of which has a value that
is not empty, then the icon and each image of the summary that
`extractSummary` returns have a url that is not empty. -/
theorem extractSummary_image_urls (pageURL : String) (htmlStream : Tokenizer)
    (s : PageSummary)
    (hpage : ∀ base, NetURL.Parse pageURL = some base → base.Scheme ≠ "")
    (htok : Tokenized htmlStream.tokens = true)
    (hgood : ∀ t ∈ headTags htmlStream.tokens, hasImageURLs t = true)
    (hret : extractSummary pageURL htmlStream = .ok (some s, none)) :
    (∀ icon, s.Icon = some icon → icon.URL ≠ "") ∧
      ∀ imgs, s.Images = some imgs → ∀ img ∈ imgs, img.URL ≠ "" :=
  scan_image_urls pageURL hpage htmlStream.err htmlStream.tokens.length htmlStream.tokens {} s []
    (le_refl _) (Tokenized_safe isTag (fun _ h => h) _ htok) hgood (fun ic h => by cases h)
    (fun l h => by cases h) (fun img h => by cases h) hret

/-- Witness of C20 (amended): an icon and three images in the head, one of
them a link that starts with `//`; a link without `href` in the body does not
count. -/
theorem extractSummary_image_urls_witness :
    extractSummary "http://example.com/a/b"
        { tokens := [linkIcon "any" "favicon.ico", metaProperty "og:image" "img/1.png",
                     metaProperty "og:image:alt" "one",
                     metaProperty "og:image" "//cdn.example.com/2.png", endTag "head",
                     tagWith "link" [("rel", "icon")]] } =
      .ok (some { Icon := some { URL := "favicon.ico" },
                  Images := some [{ URL := "img/1.png", Alt := "one" },
                                  { URL := "http://cdn.example.com/2.png" }] }, none) ∧
    ((∀ icon, ({ Icon := some { URL := "favicon.ico" },
                 Images := some [{ URL := "img/1.png", Alt := "one" },
                                 { URL := "http://cdn.example.com/2.png" }] } :
          PageSummary).Icon = some icon → icon.URL ≠ "") ∧
      ∀ imgs, ({ Icon := some { URL := "favicon.ico" },
                 Images := some [{ URL := "img/1.png", Alt := "one" },
                                 { URL := "http://cdn.example.com/2.png" }] } :
          PageSummary).Images = some imgs → ∀ img ∈ imgs, img.URL ≠ "") :=
  ⟨by decide,
    extractSummary_image_urls "http://example.com/a/b"
      { tokens := [linkIcon "any" "favicon.ico", metaProperty "og:image" "img/1.png",
                   metaProperty "og:image:alt" "one",
                   metaProperty "og:image" "//cdn.example.com/2.png", endTag "head",
                   tagWith "link" [("rel", "icon")]] }
      { Icon := some { URL := "favicon.ico" },
        Images := some [{ URL := "img/1.png", Alt := "one" },
                        { URL := "http://cdn.example.com/2.png" }] }
      (fun base h => by
        rw [show NetURL.Parse "http://example.com/a/b" =
          some { Scheme := "http", Host := [101, 120, 97, 109, 112, 108, 101, 46, 99, 111, 109],
                 Path := [47, 97, 47, 98] } from by decide] at h
        cases h
        decide)
      (by decide) (by decide) (by decide)⟩

end Handlers
